import Mathlib

/-!
# LiquidCore: the JavaScriptCore-on-V8 class dispatcher

A shallow embedding of the interceptor callbacks of `OpaqueJSClass`
(`NodeDroid-library/jni/JSC/JSC_JSObject.cpp`) and of the handle encoding of
`Common/JSValue.h`.

Conventions of the embedding.

* A class definition chain (`definition`, `definition->parentClass->m_definition`, ...)
  is a finite acyclic singly linked list; it is represented by the list of its
  levels, the instance's own definition first and the root last.  The empty list is
  the null definition pointer.  `parentClass` is therefore the tail of the list.
* A nullable handle (`JSValueRef`, a hook pointer, a table pointer) is an `Option`.
* A host hook is a function of the arguments that vary within one handler call
  (`ctx` and `thisObject` are fixed for the whole call and left implicit).  A hook with
  a `JSValueRef* exception` out-parameter returns what it leaves in it; every hook is
  entered with that out-parameter still null.
* Property names are the C strings the handler works with (`*str`).
* A handler is modelled past its prologue `V8_ISOLATE_CALLBACK`, that is for a data
  object whose context pointer `InitInstance` has set; before that the prologue
  returns at once.
* Every handler returns, next to what it hands to the engine, the sequence of host
  callbacks it invoked, in invocation order (`calls`).  The `level` of a callback is
  the position of its definition in the chain, `0` being the instance's own.
* A 64-bit reference (`jlong`, `long`) is its bit pattern, a natural number below
  `2^64`; the `int` counter of a handle is an integer wrapped to 32 bits.
* The fallible entry points of the object API take the engine operations they call as
  a parameter (`V8`); an exception out-parameter is `none` when no pointer was passed
  and `some content` otherwise.
* Where acyclicity itself is at stake, the definitions are addresses of a `ClassHeap`
  with an arbitrary parent function, and every loop is given fuel.
-/

namespace JSC

/-- Engine values (`v8::Value`) as far as the dispatcher can tell them apart. -/
inductive Value where
  | undefined
  | null
  | boolean (b : Bool)
  | number (n : Int)
  | string (s : String)
  | object (id : Nat)
  | instance_ (jsClass : Nat)
  | error (message : String)
  deriving DecidableEq, Repr

/-- The test `Value::IsObject()`. -/
def Value.IsObject : Value → Bool
  | .object _ => true
  | .instance_ _ => true
  | .error _ => true
  | _ => false

/-- The object `Exception::Error(message)`. -/
def Exception.Error (message : String) : Value := Value.error message

/-- What a value-returning hook leaves: its return value and `*exception`. -/
structure HookResult where
  value : Option Value := none
  exception : Option Value := none
  deriving DecidableEq, Repr

/-- What a `bool`-returning hook with an exception out-parameter leaves. -/
structure BoolResult where
  result : Bool := false
  exception : Option Value := none
  deriving DecidableEq, Repr

/-- The type argument of `convertToType` (`JSType`), as far as the source names it. -/
inductive JSType where
  | kJSTypeNumber
  | kJSTypeString
  deriving DecidableEq, Repr

/-- Modelled from the spec: the attribute flag `kJSPropertyAttributeDontEnum` of the
absent header `JSC.h` (the entry is flagged "don't enumerate"); the JavaScriptCore
API gives it the bit `1 << 2`. -/
def kJSPropertyAttributeDontEnum : Nat := 4

/-- An entry of a static property table (`JSStaticValue`). -/
structure JSStaticValue where
  name : String
  getProperty : Option (String → HookResult) := none
  setProperty : Option (String → Value → BoolResult) := none
  attributes : Nat := 0

/-- An entry of a static function table (`JSStaticFunction`). -/
structure JSStaticFunction where
  name : String
  callAsFunction : Option (Value → List Value → HookResult) := none
  attributes : Nat := 0

/-- One level of a class chain (`JSClassDefinition` without its `parentClass`
pointer, which is the rest of the chain).  A null table pointer is the empty table. -/
structure JSClassDefinition where
  className : Option String := none
  staticValues : List JSStaticValue := []
  staticFunctions : List JSStaticFunction := []
  hasProperty : Option (String → Bool) := none
  getProperty : Option (String → HookResult) := none
  setProperty : Option (String → Value → BoolResult) := none
  deleteProperty : Option (String → BoolResult) := none
  getPropertyNames : Option (List (Option String)) := none
  callAsFunction : Option (Value → List Value → HookResult) := none
  callAsConstructor : Option (List Value → HookResult) := none
  hasInstance : Option (Value → BoolResult) := none
  convertToType : Option (JSType → HookResult) := none
  /-- The `initialize` hook pointer is set.  The hook returns nothing, so only its
  presence matters here. -/
  initialize_ : Bool := false
  /-- The `finalize` hook pointer is set.  The hook returns nothing. -/
  finalize : Bool := false

/-- A host callback invocation, tagged with the level of its definition.  The entry
`staticValues` is not a callback: it records that the querier scans the static value
table of the level.  The entry `initialize_` stands for the hook `initialize`. -/
inductive Call where
  | hasProperty (level : Nat)
  | getProperty (level : Nat)
  | staticGetProperty (level : Nat) (index : Nat)
  | staticSetProperty (level : Nat) (index : Nat)
  | setProperty (level : Nat)
  | deleteProperty (level : Nat)
  | getPropertyNames (level : Nat)
  | callAsFunction (level : Nat)
  | callAsConstructor (level : Nat)
  | convertToType (level : Nat)
  | hasInstance (level : Nat)
  | staticValues (level : Nat)
  | initialize_ (level : Nat)
  | finalize (level : Nat)
  deriving DecidableEq, Repr

/-- The level a callback belongs to. -/
def Call.level : Call → Nat
  | .hasProperty l => l
  | .getProperty l => l
  | .staticGetProperty l _ => l
  | .staticSetProperty l _ => l
  | .setProperty l => l
  | .deleteProperty l => l
  | .getPropertyNames l => l
  | .callAsFunction l => l
  | .callAsConstructor l => l
  | .convertToType l => l
  | .hasInstance l => l
  | .staticValues l => l
  | .initialize_ l => l
  | .finalize l => l

/-- What a value-producing handler hands to the engine: the value given to
`info.GetReturnValue().Set`, the value given to `isolate->ThrowException`, and the
callbacks invoked. -/
structure Outcome where
  returnValue : Option Value
  thrown : Option Value
  calls : List Call
  deriving DecidableEq, Repr

/-! ## NamedPropertyGetter -/

/-- The locals `value`, `exception` of a value-producing handler, with the callbacks
invoked so far. -/
structure WalkState where
  value : Option Value := none
  exception : Option Value := none
  calls : List Call := []
  deriving DecidableEq, Repr

/-- The loop guard `!value && !exception`. -/
def WalkState.running (s : WalkState) : Bool := s.value.isNone && s.exception.isNone

/-- The `for` loop of `NamedPropertyGetter` over the static value table of one
level: `for (i; !value && !exception && staticValues[i].name; i++)`. -/
def getStaticValues (str : String) (level : Nat) :
    List JSStaticValue → Nat → WalkState → WalkState
  | [], _, s => s
  | e :: es, i, s =>
    if s.running then
      match decide (e.name = str), e.getProperty with
      | true, some getter =>
        let r := getter str
        getStaticValues str level es (i + 1)
          { value := r.value, exception := r.exception,
            calls := s.calls ++ [Call.staticGetProperty level i] }
      | _, _ => getStaticValues str level es (i + 1) s
    else s

/-- The body of one iteration of the first `while` loop of `NamedPropertyGetter`. -/
def getLevel (str : String) (level : Nat) (d : JSClassDefinition) (s : WalkState) :
    WalkState :=
  -- Check accessor
  let s1 : WalkState := match d.hasProperty with
    | some _ => { s with calls := s.calls ++ [Call.hasProperty level] }
    | none => s
  let hasProperty : Bool := match d.hasProperty with
    | some has => has str
    | none => true
  let s2 : WalkState := match hasProperty, d.getProperty with
    | true, some getter =>
      let r := getter str
      { value := r.value, exception := r.exception,
        calls := s1.calls ++ [Call.getProperty level] }
    | _, _ => s1
  -- Check static values
  getStaticValues str level d.staticValues 0 s2

/-- The first loop of `NamedPropertyGetter`:
`while (definition && !value && !exception)`. -/
def getWalk (str : String) : List JSClassDefinition → Nat → WalkState → WalkState
  | [], _, s => s
  | d :: parentClass, level, s =>
    if s.running then getWalk str parentClass (level + 1) (getLevel str level d s)
    else s

/-- The second loop of `NamedPropertyGetter`, entered when the first gave no value:
only `hasProperty` is asked, and a level that claims the property sets the
"Invalid property: " error. -/
def getRewalk (str : String) : List JSClassDefinition → Nat → WalkState → WalkState
  | [], _, s => s
  | d :: parentClass, level, s =>
    if s.running then
      match d.hasProperty with
      | some has =>
        let s1 : WalkState := { s with calls := s.calls ++ [Call.hasProperty level] }
        if has str then
          getRewalk str parentClass (level + 1)
            { s1 with exception := some (Exception.Error ("Invalid property: " ++ str)) }
        else getRewalk str parentClass (level + 1) s1
      | none => getRewalk str parentClass (level + 1) s
    else s

/-- The handler `OpaqueJSClass::NamedPropertyGetter` on an instance whose context
pointer is set. -/
def NamedPropertyGetter (definition : List JSClassDefinition) (property : String) :
    Outcome :=
  let s := getWalk property definition 0 {}
  let s := if s.value.isNone then getRewalk property definition 0 s else s
  { returnValue := s.value, thrown := s.exception, calls := s.calls }

/-! ## NamedPropertySetter -/

/-- The locals `set`, `exception` of `NamedPropertySetter`, with the callbacks
invoked so far. -/
structure SetState where
  set : Bool := false
  exception : Option Value := none
  calls : List Call := []
  deriving DecidableEq, Repr

/-- The loop guard `!exception && !set`. -/
def SetState.running (s : SetState) : Bool := s.exception.isNone && !s.set

/-- The `for` loop of `NamedPropertySetter` over the static value table of one
level: `for (i; !set && !exception && staticValues[i].name; i++)`. -/
def setStaticValues (str : String) (valueRef : Value) (level : Nat) :
    List JSStaticValue → Nat → SetState → SetState
  | [], _, s => s
  | e :: es, i, s =>
    if s.running then
      match decide (e.name = str), e.setProperty with
      | true, some setter =>
        let r := setter str valueRef
        setStaticValues str valueRef level es (i + 1)
          { set := r.result, exception := r.exception,
            calls := s.calls ++ [Call.staticSetProperty level i] }
      | _, _ => setStaticValues str valueRef level es (i + 1) s
    else s

/-- The hooks of one level, run under `if (!set && !exception)`: `hasProperty`
overwrites `set`, then `setProperty` is called whatever `hasProperty` answered. -/
def setHooks (str : String) (valueRef : Value) (level : Nat) (d : JSClassDefinition)
    (s : SetState) : SetState :=
  -- Don't set real property if we are overriding accessors
  let s1 : SetState := match d.hasProperty with
    | some has => { s with set := has str, calls := s.calls ++ [Call.hasProperty level] }
    | none => s
  match d.setProperty with
  | some setter =>
    let r := setter str valueRef
    { set := s1.set || r.result, exception := r.exception,
      calls := s1.calls ++ [Call.setProperty level] }
  | none => s1

/-- The body of one iteration of the `while` loop of `NamedPropertySetter`. -/
def setLevel (str : String) (valueRef : Value) (level : Nat) (d : JSClassDefinition)
    (s : SetState) : SetState :=
  -- Check static values
  let s1 := setStaticValues str valueRef level d.staticValues 0 s
  if s1.running then setHooks str valueRef level d s1 else s1

/-- The loop of `NamedPropertySetter`: `while (definition && !exception && !set)`. -/
def setWalk (str : String) (valueRef : Value) :
    List JSClassDefinition → Nat → SetState → SetState
  | [], _, s => s
  | d :: parentClass, level, s =>
    if s.running then
      setWalk str valueRef parentClass (level + 1) (setLevel str valueRef level d s)
    else s

/-- The handler `OpaqueJSClass::NamedPropertySetter`.  A thrown exception replaces
`value` and forces `set`; the return value is set exactly when `set` holds. -/
def NamedPropertySetter (definition : List JSClassDefinition) (property : String)
    (value : Value) : Outcome :=
  let s := setWalk property value definition 0 {}
  match s.exception with
  | some exception =>
    { returnValue := some exception, thrown := some exception, calls := s.calls }
  | none =>
    { returnValue := if s.set then some value else none, thrown := none,
      calls := s.calls }

/-- The engine treats a set as intercepted (and does not apply its default property
semantics) exactly when the interceptor has set a return value. -/
def Outcome.intercepted (o : Outcome) : Bool := o.returnValue.isSome

/-! ## NamedPropertyQuerier -/

/-- The engine's `v8::PropertyAttribute`. -/
inductive PropertyAttribute where
  | None
  | ReadOnly
  | DontEnum
  | DontDelete
  deriving DecidableEq, Repr

/-- The local `has` of `NamedPropertyQuerier`, with the consultations made so far. -/
structure QueryState where
  has : Bool := false
  calls : List Call := []
  deriving DecidableEq, Repr

/-- What the querier hands to the engine: the attribute given to
`info.GetReturnValue().Set`, if any, and the consultations made. -/
structure QueryOutcome where
  returnValue : Option PropertyAttribute
  calls : List Call
  deriving DecidableEq, Repr

/-- The scan of one static value table:
`for (i; !has && staticValues[i].name; i++)`, which sets `has` at an entry of the
name that is not flagged `kJSPropertyAttributeDontEnum`. -/
def queryStaticValues (str : String) : List JSStaticValue → Bool → Bool
  | [], has => has
  | e :: es, has =>
    if !has then
      if e.name = str ∧ e.attributes &&& kJSPropertyAttributeDontEnum = 0 then
        queryStaticValues str es true
      else queryStaticValues str es has
    else has

/-- The body of one iteration of the `while` loop of `NamedPropertyQuerier`. -/
def queryLevel (str : String) (level : Nat) (d : JSClassDefinition) (s : QueryState) :
    QueryState :=
  let s1 : QueryState := match d.hasProperty with
    | some has => { has := has str, calls := s.calls ++ [Call.hasProperty level] }
    | none => s
  if !s1.has then
    -- check static values
    { has := queryStaticValues str d.staticValues s1.has,
      calls := s1.calls ++ [Call.staticValues level] }
  else s1

/-- The loop of `NamedPropertyQuerier`: `while (definition && !has)`. -/
def queryWalk (str : String) : List JSClassDefinition → Nat → QueryState → QueryState
  | [], _, s => s
  | d :: parentClass, level, s =>
    if !s.has then queryWalk str parentClass (level + 1) (queryLevel str level d s)
    else s

/-- The handler `OpaqueJSClass::NamedPropertyQuerier`: the property is reported
present by setting the return value (to `v8::DontEnum`). -/
def NamedPropertyQuerier (definition : List JSClassDefinition) (property : String) :
    QueryOutcome :=
  let s := queryWalk property definition 0 {}
  { returnValue := if s.has then some PropertyAttribute.DontEnum else none,
    calls := s.calls }

/-- The querier reports the property present. -/
def QueryOutcome.present (o : QueryOutcome) : Bool := o.returnValue.isSome

/-! ## NamedPropertyDeleter -/

/-- The locals `deleted`, `exception` of `NamedPropertyDeleter`, with the callbacks
invoked so far. -/
structure DeleteState where
  deleted : Bool := false
  exception : Option Value := none
  calls : List Call := []
  deriving DecidableEq, Repr

/-- What the deleter hands to the engine. -/
structure DeleteOutcome where
  returnValue : Option Bool
  thrown : Option Value
  calls : List Call
  deriving DecidableEq, Repr

/-- The loop of `NamedPropertyDeleter`:
`while (definition && !exception && !deleted)`. -/
def deleteWalk (str : String) : List JSClassDefinition → Nat → DeleteState → DeleteState
  | [], _, s => s
  | d :: parentClass, level, s =>
    if s.exception.isNone && !s.deleted then
      match d.deleteProperty with
      | some deleter =>
        let r := deleter str
        deleteWalk str parentClass (level + 1)
          { deleted := r.result, exception := r.exception,
            calls := s.calls ++ [Call.deleteProperty level] }
      | none => deleteWalk str parentClass (level + 1) s
    else s

/-- The handler `OpaqueJSClass::NamedPropertyDeleter`. -/
def NamedPropertyDeleter (definition : List JSClassDefinition) (property : String) :
    DeleteOutcome :=
  let s := deleteWalk property definition 0 {}
  { returnValue := if s.deleted then some s.deleted else none,
    thrown := s.exception, calls := s.calls }

/-! ## ConvertFunctionCallHandler -/

/-- The type handed to the hooks, from the hint string `info[0]`. -/
def convertType (str : String) : JSType :=
  if str = "number" then JSType.kJSTypeNumber
  else if str = "string" then JSType.kJSTypeString
  else JSType.kJSTypeNumber

/-- The loop of `ConvertFunctionCallHandler`:
`while (definition && !exception && !value)`. -/
def convertWalk (type : JSType) : List JSClassDefinition → Nat → WalkState → WalkState
  | [], _, s => s
  | d :: parentClass, level, s =>
    if s.exception.isNone && s.value.isNone then
      match d.convertToType with
      | some convert =>
        let r := convert type
        convertWalk type parentClass (level + 1)
          { value := r.value, exception := r.exception,
            calls := s.calls ++ [Call.convertToType level] }
      | none => convertWalk type parentClass (level + 1) s
    else s

/-- The handler `OpaqueJSClass::ConvertFunctionCallHandler`. -/
def ConvertFunctionCallHandler (definition : List JSClassDefinition) (hint : String) :
    Outcome :=
  let s := convertWalk (convertType hint) definition 0 {}
  { returnValue := s.value, thrown := s.exception, calls := s.calls }

/-! ## CallAsFunction -/

/-- The call `JSObjectMake(ctx, jsClass, nullptr)` with a non-null class: a plain
instance of that class. -/
def JSObjectMake (jsClass : Nat) : Value := Value.instance_ jsClass

/-- The body of one iteration of the `while` loop of `CallAsFunction`.
`targetClass` is internal field 2 of the data object when it has one and it is not
null (the class given to `JSObjectMakeConstructor`). -/
def callLevel (IsConstructCall : Bool) (targetClass : Option Nat) (thisObject : Value)
    (arguments : List Value) (level : Nat) (d : JSClassDefinition) (s : WalkState) :
    WalkState :=
  match IsConstructCall, targetClass, d.callAsConstructor, d.callAsFunction with
  | true, some jsClass, _, _ => { s with value := some (JSObjectMake jsClass) }
  | true, none, some construct, _ =>
    let r := construct arguments
    let calls := s.calls ++ [Call.callAsConstructor level]
    match r.value with
    | some v =>
      if v.IsObject then { value := some v, exception := r.exception, calls := calls }
      else
        { value := none, exception := some (Exception.Error "Bad constructor"),
          calls := calls }
    | none =>
      { value := none, exception := some (Exception.Error "Bad constructor"),
        calls := calls }
  | false, _, _, some function =>
    let r := function thisObject arguments
    { value := r.value, exception := r.exception,
      calls := s.calls ++ [Call.callAsFunction level] }
  | _, _, _, _ => s

/-- The loop of `CallAsFunction`: `while (definition && !exception && !value)`. -/
def callWalk (IsConstructCall : Bool) (targetClass : Option Nat) (thisObject : Value)
    (arguments : List Value) : List JSClassDefinition → Nat → WalkState → WalkState
  | [], _, s => s
  | d :: parentClass, level, s =>
    if s.exception.isNone && s.value.isNone then
      callWalk IsConstructCall targetClass thisObject arguments parentClass (level + 1)
        (callLevel IsConstructCall targetClass thisObject arguments level d s)
    else s

/-- The handler `OpaqueJSClass::CallAsFunction`. -/
def CallAsFunction (definition : List JSClassDefinition) (IsConstructCall : Bool)
    (targetClass : Option Nat) (thisObject : Value) (arguments : List Value) : Outcome :=
  let s := callWalk IsConstructCall targetClass thisObject arguments definition 0 {}
  { returnValue := s.value, thrown := s.exception, calls := s.calls }

/-! ## Property name accumulator and the enumerators -/

/-- The accumulator `OpaqueJSPropertyNameAccumulator`, a `std::list<JSStringRef>`: the
head of the list is its front, the last element its back. -/
abbrev OpaqueJSPropertyNameAccumulator := List String

/-- The API call `JSPropertyNameAccumulatorAddName` on a non-null accumulator: a
non-null name is retained and pushed to the front. -/
def JSPropertyNameAccumulatorAddName (accumulator : OpaqueJSPropertyNameAccumulator)
    (propertyName : Option String) : OpaqueJSPropertyNameAccumulator :=
  match propertyName with
  | some name => name :: accumulator
  | none => accumulator

/-- The `for` loop of the enumerators over one static value table: every entry not
flagged `kJSPropertyAttributeDontEnum` adds its name. -/
def addStaticValues :
    List JSStaticValue → OpaqueJSPropertyNameAccumulator → OpaqueJSPropertyNameAccumulator
  | [], accumulator => accumulator
  | e :: es, accumulator =>
    if e.attributes &&& kJSPropertyAttributeDontEnum = 0 then
      addStaticValues es (JSPropertyNameAccumulatorAddName accumulator (some e.name))
    else addStaticValues es accumulator

/-- The first loop of `NamedPropertyEnumerator` and `IndexedPropertyEnumerator`:
`while (definition)`, not short-circuited.  A `getPropertyNames` hook is given by the
names it passes to `JSPropertyNameAccumulatorAddName`, in call order. -/
def collectNames :
    List JSClassDefinition → OpaqueJSPropertyNameAccumulator →
      OpaqueJSPropertyNameAccumulator
  | [], accumulator => accumulator
  | d :: parentClass, accumulator =>
    let accumulator1 := match d.getPropertyNames with
      | some names => names.foldl JSPropertyNameAccumulatorAddName accumulator
      | none => accumulator
    -- Add static values
    collectNames parentClass (addStaticValues d.staticValues accumulator1)

/-- The engine's `Array.prototype.indexOf`: the first position of the element, or
`-1`. -/
def indexOf {α : Type} [DecidableEq α] : List α → α → Int
  | [], _ => -1
  | y :: ys, x =>
    if y = x then 0
    else if indexOf ys x < 0 then -1 else indexOf ys x + 1

/-- The second loop of `NamedPropertyEnumerator`.  The source reads
`accumulator.back()` and pops it until the list is empty, so it visits the
accumulator from back to front: the first argument is the accumulator reversed.  A
name not yet in `array` is pushed to its end. -/
def drainNames : List String → List String → List String
  | [], array => array
  | property :: rest, array =>
    if indexOf array property < 0 then drainNames rest (array ++ [property])
    else drainNames rest array

/-- The handler `OpaqueJSClass::NamedPropertyEnumerator`: the array it returns. -/
def NamedPropertyEnumerator (definition : List JSClassDefinition) : List String :=
  let accumulator := collectNames definition []
  drainNames accumulator.reverse []

/-- The engine's number values as far as `IndexedPropertyEnumerator` tells them
apart: not-a-number, an integral value, or any other value (a fraction or an
infinity). -/
inductive Number where
  | NaN
  | integer (n : Int)
  | nonInteger
  deriving DecidableEq, Repr

/-- The engine's global `isNaN`, on an already converted value. -/
def isNaN : Number → Bool
  | .NaN => true
  | _ => false

/-- The engine's `Number.isInteger`. -/
def isInteger : Number → Bool
  | .integer _ => true
  | _ => false

/-- The conversions of the engine that `IndexedPropertyEnumerator` relies on and that
are not code of this repository: `Value::ToNumber` on a property name and the
`ToString` that the default comparison of `Array.prototype.sort` applies to a
number. -/
structure Engine where
  ToNumber : String → Number
  ToString : Number → String

/-- The test `xString < yString` of the default sort comparison, on the code units of
the two strings (the strings of numbers are ASCII, where a code unit is the
character's code). -/
def stringLess : List Char → List Char → Bool
  | _, [] => false
  | [], _ :: _ => true
  | x :: xs, y :: ys =>
    if x.toNat < y.toNat then true
    else if y.toNat < x.toNat then false
    else stringLess xs ys

/-- Insertion of an element into an array ordered by the default sort comparison. -/
def sortInsert (engine : Engine) (x : Number) : List Number → List Number
  | [] => [x]
  | y :: ys =>
    if stringLess (engine.ToString x).data (engine.ToString y).data then x :: y :: ys
    else y :: sortInsert engine x ys

/-- The engine's `Array.prototype.sort` called without a comparison function, as the
source calls it (`sort->Call(context, array, 0, nullptr)`): the elements are ordered
by their strings.  The elements of the array are distinct numbers, so the outcome
does not depend on the sorting algorithm; insertion sort stands for it. -/
def sort (engine : Engine) (array : List Number) : List Number :=
  array.foldr (sortInsert engine) []

/-- The second loop of `IndexedPropertyEnumerator`, over the accumulator from back to
front: a name whose number is not NaN and is an integer pushes that number unless
`array` has it. -/
def drainIndices (engine : Engine) : List String → List Number → List Number
  | [], array => array
  | property :: rest, array =>
    let numeric := engine.ToNumber property
    if !isNaN (engine.ToNumber property) && isInteger numeric then
      if indexOf array numeric < 0 then drainIndices engine rest (array ++ [numeric])
      else drainIndices engine rest array
    else drainIndices engine rest array

/-- The handler `OpaqueJSClass::IndexedPropertyEnumerator`: the array it returns. -/
def IndexedPropertyEnumerator (engine : Engine) (definition : List JSClassDefinition) :
    List Number :=
  let accumulator := collectNames definition []
  sort engine (drainIndices engine accumulator.reverse [])

/-- The value of a string of decimal digits, if it is one. -/
def digitsValue : List Char → Nat → Option Nat
  | [], n => some n
  | c :: cs, n => if c.isDigit then digitsValue cs (10 * n + (c.toNat - 48)) else none

/-- The decimal digits of a natural number, most significant first; `fuel` bounds the
number of digits. -/
def decimalDigits : Nat → Nat → List Char → List Char
  | 0, _, acc => acc
  | fuel + 1, n, acc =>
    if n < 10 then Char.ofNat (48 + n) :: acc
    else decimalDigits fuel (n / 10) (Char.ofNat (48 + n % 10) :: acc)

/-- An engine that agrees with ECMAScript on the decimal integer literals `d…d` and
`-d…d` below `2^53` in magnitude, where the conversions are exact; it is used to
evaluate the enumerator on such names.  Every other string is sent to NaN. -/
def decimalEngine : Engine where
  ToNumber := fun s =>
    match s.data with
    | [] => Number.NaN
    | '-' :: c :: cs =>
      match digitsValue (c :: cs) 0 with
      | some n => Number.integer (-(n : Int))
      | none => Number.NaN
    | c :: cs =>
      match digitsValue (c :: cs) 0 with
      | some n => Number.integer n
      | none => Number.NaN
  ToString := fun x =>
    match x with
    | .integer (Int.ofNat n) => String.mk (decimalDigits (n + 1) n [])
    | .integer (Int.negSucc n) => String.mk ('-' :: decimalDigits (n + 2) (n + 1) [])
    | .NaN => "NaN"
    | .nonInteger => "Infinity"

/-! ## JSObjectMakeConstructor and JSObjectMakeFunctionWithCallback -/

/-- The data object that `SetUpFunction` attaches to a function or constructor: its
internal field 0 (the definition chain the handlers walk) and its internal field 2
(the class given by the caller, null for none). -/
structure FunctionData where
  definition : List JSClassDefinition
  targetClass : Option Nat

/-- The call `JSObjectMakeConstructor(ctx, jsClass, callAsConstructor)`: a fresh
zeroed definition without parent that holds only the constructor callback, and the
class as internal field 2. -/
def JSObjectMakeConstructor (jsClass : Option Nat)
    (callAsConstructor : Option (List Value → HookResult)) : FunctionData :=
  { definition := [{ callAsConstructor := callAsConstructor }], targetClass := jsClass }

/-- The call `JSObjectMakeFunctionWithCallback(ctx, name, callAsFunction)`: a fresh
zeroed definition that holds only the function callback; internal field 2 is null. -/
def JSObjectMakeFunctionWithCallback
    (callAsFunction : Option (Value → List Value → HookResult)) : FunctionData :=
  { definition := [{ callAsFunction := callAsFunction }], targetClass := none }

/-! ## HasInstanceFunctionCallHandler -/

/-- The candidate `info[0]` as `HasInstanceFunctionCallHandler` reads it: the value
handed to the hooks, the number of internal fields of the object, and the classes
met by `inst = field 0; inst = inst->Definition()->parentClass; ...`, as class
identities, the candidate's own class first (empty when field 0 is null). -/
structure PossibleInstance where
  value : Value
  InternalFieldCount : Nat := 0
  classes : List Nat := []

/-- The loop `for ( ; inst && !has; inst = inst->Definition()->parentClass)
has = ctor == inst;` over the candidate's class chain. -/
def instanceWalk (ctor : Nat) : List Nat → Bool → Bool
  | [], has => has
  | inst :: parentClass, has =>
    if !has then instanceWalk ctor parentClass (decide (ctor = inst)) else has

/-- The identity check that precedes the walk: with a non-null internal field 2
(`targetClass`) and a candidate that is an object with internal fields, `value` is
set to the boolean `has`, whichever it is; otherwise `value` stays null. -/
def instanceCheck (targetClass : Option Nat) (possibleInstance : PossibleInstance) :
    Option Value :=
  match targetClass with
  | some ctor =>
    if possibleInstance.value.IsObject then
      if possibleInstance.InternalFieldCount > 0 then
        some (Value.boolean (instanceWalk ctor possibleInstance.classes false))
      else none
    else none
  | none => none

/-- The loop of `HasInstanceFunctionCallHandler`:
`while (definition && !exception && !value)`. -/
def hasInstanceWalk (possibleInstance : Value) :
    List JSClassDefinition → Nat → WalkState → WalkState
  | [], _, s => s
  | d :: parentClass, level, s =>
    if s.exception.isNone && s.value.isNone then
      match d.hasInstance with
      | some hook =>
        let r := hook possibleInstance
        hasInstanceWalk possibleInstance parentClass (level + 1)
          { value := some (Value.boolean r.result), exception := r.exception,
            calls := s.calls ++ [Call.hasInstance level] }
      | none => hasInstanceWalk possibleInstance parentClass (level + 1) s
    else s

/-- The handler `OpaqueJSClass::HasInstanceFunctionCallHandler`. -/
def HasInstanceFunctionCallHandler (definition : List JSClassDefinition)
    (targetClass : Option Nat) (possibleInstance : PossibleInstance) : Outcome :=
  let s := hasInstanceWalk possibleInstance.value definition 0
    { value := instanceCheck targetClass possibleInstance }
  { returnValue := s.value, thrown := s.exception, calls := s.calls }

/-! ## Finalize and InitInstance -/

/-- The loop of `OpaqueJSClass::Finalize`: `while (definition)`, calling `finalize`
wherever it is set. -/
def finalizeWalk : List JSClassDefinition → Nat → List Call → List Call
  | [], _, calls => calls
  | d :: parentClass, level, calls =>
    if d.finalize then finalizeWalk parentClass (level + 1) (calls ++ [Call.finalize level])
    else finalizeWalk parentClass (level + 1) calls

/-- The weak callback `OpaqueJSClass::Finalize`: the finalize hooks it invokes, in
order. -/
def Finalize (definition : List JSClassDefinition) : List Call :=
  finalizeWalk definition 0 []

/-- The loop "Find the greatest ancestor" of `InitInstance`:
`for (definition = m_definition; definition && definition->parentClass; ...)`.
A pointer to a definition of the chain is its level; the levels of an acyclic chain
are distinct objects, so comparing pointers is comparing levels. -/
def greatestAncestor : List JSClassDefinition → Nat → Nat
  | [], level => level
  | [_], level => level
  | _ :: d :: parentClass, level => greatestAncestor (d :: parentClass) (level + 1)

/-- The inner loop of "Walk backwards" in `InitInstance`, which looks for the child
of `parent` from the instance's own definition:
`for (definition = m_definition; definition->parentClass &&
definition->parentClass->m_definition != parent; ...)`. -/
def findChild (parent : Nat) : List JSClassDefinition → Nat → Nat
  | [], level => level
  | [_], level => level
  | _ :: d :: parentClass, level =>
    if level + 1 ≠ parent then findChild parent (d :: parentClass) (level + 1) else level

/-- The loop `while (true)` of "Walk backwards and call 'initialize' on each" in
`InitInstance`.  It is no recursion on the chain, so it is given `fuel`, the number
of iterations allowed; `none` means that the fuel ran out or that `definition` is
null where the code dereferences it. -/
def initializeLoop (m_definition : List JSClassDefinition) :
    Nat → Nat → List Call → Option (List Call)
  | 0, _, _ => none
  | fuel + 1, definition, calls =>
    match m_definition[definition]? with
    | none => none
    | some d =>
      let calls1 := if d.initialize_ then calls ++ [Call.initialize_ definition] else calls
      let parent := definition
      if parent = 0 then some calls1
      else initializeLoop m_definition fuel (findChild parent m_definition 0) calls1

/-- The end of `OpaqueJSClass::InitInstance`, from "Find the greatest ancestor" on:
the initialize hooks it invokes, in order. -/
def InitInstance (fuel : Nat) (m_definition : List JSClassDefinition) :
    Option (List Call) :=
  initializeLoop m_definition fuel (greatestAncestor m_definition 0) []

/-! ## JSValue.h: the handle encoding -/

/-- The oddball reference `ODDBALL_UNDEFINED`.  A 64-bit reference (`jlong`) is
represented by its bit pattern, a natural number below `2^64`. -/
def ODDBALL_UNDEFINED : Nat := 0x2

/-- The oddball reference `ODDBALL_NULL`. -/
def ODDBALL_NULL : Nat := 0x6

/-- The oddball reference `ODDBALL_FALSE`. -/
def ODDBALL_FALSE : Nat := 0xa

/-- The oddball reference `ODDBALL_TRUE`. -/
def ODDBALL_TRUE : Nat := 0xe

/-- The test `CANPRIMITIVE(x)`, `((x&3)==0)`. -/
def CANPRIMITIVE (x : Nat) : Bool := x &&& 3 == 0

/-- The test `ISPOINTER(x)`, `((x&1)==1)`. -/
def ISPOINTER (x : Nat) : Bool := x &&& 1 == 1

/-- The test `ISODDBALL(x)`, `((x&3)==2)`. -/
def ISODDBALL (x : Nat) : Bool := x &&& 3 == 2

/-- The constant `~3` as a 64-bit `long`: all bits set but the two lowest. -/
def not3 : Nat := 2 ^ 64 - 4

/-- The conversion `TOPTR(x)`, `((reinterpret_cast<long>(x)&~3)+1)`, in 64-bit
arithmetic. -/
def TOPTR (x : Nat) : Nat := ((x &&& not3) + 1) % 2 ^ 64

/-- The conversion `TOOBJPTR(x)`, `((reinterpret_cast<long>(x)&~3)+3)`, in 64-bit
arithmetic. -/
def TOOBJPTR (x : Nat) : Nat := ((x &&& not3) + 3) % 2 ^ 64

/-- The conversion `TOJSVALUE(x)`, `((long)x&~3)` taken as a pointer. -/
def TOJSVALUE (x : Nat) : Nat := x &&& not3

/-! ## JSValue.h: the handle record -/

/-- The value of an `int` after an arithmetic step: 32-bit two's complement, as the
atomic counter wraps. -/
def wrapInt (n : Int) : Int := (n + 2 ^ 31) % 2 ^ 32 - 2 ^ 31

/-- The state of a `JSValue` handle record: the stored engine value, the flags, the
external count `m_count` (a `boost::atomic<int>`), whether `m_self` holds a shared
pointer to the record, and `use_count`, the number of shared pointers that own the
record (the record is disposed when it drops to zero). -/
structure JSValue where
  m_value : Value
  m_isUndefined : Bool := false
  m_isNull : Bool := false
  m_count : Int := 0
  m_isDefunct : Bool := false
  m_self : Bool := false
  use_count : Nat := 1
  deriving DecidableEq, Repr

/-- The accessor `JSValue::Value()`: undefined or null for a record flagged so, and
otherwise a local handle of the stored value.  It has no failing outcome and does
not read `m_isDefunct`. -/
def JSValue.Value (h : JSValue) : JSC.Value :=
  if h.m_isUndefined then JSC.Value.undefined
  else if h.m_isNull then JSC.Value.null
  else h.m_value

/-- The method `JSValue::retainJavaReference()`: `m_count++;
m_self = shared_from_this();`.  Assigning to an empty `m_self` adds an owner;
assigning to an `m_self` that already points to the record leaves the number of
owners as it is. -/
def JSValue.retainJavaReference (h : JSValue) : JSValue :=
  { h with
    m_count := wrapInt (h.m_count + 1),
    m_self := true,
    use_count := if h.m_self then h.use_count else h.use_count + 1 }

/-- The method `JSValue::releaseJavaReference()`:
`if (--m_count == 0) { boost::shared_ptr<JSValue> self = m_self; self.reset(); }`.
The local `self` is a copy of `m_self`; resetting the copy gives back the share the
copy took and leaves `m_self` as it is. -/
def JSValue.releaseJavaReference (h : JSValue) : JSValue :=
  let h1 : JSValue := { h with m_count := wrapInt (h.m_count - 1) }
  if h1.m_count = 0 then
    -- boost::shared_ptr<JSValue> self = m_self;
    let h2 : JSValue :=
      { h1 with use_count := if h1.m_self then h1.use_count + 1 else h1.use_count }
    -- self.reset();
    { h2 with use_count := if h2.m_self then h2.use_count - 1 else h2.use_count }
  else h1

/-! ## Fallible entry points of the object API -/

/-- The flags of `RegExp::New`, as the set of the three flags the code can switch
on. -/
structure RegExpFlags where
  kGlobal : Bool := false
  kIgnoreCase : Bool := false
  kMultiline : Bool := false
  deriving DecidableEq, Repr

/-- The engine operations the entry points call.  They belong to the engine, not to
this code, and are parameters of the model.  A result `Except.error e` is an empty
`MaybeLocal`, `e` being what `trycatch.Exception()` gives afterwards; numbers are
integers, as in `Value.number`; a compiled script is a number. -/
structure V8 where
  ToNumber : Value → Except Value Int
  ToString : Value → Except Value String
  DateNow : Int
  DateNew : Int → Value
  RegExpNew : String → RegExpFlags → Except Value Value
  Compile : String → String → Int → Except Value Nat
  Run : Nat → Except Value Value
  Get : Value → String → Except Value Value
  GetIndex : Value → Nat → Except Value Value
  CallAsFunction : Value → Value → List Value → Except Value Value
  CallAsConstructor : Value → List Value → Except Value Value

/-- What an entry point leaves: the returned reference `out` (`none` is `nullptr`),
the local `exception` at the end, and the exception out-parameter.  The out-parameter
`JSValueRef* exceptionRef` is `none` when the caller passed no pointer and
`some content` when it passed one, `content` being what the pointer points to. -/
structure EntryResult where
  out : Option Value
  exception : Option Value
  exceptionRef : Option (Option Value)
  deriving DecidableEq, Repr

/-- The common end of the entry points: `if (exceptionRef) *exceptionRef = exception;
else if (exception) VALUE(exception)->release();`. -/
def storeException (exceptionRef : Option (Option Value)) (exception : Option Value) :
    Option (Option Value) :=
  match exceptionRef with
  | some _ => some exception
  | none => none

/-- The entry point `JSObjectMakeDate`. -/
def JSObjectMakeDate (v8 : V8) (arguments : List Value)
    (exceptionRef : Option (Option Value)) : EntryResult :=
  match arguments with
  | [] =>
    let date := v8.DateNew v8.DateNow
    { out := some date, exception := none, exceptionRef := storeException exceptionRef none }
  | argument :: _ =>
    let (epoch, exception) : Int × Option Value :=
      match v8.ToNumber argument with
      | Except.ok number => (number, none)
      | Except.error e => (0, some e)
    let date := v8.DateNew epoch
    { out := some date, exception := exception,
      exceptionRef := storeException exceptionRef exception }

/-- The entry point `JSObjectMakeError`. -/
def JSObjectMakeError (v8 : V8) (arguments : List Value)
    (exceptionRef : Option (Option Value)) : EntryResult :=
  let (str, exception) : String × Option Value :=
    match arguments with
    | [] => ("", none)
    | argument :: _ =>
      match v8.ToString argument with
      | Except.ok s => (s, none)
      | Except.error e => ("", some e)
  { out := some (Exception.Error str), exception := exception,
    exceptionRef := storeException exceptionRef exception }

/-- The loop over the characters of the flags string in `JSObjectMakeRegExp`. -/
def regExpFlags : List Char → RegExpFlags → RegExpFlags
  | [], flags => flags
  | c :: rest, flags =>
    if c = 'g' then regExpFlags rest { flags with kGlobal := true }
    else if c = 'i' then regExpFlags rest { flags with kIgnoreCase := true }
    else if c = 'm' then regExpFlags rest { flags with kMultiline := true }
    else regExpFlags rest flags

/-- The entry point `JSObjectMakeRegExp`. -/
def JSObjectMakeRegExp (v8 : V8) (arguments : List Value)
    (exceptionRef : Option (Option Value)) : EntryResult :=
  let (pattern, exception0) : String × Option Value :=
    match arguments with
    | [] => ("", none)
    | argument :: _ =>
      match v8.ToString argument with
      | Except.ok s => (s, none)
      | Except.error e => ("", some e)
  let (flags_, exception1) : String × Option Value :=
    match exception0, arguments with
    | none, _ :: argument :: _ =>
      match v8.ToString argument with
      | Except.ok s => (s, none)
      | Except.error e => ("", some e)
    | _, _ => ("", exception0)
  let (out, exception) : Option Value × Option Value :=
    match exception1 with
    | none =>
      let flags := regExpFlags flags_.data {}
      match v8.RegExpNew pattern flags with
      | Except.error e => (none, some e)
      | Except.ok regexp => (some regexp, none)
    | some e => (none, some e)
  { out := out, exception := exception,
    exceptionRef := storeException exceptionRef exception }

/-- The source text `JSObjectMakeFunction` compiles. -/
def functionSource (name : Option String) (parameterNames : List String)
    (body : Option String) : String :=
  "(function " ++ name.getD "" ++ "(" ++ ",".intercalate parameterNames ++ ") \x7b "
    ++ body.getD "" ++ "\n\x7d)"

/-- The entry point `JSObjectMakeFunction`.  `SetName` acts on the function object
and leaves the returned reference as it is. -/
def JSObjectMakeFunction (v8 : V8) (name : Option String) (parameterNames : List String)
    (body : Option String) (sourceURL : Option String) (startingLineNumber : Int)
    (exceptionRef : Option (Option Value)) : EntryResult :=
  let source := functionSource name parameterNames body
  let script := v8.Compile source (sourceURL.getD "anonymous") startingLineNumber
  let (result, exception) : Option Value × Option Value :=
    match script with
    | Except.error e => (none, some e)
    | Except.ok compiled =>
      match v8.Run compiled with
      | Except.error e => (none, some e)
      | Except.ok value => (some value, none)
  let out : Option Value :=
    match exception with
    | none => result
    | some _ => none
  { out := out, exception := exception,
    exceptionRef := storeException exceptionRef exception }

/-- The common part of `JSObjectGetProperty`, `JSObjectGetPropertyAtIndex`,
`JSObjectCallAsFunction` and `JSObjectCallAsConstructor` after the engine call:
`if (value.IsEmpty()) exception = ...; if (!exception) out = ...;` and the end. -/
def entryResult (value : Except Value Value) (exceptionRef : Option (Option Value)) :
    EntryResult :=
  let exception : Option Value :=
    match value with
    | Except.error e => some e
    | Except.ok _ => none
  let out : Option Value :=
    match exception, value with
    | none, Except.ok v => some v
    | _, _ => none
  { out := out, exception := exception,
    exceptionRef := storeException exceptionRef exception }

/-- The entry point `JSObjectGetProperty`. -/
def JSObjectGetProperty (v8 : V8) (object : Value) (propertyName : String)
    (exceptionRef : Option (Option Value)) : EntryResult :=
  entryResult (v8.Get object propertyName) exceptionRef

/-- The entry point `JSObjectGetPropertyAtIndex`. -/
def JSObjectGetPropertyAtIndex (v8 : V8) (object : Value) (propertyIndex : Nat)
    (exceptionRef : Option (Option Value)) : EntryResult :=
  entryResult (v8.GetIndex object propertyIndex) exceptionRef

/-- The entry point `JSObjectCallAsFunction`; `object`, `thisObject` and each
argument may be null. -/
def JSObjectCallAsFunction (v8 : V8) (object : Option Value) (thisObject : Option Value)
    (arguments : List (Option Value)) (exceptionRef : Option (Option Value)) :
    EntryResult :=
  match object with
  | none => { out := none, exception := none, exceptionRef := exceptionRef }
  | some o =>
    let this_ := thisObject.getD Value.null
    let elements := arguments.map (fun argument => argument.getD Value.null)
    entryResult (v8.CallAsFunction o this_ elements) exceptionRef

/-- The entry point `JSObjectCallAsConstructor`; `object` may be null. -/
def JSObjectCallAsConstructor (v8 : V8) (object : Option Value) (arguments : List Value)
    (exceptionRef : Option (Option Value)) : EntryResult :=
  match object with
  | none => { out := none, exception := none, exceptionRef := exceptionRef }
  | some o => entryResult (v8.CallAsConstructor o arguments) exceptionRef

/-! ## The reference count of the class over the lifetime of an instance -/

/-- Modelled from the spec: `OpaqueJSClass::retain`, declared in the header `JSC.h`,
which is not among the sources: it increments the reference count of the class. -/
def retain (count : Int) : Int := count + 1

/-- Modelled from the spec: `OpaqueJSClass::release`, declared in the header `JSC.h`,
which is not among the sources: it decrements the reference count of the class. -/
def release (count : Int) : Int := count - 1

/-- A step of `InitInstance` or `Finalize` that reaches the host or the class: a hook
invocation, `retain()` or `release()` on the class of the instance. -/
inductive Step where
  | hook (c : Call)
  | retain
  | release
  deriving DecidableEq, Repr

/-- The steps of `OpaqueJSClass::InitInstance` in order: `retain()`, which follows
`instance->SetAlignedPointerInInternalField(0,this)`, and then the initialize hooks of
the loop at the end. -/
def InitInstanceSteps (fuel : Nat) (m_definition : List JSClassDefinition) :
    Option (List Step) :=
  (InitInstance fuel m_definition).map (fun calls => Step.retain :: calls.map Step.hook)

/-- The steps of `OpaqueJSClass::Finalize` in order: the finalize hooks of the loop,
and then `clazz->release()`, `clazz` being internal field 0 of the instance. -/
def FinalizeSteps (definition : List JSClassDefinition) : List Step :=
  (Finalize definition).map Step.hook ++ [Step.release]

/-- The reference count of the class after a sequence of steps; the hooks are taken
not to retain or release the class themselves. -/
def refCount : List Step → Int → Int
  | [], count => count
  | Step.hook _ :: rest, count => refCount rest count
  | Step.retain :: rest, count => refCount rest (retain count)
  | Step.release :: rest, count => refCount rest (release count)

/-- The steps of `k` runs of the same sequence, one after the other. -/
def repeatSteps : Nat → List Step → List Step
  | 0, _ => []
  | k + 1, steps => steps ++ repeatSteps k steps

/-! ## Chain walks over class definitions as heap objects -/

/-- The class definitions as the walks see them in memory.  A definition is an
address; `parentClass definition` is `definition->parentClass->m_definition`, and
`none` where `definition->parentClass` is null; `initialize_ definition` tells
whether `definition->initialize` is set.  Nothing keeps `parentClass` from running in
a circle. -/
structure ClassHeap where
  parentClass : Nat → Option Nat
  initialize_ : Nat → Bool

/-- The addresses `chain` are a class chain of the heap: each definition is followed
by its parent, and the last one has no parent. -/
def isChain (heap : ClassHeap) : List Nat → Bool
  | [] => false
  | [d] => heap.parentClass d == none
  | d :: p :: rest => heap.parentClass d == some p && isChain heap (p :: rest)

/-- The skeleton of the resolution walks and of the loop of `Finalize`:
`while (definition) { ...; definition = definition->parentClass ?
definition->parentClass->m_definition : nullptr; }`, with `fuel` iterations allowed.
The result is the list of the definitions visited, `none` when the fuel runs out. -/
def heapWalk (heap : ClassHeap) : Nat → Option Nat → Option (List Nat)
  | _, none => some []
  | 0, some _ => none
  | fuel + 1, some definition =>
    (heapWalk heap fuel (heap.parentClass definition)).map (fun rest => definition :: rest)

/-- The loop "Find the greatest ancestor" of `InitInstance` on the heap, from a
non-null `m_definition`, with `fuel` iterations allowed. -/
def heapGreatestAncestor (heap : ClassHeap) : Nat → Nat → Option Nat
  | 0, _ => none
  | fuel + 1, definition =>
    match heap.parentClass definition with
    | some parent => heapGreatestAncestor heap fuel parent
    | none => some definition

/-- The inner loop of "Walk backwards" of `InitInstance` on the heap:
`for (definition = m_definition; definition->parentClass &&
definition->parentClass->m_definition != parent; ...)`, with `fuel` iterations
allowed. -/
def heapFindChild (heap : ClassHeap) (parent : Nat) : Nat → Nat → Option Nat
  | 0, _ => none
  | fuel + 1, definition =>
    match heap.parentClass definition with
    | some p => if p ≠ parent then heapFindChild heap parent fuel p else some definition
    | none => some definition

/-- The loop `while (true)` of "Walk backwards and call 'initialize' on each" of
`InitInstance` on the heap, with `fuel` iterations allowed and `inner` iterations for
each run of the inner loop.  The state is the list of the definitions the loop has
been at and the list of those whose `initialize` it has called. -/
def heapInitializeLoop (heap : ClassHeap) (m_definition : Nat) (inner : Nat) :
    Nat → Nat → List Nat × List Nat → Option (List Nat × List Nat)
  | 0, _, _ => none
  | fuel + 1, definition, (visited, calls) =>
    let calls1 := if heap.initialize_ definition then calls ++ [definition] else calls
    let parent := definition
    if parent = m_definition then some (visited ++ [definition], calls1)
    else
      match heapFindChild heap parent inner m_definition with
      | some child =>
        heapInitializeLoop heap m_definition inner fuel child (visited ++ [definition], calls1)
      | none => none

/-- The end of `OpaqueJSClass::InitInstance` on the heap, from "Find the greatest
ancestor" on. -/
def heapInitInstance (heap : ClassHeap) (inner fuel : Nat) (m_definition : Nat) :
    Option (List Nat × List Nat) :=
  match heapGreatestAncestor heap inner m_definition with
  | some definition => heapInitializeLoop heap m_definition inner fuel definition ([], [])
  | none => none

/-! ## InitInstance: the displayed class name -/

/-- The loop "Set className" of `InitInstance`: `while (true)` with
`sClassName = definition ? definition->className : "CallbackObject"`, which sets the
type tag `Symbol.toStringTag` of the prototype and breaks as soon as `sClassName` is
not null.  The result is the name set, with the level it comes from (no level for the
literal "CallbackObject" of a null `definition`); `none` would be a loop that ends
without setting the tag. -/
def classNameWalk : List JSClassDefinition → Nat → Option (Option Nat × String)
  | [], _ => some (none, "CallbackObject")
  | d :: parentClass, level =>
    match d.className with
    | some sClassName => some (some level, sClassName)
    | none => classNameWalk parentClass (level + 1)

/-! ### The resolution order of get-property, in the specification's words -/

/-- A level's has-property hook is absent or affirms ownership of the name. -/
def ownsProperty (d : JSClassDefinition) (str : String) : Bool :=
  match d.hasProperty with
  | some has => has str
  | none => true

/-- The accessor pair of a level: has-property, then get-property only if
has-property is absent or affirms ownership. -/
def accessorResult (d : JSClassDefinition) (str : String) : HookResult :=
  match ownsProperty d str, d.getProperty with
  | true, some getter => getter str
  | _, _ => {}

/-- The getters of the static table entries of the given name, in table order. -/
def namedGetters (str : String) (table : List JSStaticValue) :
    List (String → HookResult) :=
  table.filterMap (fun e => if e.name = str then e.getProperty else none)

/-- The value a level produces: the accessor pair's, or, failing that, the first one
a same-named static getter returns. -/
def levelValue (str : String) (d : JSClassDefinition) : Option Value :=
  match (accessorResult d str).value with
  | some v => some v
  | none => (namedGetters str d.staticValues).findSome? (fun getter => (getter str).value)

/-- The value produced at the first level of the chain, walking from the instance's
own definition toward the root, that produces one. -/
def firstValue (definition : List JSClassDefinition) (str : String) : Option Value :=
  definition.findSome? (levelValue str)

/-- The hooks of the accessor pair the handler invokes at a level, in order. -/
def accessorCalls (d : JSClassDefinition) (str : String) (level : Nat) : List Call :=
  (match d.hasProperty with
    | some _ => [Call.hasProperty level]
    | none => []) ++
  (match ownsProperty d str, d.getProperty with
    | true, some _ => [Call.getProperty level]
    | _, _ => [])

/-- A level's has-property hook exists and claims the name. -/
def claimsProperty (str : String) (d : JSClassDefinition) : Prop :=
  ∃ has, d.hasProperty = some has ∧ has str = true

/-! ### The resolution order of set-property, in the specification's words -/

/-- Some same-named entry of the table has a setter that returns true. -/
def entriesSet (str : String) (value : Value) (table : List JSStaticValue) : Prop :=
  ∃ e ∈ table, e.name = str ∧
    ∃ setter, e.setProperty = some setter ∧ (setter str value).result = true

/-- A same-named static-table setter of the level returns true. -/
def tableSets (str : String) (value : Value) (d : JSClassDefinition) : Prop :=
  entriesSet str value d.staticValues

/-- The set-property hook of the level returns true. -/
def hookSets (str : String) (value : Value) (d : JSClassDefinition) : Prop :=
  ∃ setter, d.setProperty = some setter ∧ (setter str value).result = true

/-- One of the three signals of success comes from the level. -/
def levelSets (str : String) (value : Value) (d : JSClassDefinition) : Prop :=
  tableSets str value d ∨ claimsProperty str d ∨ hookSets str value d

/-- No same-named static-table setter and no set-property hook of the chain signals
an exception for this name and value. -/
def noSetterThrows (str : String) (value : Value) (definition : List JSClassDefinition) :
    Prop :=
  ∀ d ∈ definition,
    (∀ e ∈ d.staticValues, e.name = str →
      ∀ setter, e.setProperty = some setter → (setter str value).exception = none) ∧
    (∀ setter, d.setProperty = some setter → (setter str value).exception = none)

/-- The place of a callback within its level in `NamedPropertySetter`: static-table
setters first, then has-property, then set-property. -/
def Call.phase : Call → Nat
  | .hasProperty _ => 1
  | .setProperty _ => 2
  | _ => 0

/-- The order of invocation in `NamedPropertySetter`: an earlier callback belongs to a
level nearer the instance, or to the same level and no later phase. -/
def setterOrder (a b : Call) : Prop :=
  a.level < b.level ∨ (a.level = b.level ∧ a.phase ≤ b.phase)

/-- The callbacks seen so far lie before the static setters of `level`. -/
def beforeHooks (level : Nat) (calls : List Call) : Prop :=
  ∀ a ∈ calls, a.level < level ∨ (a.level = level ∧ a.phase = 0)

/-- The exception that the setter callback named by an entry of the trace signals for
this name and value: the static-table setter at that level and index, or the
set-property hook of that level. -/
def setterException (definition : List JSClassDefinition) (str : String) (value : Value) :
    Call → Option Value
  | .staticSetProperty level i =>
    match definition[level]? with
    | some d =>
      match d.staticValues[i]? with
      | some e =>
        match e.setProperty with
        | some setter => (setter str value).exception
        | none => none
      | none => none
    | none => none
  | .setProperty level =>
    match definition[level]? with
    | some d =>
      match d.setProperty with
      | some setter => (setter str value).exception
      | none => none
    | none => none
  | _ => none

/-- What the trace so far says about `exception`: a callback that signalled one is
the reason for the one held. -/
def exceptionTraced (definition : List JSClassDefinition) (str : String) (value : Value)
    (s : SetState) : Prop :=
  ∀ c ∈ s.calls, ∀ x, setterException definition str value c = some x →
    s.exception = some x

/-! ### The resolution order of has-property, in the specification's words -/

/-- The table holds an entry of exactly that name not flagged don't-enumerate. -/
def entriesHave (str : String) (table : List JSStaticValue) : Prop :=
  ∃ e ∈ table, e.name = str ∧ e.attributes &&& kJSPropertyAttributeDontEnum = 0

/-- The level answers true: its has-property hook does, or its static property table
holds an enumerable entry of the name. -/
def levelHas (str : String) (d : JSClassDefinition) : Prop :=
  claimsProperty str d ∨ entriesHave str d.staticValues

/-- The order of consultation in `NamedPropertyQuerier`: an earlier consultation
belongs to a level nearer the instance, or is the hook of the level whose table the
later one scans. -/
def queryOrder (a b : Call) : Prop :=
  a.level < b.level ∨
    (a.level = b.level ∧ a = Call.hasProperty a.level ∧ b = Call.staticValues b.level)

/-! ### The outcome of enumeration, in the specification's words -/

/-- The names a level adds to the accumulator, in the order it adds them: those its
enumerate-properties hook adds, then those of its static property entries not
flagged don't-enumerate, in table order. -/
def levelNames (d : JSClassDefinition) : List String :=
  (match d.getPropertyNames with
    | some names => names.filterMap id
    | none => []) ++
  (d.staticValues.filter
    (fun e => e.attributes &&& kJSPropertyAttributeDontEnum = 0)).map (fun e => e.name)

/-- The names added to the accumulator over the whole walk, in the order they are
added: the instance's own level first, then its parent's, and so on. -/
def addedNames (definition : List JSClassDefinition) : List String :=
  definition.flatMap levelNames

/-- A sequence with every occurrence of a name after its first removed. -/
def keepFirst : List String → List String
  | [] => []
  | x :: xs => x :: (keepFirst xs).filter (fun y => y ≠ x)

/-! ### Lifecycle order and first answers, in the specification's words -/

/-- The levels of a chain that satisfy `p`, from the instance's own definition (level
`0`) to the root. -/
def levelsWhere (p : JSClassDefinition → Bool) :
    List JSClassDefinition → Nat → List Nat
  | [], _ => []
  | d :: parentClass, level =>
    if p d then level :: levelsWhere p parentClass (level + 1)
    else levelsWhere p parentClass (level + 1)

/-- The first level of a chain, from the instance's own definition, that declares a
hook, with that hook. -/
def firstDeclared {α : Type} (hook : JSClassDefinition → Option α) :
    List JSClassDefinition → Nat → Option (Nat × α)
  | [], _ => none
  | d :: parentClass, level =>
    match hook d with
    | some h => some (level, h)
    | none => firstDeclared hook parentClass (level + 1)

/-- The hooks that a first-answer walk invokes, with their levels: `result` gives what
the hook of a level returns for the arguments of the call (nothing for a level
without the hook), and the walk goes on to the parent as long as the hook just
invoked was `quiet`, that is left the loop guard true. -/
def invoked {α : Type} (result : JSClassDefinition → Option α) (quiet : α → Bool) :
    List JSClassDefinition → Nat → List (Nat × α)
  | [], _ => []
  | d :: parentClass, level =>
    match result d with
    | some r =>
      if quiet r then (level, r) :: invoked result quiet parentClass (level + 1)
      else [(level, r)]
    | none => invoked result quiet parentClass (level + 1)

/-- The hook that ended a first-answer walk, if one did: the one that was not
quiet. -/
def decided {α : Type} (quiet : α → Bool) (hooks : List (Nat × α)) : Option (Nat × α) :=
  hooks.find? (fun p => !quiet p.2)

/-- A delete-property hook left the loop guard `!exception && !deleted` true. -/
def BoolResult.quiet (r : BoolResult) : Bool := r.exception.isNone && !r.result

/-- A value-returning hook left the loop guard `!exception && !value` true. -/
def HookResult.quiet (r : HookResult) : Bool := r.exception.isNone && r.value.isNone

/-- What the delete-property hook of a level returns for the name, if the level has
one. -/
def deleteResult (str : String) (d : JSClassDefinition) : Option BoolResult :=
  d.deleteProperty.map (fun deleter => deleter str)

/-- What the convert-to-type hook of a level returns for the type, if the level has
one. -/
def convertResult (type : JSType) (d : JSClassDefinition) : Option HookResult :=
  d.convertToType.map (fun convert => convert type)

/-- The deleter reports the deletion as handled: it has set a return value. -/
def DeleteOutcome.handled (o : DeleteOutcome) : Bool := o.returnValue.isSome

/-- The answer of the chain walk of has-instance: the boolean returned by the
has-instance hook of the first level that declares one, and no answer when no level
declares one. -/
def hookAnswer (possibleInstance : Value) (definition : List JSClassDefinition) :
    Option Value :=
  (firstDeclared (fun d => d.hasInstance) definition 0).map
    (fun p => Value.boolean (p.2 possibleInstance).result)

/-- What the `TryCatch` holds after an engine operation: the thrown value when the
operation failed. -/
def caught {α : Type} (result : Except Value α) : Option Value :=
  match result with
  | Except.error e => some e
  | Except.ok _ => none

/-- The contract of a fallible entry point, for the result `r` of a call that was
given the out-parameter `exceptionRef` and whose engine work came out as `result`:
when the engine threw, the returned result is null, the exception reported is the
thrown value, and a supplied out-parameter holds it; when the engine gave a value,
that value is returned, no exception is reported, and a supplied out-parameter is
set to null; an out-parameter that was not supplied stays so. -/
def EntryResult.contract (exceptionRef : Option (Option Value))
    (result : Except Value Value) (r : EntryResult) : Prop :=
  match result with
  | Except.error e =>
    r = { out := none, exception := some e,
          exceptionRef := exceptionRef.map (fun _ => some e) }
  | Except.ok v =>
    r = { out := some v, exception := none,
          exceptionRef := exceptionRef.map (fun _ => none) }

/-- The contract of the two entry points that answer with a default object, for the
result `r` of a call given the out-parameter `exceptionRef` and whose argument
coercion came out as `result`: when the coercion threw, the object made from
`fallback` is returned, the exception reported is the thrown value, and a supplied
out-parameter holds it; when it gave `a`, the object made from `a` is returned, no
exception is reported, and a supplied out-parameter is set to null. -/
def EntryResult.defaulted {α : Type} (exceptionRef : Option (Option Value))
    (result : Except Value α) (make : α → Value) (fallback : α) (r : EntryResult) :
    Prop :=
  match result with
  | Except.error e =>
    r = { out := some (make fallback), exception := some e,
          exceptionRef := exceptionRef.map (fun _ => some e) }
  | Except.ok a =>
    r = { out := some (make a), exception := none,
          exceptionRef := exceptionRef.map (fun _ => none) }

/-- The epoch of `makeDate`, in the specification's words: the current time without
an argument, and otherwise the first argument coerced to a number. -/
def dateEpoch (v8 : V8) (arguments : List Value) : Except Value Int :=
  match arguments.head? with
  | none => Except.ok v8.DateNow
  | some argument => v8.ToNumber argument

/-- The message of `makeError`, in the specification's words: the empty string
without an argument, and otherwise the first argument coerced to a string. -/
def errorMessage (v8 : V8) (arguments : List Value) : Except Value String :=
  match arguments.head? with
  | none => Except.ok ""
  | some argument => v8.ToString argument

/-- The flags a flags string stands for: each of global, ignore-case and multiline
is on exactly when its letter occurs in the string. -/
def flagsOf (flags_ : String) : RegExpFlags :=
  { kGlobal := decide ('g' ∈ flags_.data),
    kIgnoreCase := decide ('i' ∈ flags_.data),
    kMultiline := decide ('m' ∈ flags_.data) }

/-- The engine work of `makeRegExp`, in the specification's words: coerce the first
argument to the pattern and the second to the flags string, where they are given (the
empty string where not), then make the regular expression; the first step that throws
ends the work with what it threw. -/
def regExpOperation (v8 : V8) (arguments : List Value) : Except Value Value :=
  match arguments with
  | [] => v8.RegExpNew "" (flagsOf "")
  | [pattern] => (v8.ToString pattern).bind (fun p => v8.RegExpNew p (flagsOf ""))
  | pattern :: flags :: _ =>
    (v8.ToString pattern).bind (fun p =>
      (v8.ToString flags).bind (fun f => v8.RegExpNew p (flagsOf f)))

/-- The engine work of `makeFunction`, in the specification's words: compile the
source text of the function under the given origin, "anonymous" where none is given,
then run it; the first step that throws ends the work with what it threw. -/
def functionOperation (v8 : V8) (name : Option String) (parameterNames : List String)
    (body : Option String) (sourceURL : Option String) (startingLineNumber : Int) :
    Except Value Value :=
  (v8.Compile (functionSource name parameterNames body) (sourceURL.getD "anonymous")
    startingLineNumber).bind v8.Run

/-- The kind a conversion hint stands for, in the specification's words: the string
kind for the hint "string", the number kind for every other hint. -/
def hintKind (hint : String) : JSType :=
  if hint = "string" then JSType.kJSTypeString else JSType.kJSTypeNumber

/-! ### Example classes -/

/-- A derived class whose has-property hook disowns every name. -/
def exDerived : JSClassDefinition :=
  { hasProperty := some (fun _ => false),
    getProperty := some (fun _ => { value := some (Value.number 1) }) }

/-- A base class with a static value "x" that has a getter and no setter. -/
def exBase : JSClassDefinition :=
  { staticValues :=
      [{ name := "x", getProperty := some (fun _ => { value := some (Value.number 7) }) }] }

/-- A class whose has-property hook claims every name but which has no getter. -/
def exClaiming : JSClassDefinition :=
  { hasProperty := some (fun _ => true) }

/-- A derived class whose static setter for "x" declines and whose set-property hook
accepts. -/
def exSetting : JSClassDefinition :=
  { staticValues := [{ name := "x", setProperty := some (fun _ _ => { result := false }) }],
    setProperty := some (fun _ _ => { result := true }) }

/-- A class whose static setter for "x" signals an exception. -/
def exThrowing : JSClassDefinition :=
  { staticValues :=
      [{ name := "x",
         setProperty := some (fun _ _ => { exception := some (Value.string "boom") }) }] }

/-- A class whose table holds "x" flagged don't-enumerate and "y" unflagged. -/
def exHidden : JSClassDefinition :=
  { hasProperty := some (fun _ => false),
    staticValues :=
      [{ name := "x", attributes := kJSPropertyAttributeDontEnum }, { name := "y" }] }

/-- A class whose call-as-constructor hook signals the exception "boom" and returns no
object, the way a constructor callback throws. -/
def exThrowingConstructor : JSClassDefinition :=
  { callAsConstructor := some (fun _ => { exception := some (Value.string "boom") }) }

/-- A class whose call-as-function hook signals the exception "boom". -/
def exThrowingFunction : JSClassDefinition :=
  { callAsFunction := some (fun _ _ => { exception := some (Value.string "boom") }) }

/-- A derived class whose hook adds "b", a null name and "a", and whose table holds
"a", a hidden "h" and "c". -/
def exEnumDerived : JSClassDefinition :=
  { getPropertyNames := some [some "b", none, some "a"],
    staticValues :=
      [{ name := "a" }, { name := "h", attributes := kJSPropertyAttributeDontEnum },
       { name := "c" }] }

/-- A base class whose table holds "c" and "d" and whose hook adds "b". -/
def exEnumBase : JSClassDefinition :=
  { getPropertyNames := some [some "b"],
    staticValues := [{ name := "c" }, { name := "d" }] }

/-- A class whose static property table declares the index names "9" and "10". -/
def exIndexed : JSClassDefinition :=
  { staticValues := [{ name := "9" }, { name := "10" }] }

/-- A class whose static property table declares the names "-1", "1.5", "abc" and
"2". -/
def exNegativeIndex : JSClassDefinition :=
  { staticValues := [{ name := "-1" }, { name := "1.5" }, { name := "abc" }, { name := "2" }] }

/-- The chain A → B → C, with C the root, in which every level declares `finalize` and
`initialize`. -/
def exLifecycleABC : List JSClassDefinition :=
  [{ className := some "A", finalize := true, initialize_ := true },
   { className := some "B", finalize := true, initialize_ := true },
   { className := some "C", finalize := true, initialize_ := true }]

/-- The chain Derived → Base in which only Base declares `finalize` and
`initialize`. -/
def exLifecycleDerivedBase : List JSClassDefinition :=
  [{ className := some "Derived" },
   { className := some "Base", finalize := true, initialize_ := true }]

/-- The chain of three classes whose delete-property hooks decline, accept and
(never asked) accept. -/
def exDeleting : List JSClassDefinition :=
  [{ deleteProperty := some (fun _ => { result := false }) },
   { },
   { deleteProperty := some (fun _ => { result := true }) },
   { deleteProperty := some (fun _ => { result := true }) }]

/-- The chain of three classes whose convert-to-type hooks return null, nothing (no
hook), the string "seven" and the number 7. -/
def exConverting : List JSClassDefinition :=
  [{ convertToType := some (fun _ => { }) },
   { },
   { convertToType := some (fun _ => { value := some (Value.string "seven") }) },
   { convertToType := some (fun _ => { value := some (Value.number 7) }) }]

/-- A constructor callback that signals the error "out of range" and returns no
object. -/
def exFailingCallback : List Value → HookResult :=
  fun _ => { exception := some (Value.error "out of range") }

/-- A chain Derived → Base in which only Base declares a call-as-constructor hook,
which returns the object 42. -/
def exConstructing : List JSClassDefinition :=
  [{ }, { callAsConstructor := some (fun _ => { value := some (Value.object 42) }) }]

/-- A chain Derived → Base in which only Base declares a call-as-constructor hook,
which returns the number 3. -/
def exBadConstructing : List JSClassDefinition :=
  [{ }, { callAsConstructor := some (fun _ => { value := some (Value.number 3) }) }]

/-- A chain Derived → Base → Root in which Base and Root declare has-instance hooks
that answer true and false. -/
def exInstanceHooks : List JSClassDefinition :=
  [{ }, { hasInstance := some (fun _ => { result := true }) },
   { hasInstance := some (fun _ => { result := false }) }]

/-- An instance of class 7, whose parent is class 3. -/
def exCandidate : PossibleInstance :=
  { value := Value.instance_ 7, InternalFieldCount := 1, classes := [7, 3] }

/-- A handle after its first retain: external count 1, self-reference held, two
owners (the creator's shared pointer and `m_self`). -/
def exRetainedOnce : JSValue :=
  { m_value := Value.object 9, m_count := 1, m_self := true, use_count := 2 }

/-- A handle whose external count is the largest `int`. -/
def exSaturated : JSValue :=
  { m_value := Value.object 9, m_count := 2147483647, m_self := true, use_count := 2 }

/-- An engine for evaluation: numbers convert to numbers and strings to strings,
every other conversion throws; the pattern "(" is no regular expression; a script
whose text is longer than 40 characters does not compile; the property "boom" has a
throwing getter; only `Value.object 7` can be called or constructed. -/
def exV8 : V8 where
  ToNumber := fun v =>
    match v with
    | Value.number n => Except.ok n
    | _ => Except.error (Value.error "TypeError: not a number")
  ToString := fun v =>
    match v with
    | Value.string s => Except.ok s
    | _ => Except.error (Value.error "TypeError: not a string")
  DateNow := 1000
  DateNew := fun epoch => Value.object epoch.toNat
  RegExpNew := fun pattern _ =>
    if pattern = "(" then Except.error (Value.error "SyntaxError") else Except.ok (Value.object 1)
  Compile := fun source _ _ =>
    if source.length ≤ 40 then Except.ok source.length
    else Except.error (Value.error "SyntaxError")
  Run := fun compiled => Except.ok (Value.object compiled)
  Get := fun _ propertyName =>
    if propertyName = "boom" then Except.error (Value.error "boom")
    else Except.ok (Value.number 1)
  GetIndex := fun _ propertyIndex =>
    if propertyIndex = 13 then Except.error (Value.error "boom")
    else Except.ok (Value.number 1)
  CallAsFunction := fun o _ _ =>
    if o = Value.object 7 then Except.ok (Value.number 5)
    else Except.error (Value.error "TypeError: not a function")
  CallAsConstructor := fun o _ =>
    if o = Value.object 7 then Except.ok (Value.object 8)
    else Except.error (Value.error "TypeError: not a constructor")

/-- A heap with the chain 10 → 20 → 30, of which 10 and 30 declare `initialize`. -/
def exHeap : ClassHeap where
  parentClass := fun definition =>
    if definition = 10 then some 20 else if definition = 20 then some 30 else none
  initialize_ := fun definition => definition = 10 || definition = 30

/-- The chain of three levels of which only the middle one declares a class name. -/
def exNamedMiddle : List JSClassDefinition :=
  [{ }, { className := some "Shape" }, { className := some "Root" }]

/-- The chain of two levels without a class name. -/
def exUnnamed : List JSClassDefinition := [{ }, { }]

/-! ## Theorems -/

/-! ### NamedPropertyGetter -/

theorem getStaticValues_stopped (str : String) (level : Nat) (es : List JSStaticValue)
    (i : Nat) (s : WalkState) (h : s.running = false) :
    getStaticValues str level es i s = s := by
  cases es with
  | nil => rfl
  | cons e es => simp [getStaticValues, h]

theorem getWalk_stopped (str : String) (ds : List JSClassDefinition)
    (level : Nat) (s : WalkState) (h : s.running = false) :
    getWalk str ds level s = s := by
  cases ds with
  | nil => rfl
  | cons d ds => simp [getWalk, h]

theorem getRewalk_stopped (str : String) (ds : List JSClassDefinition)
    (level : Nat) (s : WalkState) (h : s.running = false) :
    getRewalk str ds level s = s := by
  cases ds with
  | nil => rfl
  | cons d ds => simp [getRewalk, h]

theorem running_iff (s : WalkState) :
    s.running = true ↔ s.value = none ∧ s.exception = none := by
  simp [WalkState.running]

theorem not_running_iff (s : WalkState) :
    s.running = false ↔ s.value ≠ none ∨ s.exception ≠ none := by
  cases hv : s.value <;> cases he : s.exception <;> simp [WalkState.running, hv, he]

theorem getStaticValues_hit (str : String) (level : Nat) (e : JSStaticValue)
    (es : List JSStaticValue) (i : Nat) (s : WalkState) (getter : String → HookResult)
    (hs : s.running = true) (hn : e.name = str) (hg : e.getProperty = some getter) :
    getStaticValues str level (e :: es) i s =
      getStaticValues str level es (i + 1)
        { value := (getter str).value, exception := (getter str).exception,
          calls := s.calls ++ [Call.staticGetProperty level i] } := by
  simp [getStaticValues, hs, hn, hg]

theorem getStaticValues_skip (str : String) (level : Nat) (e : JSStaticValue)
    (es : List JSStaticValue) (i : Nat) (s : WalkState)
    (h : e.name ≠ str ∨ e.getProperty = none) :
    getStaticValues str level (e :: es) i s = getStaticValues str level es (i + 1) s := by
  cases hs : s.running with
  | false =>
    rw [getStaticValues_stopped _ _ _ _ _ hs, getStaticValues_stopped _ _ _ _ _ hs]
  | true =>
    rcases h with h | h
    · simp [getStaticValues, hs, h]
    · simp [getStaticValues, hs, h]

theorem namedGetters_hit (str : String) (e : JSStaticValue) (es : List JSStaticValue)
    (getter : String → HookResult) (hn : e.name = str) (hg : e.getProperty = some getter) :
    namedGetters str (e :: es) = getter :: namedGetters str es := by
  simp [namedGetters, hn, hg]

theorem namedGetters_skip (str : String) (e : JSStaticValue) (es : List JSStaticValue)
    (h : e.name ≠ str ∨ e.getProperty = none) :
    namedGetters str (e :: es) = namedGetters str es := by
  rcases h with h | h
  · simp [namedGetters, h]
  · simp [namedGetters, h]

/-- The static getter loop of one level, started with nothing found yet: a value it
ends with is the first one a same-named getter returns, and it ends with neither a
value nor an exception only if no same-named getter returns a value. -/
theorem getStaticValues_spec (str : String) (level : Nat) (es : List JSStaticValue) :
    ∀ (i : Nat) (s : WalkState), s.running = true →
      (∀ v, (getStaticValues str level es i s).value = some v →
        (namedGetters str es).findSome? (fun getter => (getter str).value) = some v) ∧
      ((getStaticValues str level es i s).exception = none →
        (getStaticValues str level es i s).value =
          (namedGetters str es).findSome? (fun getter => (getter str).value)) := by
  induction es with
  | nil =>
    intro i s hs
    have := (running_iff s).1 hs
    simp [getStaticValues, namedGetters, this.1]
  | cons e es ih =>
    intro i s hs
    by_cases hn : e.name = str
    · cases hg : e.getProperty with
      | none =>
        rw [getStaticValues_skip _ _ _ _ _ _ (Or.inr hg), namedGetters_skip _ _ _ (Or.inr hg)]
        exact ih (i + 1) s hs
      | some getter =>
        rw [getStaticValues_hit _ _ _ _ _ _ getter hs hn hg, namedGetters_hit _ _ _ getter hn hg]
        cases hr : WalkState.running
              { value := (getter str).value, exception := (getter str).exception,
                calls := s.calls ++ [Call.staticGetProperty level i] } with
        | false =>
          rw [getStaticValues_stopped _ _ _ _ _ hr]
          cases hv : (getter str).value with
          | some w => simp [hv]
          | none =>
            cases he : (getter str).exception with
            | some x => simp [he]
            | none => simp [WalkState.running, hv, he] at hr
        | true =>
          have h2 := (running_iff _).1 hr
          simp only at h2
          have := ih (i + 1) _ hr
          simpa [h2.1] using this
    · rw [getStaticValues_skip _ _ _ _ _ _ (Or.inl hn), namedGetters_skip _ _ _ (Or.inl hn)]
      exact ih (i + 1) s hs

theorem getLevel_eq (str : String) (level : Nat) (d : JSClassDefinition) (s : WalkState)
    (hs : s.running = true) :
    getLevel str level d s =
      getStaticValues str level d.staticValues 0
        { value := (accessorResult d str).value,
          exception := (accessorResult d str).exception,
          calls := s.calls ++ accessorCalls d str level } := by
  have h := (running_iff s).1 hs
  obtain ⟨v, e, cs⟩ := s
  simp only at h
  obtain ⟨rfl, rfl⟩ := h
  cases hh : d.hasProperty with
  | none =>
    cases hg : d.getProperty with
    | none => simp [getLevel, accessorResult, accessorCalls, ownsProperty, hh, hg]
    | some getter => simp [getLevel, accessorResult, accessorCalls, ownsProperty, hh, hg]
  | some has =>
    cases hg : d.getProperty with
    | none =>
      cases hb : has str <;>
        simp [getLevel, accessorResult, accessorCalls, ownsProperty, hh, hg, hb]
    | some getter =>
      cases hb : has str <;>
        simp [getLevel, accessorResult, accessorCalls, ownsProperty, hh, hg, hb]

/-- One level of the first walk, entered with nothing found yet. -/
theorem getLevel_spec (str : String) (level : Nat) (d : JSClassDefinition) (s : WalkState)
    (hs : s.running = true) :
    (∀ v, (getLevel str level d s).value = some v → levelValue str d = some v) ∧
    ((getLevel str level d s).exception = none →
      (getLevel str level d s).value = levelValue str d) := by
  rw [getLevel_eq str level d s hs]
  cases hr : WalkState.running
      { value := (accessorResult d str).value,
        exception := (accessorResult d str).exception,
        calls := s.calls ++ accessorCalls d str level } with
  | false =>
    rw [getStaticValues_stopped _ _ _ _ _ hr]
    cases hv : (accessorResult d str).value with
    | some w => simp [levelValue, hv]
    | none =>
      cases he : (accessorResult d str).exception with
      | some x => simp [he]
      | none => simp [WalkState.running, hv, he] at hr
  | true =>
    have h2 := (running_iff _).1 hr
    simp only at h2
    have := getStaticValues_spec str level d.staticValues 0 _ hr
    simpa [levelValue, h2.1] using this

/-- The first walk, entered with nothing found yet: a value it ends with is the one of
the first level that produces one, and it ends with neither a value nor an exception
only if no level produces a value. -/
theorem getWalk_spec (str : String) (ds : List JSClassDefinition) :
    ∀ (level : Nat) (s : WalkState), s.running = true →
      (∀ v, (getWalk str ds level s).value = some v → firstValue ds str = some v) ∧
      ((getWalk str ds level s).exception = none →
        (getWalk str ds level s).value = firstValue ds str) := by
  induction ds with
  | nil =>
    intro level s hs
    have := (running_iff s).1 hs
    simp [getWalk, firstValue, this.1]
  | cons d ds ih =>
    intro level s hs
    have hl := getLevel_spec str level d s hs
    have hw : getWalk str (d :: ds) level s =
        getWalk str ds (level + 1) (getLevel str level d s) := by
      simp [getWalk, hs]
    rw [hw]
    cases hr : (getLevel str level d s).running with
    | false =>
      rw [getWalk_stopped _ _ _ _ hr]
      rcases (not_running_iff _).1 hr with hv | he
      · obtain ⟨w, hw2⟩ := Option.ne_none_iff_exists'.1 hv
        have := hl.1 w hw2
        simp [firstValue, this, hw2]
      · constructor
        · intro v hv
          have := hl.1 v hv
          simp [firstValue, this]
        · intro h
          exact absurd h he
    | true =>
      have h2 := (running_iff _).1 hr
      have hnone : levelValue str d = none := by
        rw [← hl.2 h2.2]
        exact h2.1
      have := ih (level + 1) _ hr
      simpa [firstValue, hnone] using this

/-- Where the callbacks of the static getter loop come from. -/
theorem getStaticValues_calls (str : String) (level : Nat) (c : Call)
    (es : List JSStaticValue) :
    ∀ (i : Nat) (s : WalkState), c ∈ (getStaticValues str level es i s).calls →
      c ∈ s.calls ∨ (s.running = true ∧ ∃ j, c = Call.staticGetProperty level j) := by
  induction es with
  | nil =>
    intro i s h
    exact Or.inl h
  | cons e es ih =>
    intro i s h
    cases hs : s.running with
    | false =>
      rw [getStaticValues_stopped _ _ _ _ _ hs] at h
      exact Or.inl h
    | true =>
      by_cases hn : e.name = str
      · cases hg : e.getProperty with
        | none =>
          rw [getStaticValues_skip _ _ _ _ _ _ (Or.inr hg)] at h
          rcases ih _ _ h with h1 | h1
          · exact Or.inl h1
          · exact Or.inr ⟨rfl, h1.2⟩
        | some getter =>
          rw [getStaticValues_hit _ _ _ _ _ _ getter hs hn hg] at h
          rcases ih _ _ h with h1 | h1
          · simp only [List.mem_append, List.mem_singleton] at h1
            rcases h1 with h1 | h1
            · exact Or.inl h1
            · exact Or.inr ⟨rfl, i, h1⟩
          · exact Or.inr ⟨rfl, h1.2⟩
      · rw [getStaticValues_skip _ _ _ _ _ _ (Or.inl hn)] at h
        rcases ih _ _ h with h1 | h1
        · exact Or.inl h1
        · exact Or.inr ⟨rfl, h1.2⟩

/-- Where the callbacks of the first walk come from: the accessor pair of a level, or
a static getter of a level whose accessor pair left neither a value nor an
exception. -/
theorem getWalk_calls (str : String) (c : Call) (ds : List JSClassDefinition) :
    ∀ (level : Nat) (s : WalkState), c ∈ (getWalk str ds level s).calls →
      c ∈ s.calls ∨ ∃ k d, ds[k]? = some d ∧
        (c ∈ accessorCalls d str (level + k) ∨
          ((accessorResult d str).value = none ∧
            ∃ j, c = Call.staticGetProperty (level + k) j)) := by
  induction ds with
  | nil =>
    intro level s h
    exact Or.inl h
  | cons d ds ih =>
    intro level s h
    cases hs : s.running with
    | false =>
      rw [getWalk_stopped _ _ _ _ hs] at h
      exact Or.inl h
    | true =>
      have hw : getWalk str (d :: ds) level s =
          getWalk str ds (level + 1) (getLevel str level d s) := by
        simp [getWalk, hs]
      rw [hw] at h
      rcases ih _ _ h with h1 | ⟨k, d2, hk, h1⟩
      · rw [getLevel_eq str level d s hs] at h1
        rcases getStaticValues_calls _ _ _ _ _ _ h1 with h2 | ⟨hrun, j, hj⟩
        · simp only [List.mem_append] at h2
          rcases h2 with h2 | h2
          · exact Or.inl h2
          · exact Or.inr ⟨0, d, by simp, Or.inl (by simpa using h2)⟩
        · have h3 := (running_iff _).1 hrun
          exact Or.inr ⟨0, d, by simp, Or.inr ⟨h3.1, j, by simpa using hj⟩⟩
      · refine Or.inr ⟨k + 1, d2, by simpa using hk, ?_⟩
        have e1 : level + (k + 1) = level + 1 + k := by omega
        rw [e1]
        exact h1

/-- The second walk only ever invokes has-property hooks. -/
theorem getRewalk_calls (str : String) (c : Call) (ds : List JSClassDefinition) :
    ∀ (level : Nat) (s : WalkState), c ∈ (getRewalk str ds level s).calls →
      c ∈ s.calls ∨ (s.running = true ∧ ∃ l, c = Call.hasProperty l) := by
  induction ds with
  | nil =>
    intro level s h
    exact Or.inl h
  | cons d ds ih =>
    intro level s h
    cases hs : s.running with
    | false =>
      rw [getRewalk_stopped _ _ _ _ hs] at h
      exact Or.inl h
    | true =>
      cases hh : d.hasProperty with
      | none =>
        simp only [getRewalk, hs, hh, if_true] at h
        rcases ih _ _ h with h1 | h1
        · exact Or.inl h1
        · exact Or.inr ⟨rfl, h1.2⟩
      | some has =>
        simp only [getRewalk, hs, hh, if_true] at h
        split at h
        all_goals
          rcases ih _ _ h with h1 | h1
          · simp only [List.mem_append, List.mem_singleton] at h1
            rcases h1 with h1 | h1
            · exact Or.inl h1
            · exact Or.inr ⟨rfl, level, h1⟩
          · exact Or.inr ⟨rfl, h1.2⟩

/-- The second walk leaves `value` alone and never clears `exception`. -/
theorem getRewalk_value (str : String) (ds : List JSClassDefinition) :
    ∀ (level : Nat) (s : WalkState),
      (getRewalk str ds level s).value = s.value ∧
      ((getRewalk str ds level s).exception = none → s.exception = none) := by
  induction ds with
  | nil =>
    intro level s
    simp [getRewalk]
  | cons d ds ih =>
    intro level s
    cases hs : s.running with
    | false =>
      rw [getRewalk_stopped _ _ _ _ hs]
      simp
    | true =>
      have h0 := (running_iff s).1 hs
      cases hh : d.hasProperty with
      | none =>
        simp only [getRewalk, hs, hh, if_true]
        exact ih _ _
      | some has =>
        simp only [getRewalk, hs, hh, if_true]
        split
        · have := ih (level + 1)
            { value := s.value,
              exception := some (Exception.Error ("Invalid property: " ++ str)),
              calls := s.calls ++ [Call.hasProperty level] }
          refine ⟨this.1, fun h => ?_⟩
          exact absurd (this.2 h) (by simp)
        · have := ih (level + 1)
            { value := s.value, exception := s.exception,
              calls := s.calls ++ [Call.hasProperty level] }
          exact ⟨this.1, fun _ => h0.2⟩

theorem NamedPropertyGetter_returnValue (definition : List JSClassDefinition)
    (property : String) :
    (NamedPropertyGetter definition property).returnValue =
      (getWalk property definition 0 {}).value := by
  unfold NamedPropertyGetter
  simp only
  split
  · exact (getRewalk_value _ _ _ _).1
  · rfl

theorem NamedPropertyGetter_thrown_none (definition : List JSClassDefinition)
    (property : String) (h : (NamedPropertyGetter definition property).thrown = none) :
    (getWalk property definition 0 {}).exception = none := by
  unfold NamedPropertyGetter at h
  simp only at h
  split at h
  · exact (getRewalk_value _ _ _ _).2 h
  · exact h

theorem NamedPropertyGetter_calls (definition : List JSClassDefinition)
    (property : String) (c : Call)
    (h : c ∈ (NamedPropertyGetter definition property).calls) :
    c ∈ (getWalk property definition 0 {}).calls ∨ ∃ l, c = Call.hasProperty l := by
  unfold NamedPropertyGetter at h
  simp only at h
  split at h
  · rcases getRewalk_calls _ _ _ _ _ h with h1 | h1
    · exact Or.inl h1
    · exact Or.inr h1.2
  · exact Or.inl h

theorem mem_accessorCalls_getProperty (d : JSClassDefinition) (str : String)
    (level l : Nat) (h : Call.getProperty l ∈ accessorCalls d str level) :
    l = level ∧ ownsProperty d str = true := by
  unfold accessorCalls at h
  cases ho : ownsProperty d str <;> cases hh : d.hasProperty <;>
    cases hg : d.getProperty <;> simp [ho, hh, hg] at h <;> simp [h]

theorem not_mem_accessorCalls_static (d : JSClassDefinition) (str : String)
    (level l i : Nat) : Call.staticGetProperty l i ∉ accessorCalls d str level := by
  unfold accessorCalls
  cases ho : ownsProperty d str <;> cases hh : d.hasProperty <;>
    cases hg : d.getProperty <;> simp [ho, hh, hg]

/-- C1 (get-property resolution order): the value `NamedPropertyGetter` returns is the
one produced at the first level of the chain, from the instance's own definition
toward the root, at which the accessor pair (get-property asked only when
has-property is absent or affirms) or, failing that, a same-named static getter
returns a value; when nothing is thrown the returned value is exactly that one; a
get-property hook is invoked only at a level whose has-property hook is absent or
returns true; and a static getter is invoked only at a level whose accessor pair
produced no value. -/
theorem NamedPropertyGetter_first_level (definition : List JSClassDefinition)
    (property : String) :
    (∀ v, (NamedPropertyGetter definition property).returnValue = some v →
      firstValue definition property = some v) ∧
    ((NamedPropertyGetter definition property).thrown = none →
      (NamedPropertyGetter definition property).returnValue =
        firstValue definition property) ∧
    (∀ level, Call.getProperty level ∈ (NamedPropertyGetter definition property).calls →
      ∃ d, definition[level]? = some d ∧ ownsProperty d property = true) ∧
    (∀ level index,
      Call.staticGetProperty level index ∈ (NamedPropertyGetter definition property).calls →
      ∃ d, definition[level]? = some d ∧ (accessorResult d property).value = none) := by
  have hspec := getWalk_spec property definition 0 {} rfl
  refine ⟨?_, ?_, ?_, ?_⟩
  · intro v hv
    rw [NamedPropertyGetter_returnValue] at hv
    exact hspec.1 v hv
  · intro ht
    rw [NamedPropertyGetter_returnValue]
    exact hspec.2 (NamedPropertyGetter_thrown_none _ _ ht)
  · intro level h
    rcases NamedPropertyGetter_calls _ _ _ h with h1 | ⟨l, h1⟩
    · rcases getWalk_calls _ _ _ _ _ h1 with h2 | ⟨k, d, hk, h2 | ⟨_, j, h2⟩⟩
      · simp at h2
      · have := mem_accessorCalls_getProperty _ _ _ _ h2
        refine ⟨d, ?_, this.2⟩
        rw [this.1]
        simpa using hk
      · simp at h2
    · simp at h1
  · intro level index h
    rcases NamedPropertyGetter_calls _ _ _ h with h1 | ⟨l, h1⟩
    · rcases getWalk_calls _ _ _ _ _ h1 with h2 | ⟨k, d, hk, h2 | ⟨hv, j, h2⟩⟩
      · simp at h2
      · exact absurd h2 (not_mem_accessorCalls_static _ _ _ _ _)
      · simp only [Call.staticGetProperty.injEq] at h2
        refine ⟨d, ?_, hv⟩
        rw [h2.1]
        simpa using hk
    · simp at h1

/-- Witness of C1 on the chain `exDerived → exBase`: the derived level disowns "x", so
the value is the one of the base level's static getter. -/
theorem NamedPropertyGetter_first_level_witness :
    (NamedPropertyGetter [exDerived, exBase] "x").returnValue = some (Value.number 7) ∧
    firstValue [exDerived, exBase] "x" = some (Value.number 7) :=
  ⟨by decide, (NamedPropertyGetter_first_level [exDerived, exBase] "x").1 _ (by decide)⟩

/-- The second walk, entered with nothing found: it ends with the "Invalid property"
error if some level claims the name, and with no exception otherwise. -/
theorem getRewalk_exception (str : String) (ds : List JSClassDefinition) :
    ∀ (level : Nat) (s : WalkState), s.running = true →
      ((∃ d ∈ ds, claimsProperty str d) →
        (getRewalk str ds level s).exception =
          some (Exception.Error ("Invalid property: " ++ str))) ∧
      ((¬ ∃ d ∈ ds, claimsProperty str d) →
        (getRewalk str ds level s).exception = none) := by
  induction ds with
  | nil =>
    intro level s hs
    have h0 := (running_iff s).1 hs
    simp [getRewalk, h0.2]
  | cons d ds ih =>
    intro level s hs
    have h0 := (running_iff s).1 hs
    cases hh : d.hasProperty with
    | none =>
      have hd : ¬ claimsProperty str d := by simp [claimsProperty, hh]
      simp only [getRewalk, hs, hh, if_true]
      have := ih (level + 1) s hs
      simpa [hd] using this
    | some has =>
      simp only [getRewalk, hs, hh, if_true]
      cases hb : has str with
      | true =>
        have hd : claimsProperty str d := ⟨has, hh, hb⟩
        have hstop : WalkState.running
            { value := s.value,
              exception := some (Exception.Error ("Invalid property: " ++ str)),
              calls := s.calls ++ [Call.hasProperty level] } = false := by
          simp [WalkState.running]
        simp only [if_true]
        rw [getRewalk_stopped _ _ _ _ hstop]
        simp [hd]
      | false =>
        have hd : ¬ claimsProperty str d := by simp [claimsProperty, hh, hb]
        have hrun : WalkState.running
            { value := s.value, exception := s.exception,
              calls := s.calls ++ [Call.hasProperty level] } = true := by
          simpa [WalkState.running] using hs
        have := ih (level + 1) _ hrun
        simpa [hd] using this

/-- C2 (inconsistent has-property answer): when the first walk of `NamedPropertyGetter`
ends with neither a value nor an exception, the handler throws the error
"Invalid property: <name>" if and only if some level's has-property hook returns true
for the name; if no level claims the name, it returns nothing and throws nothing. -/
theorem NamedPropertyGetter_invalid_property (definition : List JSClassDefinition)
    (property : String) (h : (getWalk property definition 0 {}).running = true) :
    ((NamedPropertyGetter definition property).thrown =
        some (Exception.Error ("Invalid property: " ++ property)) ↔
      ∃ d ∈ definition, ∃ has, d.hasProperty = some has ∧ has property = true) ∧
    ((¬ ∃ d ∈ definition, ∃ has, d.hasProperty = some has ∧ has property = true) →
      (NamedPropertyGetter definition property).returnValue = none ∧
      (NamedPropertyGetter definition property).thrown = none) := by
  have h0 := (running_iff _).1 h
  have hr := getRewalk_exception property definition 0 _ h
  have hret : (NamedPropertyGetter definition property).returnValue = none := by
    rw [NamedPropertyGetter_returnValue]
    exact h0.1
  have hthr : (NamedPropertyGetter definition property).thrown =
      (getRewalk property definition 0 (getWalk property definition 0 {})).exception := by
    unfold NamedPropertyGetter
    simp [h0.1]
  rw [hthr]
  by_cases hc : ∃ d ∈ definition, claimsProperty property d
  · refine ⟨⟨fun _ => hc, fun _ => hr.1 hc⟩, fun hn => absurd hc hn⟩
  · refine ⟨⟨fun ht => ?_, fun hn => absurd hn hc⟩, fun _ => ⟨hret, hr.2 hc⟩⟩
    rw [hr.2 hc] at ht
    exact absurd ht (by simp)

/-- Witness of C2 on the class `exClaiming`, which claims "x" but has no getter. -/
theorem NamedPropertyGetter_invalid_property_witness :
    (getWalk "x" [exClaiming] 0 {}).running = true ∧
    (NamedPropertyGetter [exClaiming] "x").thrown =
      some (Exception.Error ("Invalid property: " ++ "x")) :=
  ⟨by decide,
    ((NamedPropertyGetter_invalid_property [exClaiming] "x" (by decide)).1).2
      ⟨exClaiming, by simp, fun _ => true, rfl, rfl⟩⟩

/-! ### NamedPropertySetter -/

theorem setStaticValues_stopped (str : String) (valueRef : Value) (level : Nat)
    (es : List JSStaticValue) (i : Nat) (s : SetState) (h : s.running = false) :
    setStaticValues str valueRef level es i s = s := by
  cases es with
  | nil => rfl
  | cons e es => simp [setStaticValues, h]

theorem setWalk_stopped (str : String) (valueRef : Value) (ds : List JSClassDefinition)
    (level : Nat) (s : SetState) (h : s.running = false) :
    setWalk str valueRef ds level s = s := by
  cases ds with
  | nil => rfl
  | cons d ds => simp [setWalk, h]

theorem setStaticValues_hit (str : String) (valueRef : Value) (level : Nat)
    (e : JSStaticValue) (es : List JSStaticValue) (i : Nat) (s : SetState)
    (setter : String → Value → BoolResult)
    (hs : s.running = true) (hn : e.name = str) (hg : e.setProperty = some setter) :
    setStaticValues str valueRef level (e :: es) i s =
      setStaticValues str valueRef level es (i + 1)
        { set := (setter str valueRef).result, exception := (setter str valueRef).exception,
          calls := s.calls ++ [Call.staticSetProperty level i] } := by
  simp [setStaticValues, hs, hn, hg]

theorem setStaticValues_skip (str : String) (valueRef : Value) (level : Nat)
    (e : JSStaticValue) (es : List JSStaticValue) (i : Nat) (s : SetState)
    (h : e.name ≠ str ∨ e.setProperty = none) :
    setStaticValues str valueRef level (e :: es) i s =
      setStaticValues str valueRef level es (i + 1) s := by
  cases hs : s.running with
  | false =>
    rw [setStaticValues_stopped _ _ _ _ _ _ hs, setStaticValues_stopped _ _ _ _ _ _ hs]
  | true =>
    rcases h with h | h
    · simp [setStaticValues, hs, h]
    · simp [setStaticValues, hs, h]

/-- A table without a setter for the name leaves the state of the walk untouched. -/
theorem setStaticValues_no_setter (str : String) (valueRef : Value) (level : Nat)
    (es : List JSStaticValue) (h : ∀ e ∈ es, e.name = str → e.setProperty = none) :
    ∀ (i : Nat) (s : SetState), setStaticValues str valueRef level es i s = s := by
  induction es with
  | nil =>
    intro i s
    rfl
  | cons e es ih =>
    intro i s
    have he : e.name ≠ str ∨ e.setProperty = none := by
      by_cases hn : e.name = str
      · exact Or.inr (h e (by simp) hn)
      · exact Or.inl hn
    rw [setStaticValues_skip _ _ _ _ _ _ _ he]
    exact ih (fun e2 h2 => h e2 (by simp [h2])) _ _

/-- C3, as the code has it: for a class with no parent and no hooks whose static
table has no setter for the name (in particular one that declares "x" with a getter
only), setting the name throws nothing, invokes no callback and is not intercepted:
no return value is set, so the engine goes on to its default property semantics. -/
theorem NamedPropertySetter_getter_only (d : JSClassDefinition) (property : String)
    (value : Value) (hhas : d.hasProperty = none) (hset : d.setProperty = none)
    (htable : ∀ e ∈ d.staticValues, e.name = property → e.setProperty = none) :
    (NamedPropertySetter [d] property value).thrown = none ∧
    (NamedPropertySetter [d] property value).intercepted = false ∧
    (NamedPropertySetter [d] property value).calls = [] := by
  have h1 : setWalk property value [d] 0 {} = {} := by
    simp [setWalk, SetState.running, setLevel, setHooks,
      setStaticValues_no_setter property value 0 d.staticValues htable, hhas, hset]
  simp [NamedPropertySetter, h1, Outcome.intercepted]

/-- Witness of the amended C3 on `exBase`, whose table declares "x" with a getter and no
setter. -/
theorem NamedPropertySetter_getter_only_witness :
    (NamedPropertySetter [exBase] "x" (Value.number 3)).thrown = none ∧
    (NamedPropertySetter [exBase] "x" (Value.number 3)).intercepted = false ∧
    (NamedPropertySetter [exBase] "x" (Value.number 3)).calls = [] :=
  NamedPropertySetter_getter_only exBase "x" (Value.number 3) rfl rfl
    (by
      intro e he _
      simp only [exBase, List.mem_singleton] at he
      rw [he])

/-- Counterexample to C3 as stated: on `exBase` (no parent, no hooks, "x" declared with
a getter and no setter) setting "x" throws nothing but is not intercepted. -/
theorem NamedPropertySetter_getter_only_not_intercepted :
    ¬ ((NamedPropertySetter [exBase] "x" (Value.number 3)).thrown = none ∧
      (NamedPropertySetter [exBase] "x" (Value.number 3)).intercepted = true) := by
  decide

theorem set_running_iff (s : SetState) :
    s.running = true ↔ s.exception = none ∧ s.set = false := by
  simp [SetState.running]

theorem set_not_running_iff (s : SetState) :
    s.running = false ↔ s.exception ≠ none ∨ s.set = true := by
  cases hv : s.set <;> cases he : s.exception <;> simp [SetState.running, hv, he]

theorem entriesSet_cons (str : String) (value : Value) (e : JSStaticValue)
    (es : List JSStaticValue) :
    entriesSet str value (e :: es) ↔
      (e.name = str ∧ ∃ setter, e.setProperty = some setter ∧
        (setter str value).result = true) ∨ entriesSet str value es := by
  simp [entriesSet]

/-- The static setter loop of one level, entered with `set` false and no exception:
if it ends without an exception, `set` says whether a same-named setter returned
true. -/
theorem setStaticValues_spec (str : String) (valueRef : Value) (level : Nat)
    (es : List JSStaticValue) :
    ∀ (i : Nat) (s : SetState), s.running = true →
      (setStaticValues str valueRef level es i s).exception = none →
      ((setStaticValues str valueRef level es i s).set = true ↔
        entriesSet str valueRef es) := by
  induction es with
  | nil =>
    intro i s hs _
    have h0 := (set_running_iff s).1 hs
    simp [setStaticValues, entriesSet, h0.2]
  | cons e es ih =>
    intro i s hs
    rw [entriesSet_cons]
    by_cases hn : e.name = str
    · cases hg : e.setProperty with
      | none =>
        rw [setStaticValues_skip _ _ _ _ _ _ _ (Or.inr hg)]
        intro hx
        simpa using ih (i + 1) s hs hx
      | some setter =>
        rw [setStaticValues_hit _ _ _ _ _ _ _ setter hs hn hg]
        cases hr : SetState.running
            { set := (setter str valueRef).result,
              exception := (setter str valueRef).exception,
              calls := s.calls ++ [Call.staticSetProperty level i] } with
        | false =>
          rw [setStaticValues_stopped _ _ _ _ _ _ hr]
          intro hx
          simp only at hx
          rcases (set_not_running_iff _).1 hr with h1 | h1
          · exact absurd hx h1
          · simp only at h1
            simp [hn, h1]
        | true =>
          have h2 := (set_running_iff _).1 hr
          simp only at h2
          intro hx
          have := ih (i + 1) _ hr hx
          simpa [hn, h2.2] using this
    · rw [setStaticValues_skip _ _ _ _ _ _ _ (Or.inl hn)]
      intro hx
      simpa [hn] using ih (i + 1) s hs hx

/-- The hooks of one level, entered with `set` false and no exception. -/
theorem setHooks_spec (str : String) (valueRef : Value) (level : Nat)
    (d : JSClassDefinition) (s : SetState) (hs : s.running = true) :
    (setHooks str valueRef level d s).set = true ↔
      (claimsProperty str d ∨ hookSets str valueRef d) := by
  have h0 := (set_running_iff s).1 hs
  cases hh : d.hasProperty with
  | none =>
    cases hp : d.setProperty with
    | none => simp [setHooks, hh, hp, claimsProperty, hookSets, h0.2]
    | some setter => simp [setHooks, hh, hp, claimsProperty, hookSets, h0.2]
  | some has =>
    cases hp : d.setProperty with
    | none => simp [setHooks, hh, hp, claimsProperty, hookSets]
    | some setter => simp [setHooks, hh, hp, claimsProperty, hookSets]

/-- One level of the setter walk, entered with `set` false and no exception: if it
ends without an exception, `set` says whether the level signalled success. -/
theorem setLevel_spec (str : String) (valueRef : Value) (level : Nat)
    (d : JSClassDefinition) (s : SetState) (hs : s.running = true)
    (hx : (setLevel str valueRef level d s).exception = none) :
    (setLevel str valueRef level d s).set = true ↔ levelSets str valueRef d := by
  unfold setLevel at hx ⊢
  simp only at hx ⊢
  cases hr : (setStaticValues str valueRef level d.staticValues 0 s).running with
  | false =>
    simp only [hr] at hx ⊢
    have h1 := setStaticValues_spec str valueRef level d.staticValues 0 s hs hx
    rcases (set_not_running_iff _).1 hr with h2 | h2
    · exact absurd hx h2
    · have : tableSets str valueRef d := h1.1 h2
      simp [levelSets, this, h2]
  | true =>
    simp only [hr, if_true] at hx ⊢
    have h2 := (set_running_iff _).1 hr
    have h1 := setStaticValues_spec str valueRef level d.staticValues 0 s hs h2.1
    have h3 : ¬ tableSets str valueRef d := by
      intro h
      have := h1.2 h
      rw [h2.2] at this
      exact absurd this (by simp)
    rw [setHooks_spec str valueRef level d _ hr]
    simp [levelSets, h3]

/-- The setter walk, entered with `set` false and no exception: if it ends without an
exception, `set` says whether some level signalled success. -/
theorem setWalk_spec (str : String) (valueRef : Value) (ds : List JSClassDefinition) :
    ∀ (level : Nat) (s : SetState), s.running = true →
      (setWalk str valueRef ds level s).exception = none →
      ((setWalk str valueRef ds level s).set = true ↔
        ∃ d ∈ ds, levelSets str valueRef d) := by
  induction ds with
  | nil =>
    intro level s hs _
    have h0 := (set_running_iff s).1 hs
    simp [setWalk, h0.2]
  | cons d ds ih =>
    intro level s hs
    have hw : setWalk str valueRef (d :: ds) level s =
        setWalk str valueRef ds (level + 1) (setLevel str valueRef level d s) := by
      simp [setWalk, hs]
    rw [hw]
    cases hr : (setLevel str valueRef level d s).running with
    | false =>
      rw [setWalk_stopped _ _ _ _ _ hr]
      intro hx
      have h1 := setLevel_spec str valueRef level d s hs hx
      rcases (set_not_running_iff _).1 hr with h2 | h2
      · exact absurd hx h2
      · simp [h2, h1.1 h2]
    | true =>
      have h2 := (set_running_iff _).1 hr
      have h1 := setLevel_spec str valueRef level d s hs h2.1
      have h3 : ¬ levelSets str valueRef d := by
        intro h
        have := h1.2 h
        rw [h2.2] at this
        exact absurd this (by simp)
      intro hx
      have := ih (level + 1) _ hr hx
      simpa [h3] using this

/-- Setters that signal no exception leave the static loop without one. -/
theorem setStaticValues_no_exception (str : String) (valueRef : Value) (level : Nat)
    (es : List JSStaticValue)
    (h : ∀ e ∈ es, e.name = str →
      ∀ setter, e.setProperty = some setter → (setter str valueRef).exception = none) :
    ∀ (i : Nat) (s : SetState), s.exception = none →
      (setStaticValues str valueRef level es i s).exception = none := by
  induction es with
  | nil =>
    intro i s hs
    exact hs
  | cons e es ih =>
    intro i s hs
    have ih2 := ih (fun e2 h2 => h e2 (by simp [h2]))
    cases hr : s.running with
    | false =>
      rw [setStaticValues_stopped _ _ _ _ _ _ hr]
      exact hs
    | true =>
      by_cases hn : e.name = str
      · cases hg : e.setProperty with
        | none =>
          rw [setStaticValues_skip _ _ _ _ _ _ _ (Or.inr hg)]
          exact ih2 _ _ hs
        | some setter =>
          rw [setStaticValues_hit _ _ _ _ _ _ _ setter hr hn hg]
          exact ih2 _ _ (h e (by simp) hn setter hg)
      · rw [setStaticValues_skip _ _ _ _ _ _ _ (Or.inl hn)]
        exact ih2 _ _ hs

theorem setHooks_no_exception (str : String) (valueRef : Value) (level : Nat)
    (d : JSClassDefinition) (s : SetState)
    (h : ∀ setter, d.setProperty = some setter → (setter str valueRef).exception = none)
    (hs : s.exception = none) :
    (setHooks str valueRef level d s).exception = none := by
  cases hh : d.hasProperty <;> cases hp : d.setProperty <;>
    simp [setHooks, hh, hp, hs, h]

theorem setLevel_no_exception (str : String) (valueRef : Value) (level : Nat)
    (d : JSClassDefinition) (s : SetState)
    (h1 : ∀ e ∈ d.staticValues, e.name = str →
      ∀ setter, e.setProperty = some setter → (setter str valueRef).exception = none)
    (h2 : ∀ setter, d.setProperty = some setter → (setter str valueRef).exception = none)
    (hs : s.exception = none) :
    (setLevel str valueRef level d s).exception = none := by
  have h3 := setStaticValues_no_exception str valueRef level d.staticValues h1 0 s hs
  unfold setLevel
  simp only
  split
  · exact setHooks_no_exception _ _ _ _ _ h2 h3
  · exact h3

/-- When no setter of the chain signals an exception the walk ends without one. -/
theorem setWalk_no_exception (str : String) (valueRef : Value)
    (ds : List JSClassDefinition) (h : noSetterThrows str valueRef ds) :
    ∀ (level : Nat) (s : SetState), s.exception = none →
      (setWalk str valueRef ds level s).exception = none := by
  induction ds with
  | nil =>
    intro level s hs
    exact hs
  | cons d ds ih =>
    intro level s hs
    cases hr : s.running with
    | false =>
      rw [setWalk_stopped _ _ _ _ _ hr]
      exact hs
    | true =>
      have hw : setWalk str valueRef (d :: ds) level s =
          setWalk str valueRef ds (level + 1) (setLevel str valueRef level d s) := by
        simp [setWalk, hr]
      rw [hw]
      have hd := h d (by simp)
      exact ih (fun d2 h2 => h d2 (by simp [h2])) _ _
        (setLevel_no_exception _ _ _ _ _ hd.1 hd.2 hs)

theorem setStaticValues_calls (str : String) (valueRef : Value) (level : Nat) (c : Call)
    (es : List JSStaticValue) :
    ∀ (i : Nat) (s : SetState), c ∈ (setStaticValues str valueRef level es i s).calls →
      c ∈ s.calls ∨ ∃ j, c = Call.staticSetProperty level j := by
  induction es with
  | nil =>
    intro i s h
    exact Or.inl h
  | cons e es ih =>
    intro i s h
    cases hs : s.running with
    | false =>
      rw [setStaticValues_stopped _ _ _ _ _ _ hs] at h
      exact Or.inl h
    | true =>
      by_cases hn : e.name = str
      · cases hg : e.setProperty with
        | none =>
          rw [setStaticValues_skip _ _ _ _ _ _ _ (Or.inr hg)] at h
          exact ih _ _ h
        | some setter =>
          rw [setStaticValues_hit _ _ _ _ _ _ _ setter hs hn hg] at h
          rcases ih _ _ h with h1 | h1
          · simp only [List.mem_append, List.mem_singleton] at h1
            rcases h1 with h1 | h1
            · exact Or.inl h1
            · exact Or.inr ⟨i, h1⟩
          · exact Or.inr h1
      · rw [setStaticValues_skip _ _ _ _ _ _ _ (Or.inl hn)] at h
        exact ih _ _ h

theorem setHooks_calls (str : String) (valueRef : Value) (level : Nat)
    (d : JSClassDefinition) (s : SetState) (c : Call)
    (h : c ∈ (setHooks str valueRef level d s).calls) :
    c ∈ s.calls ∨ c = Call.hasProperty level ∨ c = Call.setProperty level := by
  cases hh : d.hasProperty <;> cases hp : d.setProperty <;>
    simp [setHooks, hh, hp] at h <;> tauto

/-- Where the callbacks of one level of the setter walk come from: a static setter, or
a hook of a level none of whose same-named table setters returned true. -/
theorem setLevel_calls (str : String) (valueRef : Value) (level : Nat)
    (d : JSClassDefinition) (s : SetState) (c : Call) (hs : s.running = true)
    (h : c ∈ (setLevel str valueRef level d s).calls) :
    c ∈ s.calls ∨ (∃ j, c = Call.staticSetProperty level j) ∨
      ((c = Call.hasProperty level ∨ c = Call.setProperty level) ∧
        ¬ tableSets str valueRef d) := by
  unfold setLevel at h
  simp only at h
  cases hr : (setStaticValues str valueRef level d.staticValues 0 s).running with
  | false =>
    simp only [hr] at h
    rcases setStaticValues_calls _ _ _ _ _ _ _ h with h1 | h1
    · exact Or.inl h1
    · exact Or.inr (Or.inl h1)
  | true =>
    simp only [hr, if_true] at h
    have h2 := (set_running_iff _).1 hr
    have h1 := setStaticValues_spec str valueRef level d.staticValues 0 s hs h2.1
    have h3 : ¬ tableSets str valueRef d := by
      intro h
      have := h1.2 h
      rw [h2.2] at this
      exact absurd this (by simp)
    rcases setHooks_calls _ _ _ _ _ _ h with h4 | h4
    · rcases setStaticValues_calls _ _ _ _ _ _ _ h4 with h5 | h5
      · exact Or.inl h5
      · exact Or.inr (Or.inl h5)
    · exact Or.inr (Or.inr ⟨h4, h3⟩)

/-- Where the callbacks of the setter walk come from: a level all of whose
predecessors signalled no success; and a hook is only called at a level none of whose
same-named table setters returned true. -/
theorem setWalk_calls (str : String) (valueRef : Value) (c : Call)
    (ds : List JSClassDefinition) :
    ∀ (level : Nat) (s : SetState), c ∈ (setWalk str valueRef ds level s).calls →
      c ∈ s.calls ∨ ∃ k d, ds[k]? = some d ∧ c.level = level + k ∧
        (∀ j dj, j < k → ds[j]? = some dj → ¬ levelSets str valueRef dj) ∧
        ((c = Call.hasProperty (level + k) ∨ c = Call.setProperty (level + k)) →
          ¬ tableSets str valueRef d) := by
  induction ds with
  | nil =>
    intro level s h
    exact Or.inl h
  | cons d ds ih =>
    intro level s h
    cases hs : s.running with
    | false =>
      rw [setWalk_stopped _ _ _ _ _ hs] at h
      exact Or.inl h
    | true =>
      have hw : setWalk str valueRef (d :: ds) level s =
          setWalk str valueRef ds (level + 1) (setLevel str valueRef level d s) := by
        simp [setWalk, hs]
      rw [hw] at h
      cases hr : (setLevel str valueRef level d s).running with
      | false =>
        rw [setWalk_stopped _ _ _ _ _ hr] at h
        rcases setLevel_calls _ _ _ _ _ _ hs h with h1 | ⟨j, h1⟩ | ⟨h1, h2⟩
        · exact Or.inl h1
        · refine Or.inr ⟨0, d, by simp, by simp [h1, Call.level], ?_, ?_⟩
          · intro j dj hj
            omega
          · intro h3
            rcases h3 with h3 | h3 <;> simp [h1] at h3
        · refine Or.inr ⟨0, d, by simp, ?_, ?_, fun _ => h2⟩
          · rcases h1 with h1 | h1 <;> simp [h1, Call.level]
          · intro j dj hj
            omega
      | true =>
        have h2 := (set_running_iff _).1 hr
        have h1 := setLevel_spec str valueRef level d s hs h2.1
        have h3 : ¬ levelSets str valueRef d := by
          intro h
          have := h1.2 h
          rw [h2.2] at this
          exact absurd this (by simp)
        rcases ih _ _ h with h4 | ⟨k, d2, hk, hl, hq, ht⟩
        · rcases setLevel_calls _ _ _ _ _ _ hs h4 with h1 | ⟨j, h1⟩ | ⟨h1, h2⟩
          · exact Or.inl h1
          · refine Or.inr ⟨0, d, by simp, by simp [h1, Call.level], ?_, ?_⟩
            · intro j dj hj
              omega
            · intro h3
              rcases h3 with h3 | h3 <;> simp [h1] at h3
          · refine Or.inr ⟨0, d, by simp, ?_, ?_, fun _ => h2⟩
            · rcases h1 with h1 | h1 <;> simp [h1, Call.level]
            · intro j dj hj
              omega
        · have e1 : level + (k + 1) = level + 1 + k := by omega
          refine Or.inr ⟨k + 1, d2, by simpa using hk, by omega, ?_, ?_⟩
          · intro j dj hj hdj
            cases j with
            | zero =>
              simp only [List.getElem?_cons_zero, Option.some.injEq] at hdj
              rw [← hdj]
              exact h3
            | succ j =>
              simp only [List.getElem?_cons_succ] at hdj
              exact hq j dj (by omega) hdj
          · rw [e1]
            exact ht

theorem setStaticValues_order (str : String) (valueRef : Value) (level : Nat)
    (es : List JSStaticValue) :
    ∀ (i : Nat) (s : SetState), s.calls.Pairwise setterOrder → beforeHooks level s.calls →
      (setStaticValues str valueRef level es i s).calls.Pairwise setterOrder ∧
      beforeHooks level (setStaticValues str valueRef level es i s).calls := by
  induction es with
  | nil =>
    intro i s h1 h2
    exact ⟨h1, h2⟩
  | cons e es ih =>
    intro i s h1 h2
    cases hs : s.running with
    | false =>
      rw [setStaticValues_stopped _ _ _ _ _ _ hs]
      exact ⟨h1, h2⟩
    | true =>
      by_cases hn : e.name = str
      · cases hg : e.setProperty with
        | none =>
          rw [setStaticValues_skip _ _ _ _ _ _ _ (Or.inr hg)]
          exact ih _ _ h1 h2
        | some setter =>
          rw [setStaticValues_hit _ _ _ _ _ _ _ setter hs hn hg]
          apply ih
          · simp only [List.pairwise_append, List.pairwise_singleton, List.mem_singleton,
              true_and]
            refine ⟨h1, ?_⟩
            intro a ha b hb
            rw [hb]
            rcases h2 a ha with h3 | h3
            · exact Or.inl (by simpa [Call.level] using h3)
            · exact Or.inr ⟨by simpa [Call.level] using h3.1, by simp [h3.2]⟩
          · intro a ha
            simp only [List.mem_append, List.mem_singleton] at ha
            rcases ha with ha | ha
            · exact h2 a ha
            · rw [ha]
              exact Or.inr ⟨rfl, rfl⟩
      · rw [setStaticValues_skip _ _ _ _ _ _ _ (Or.inl hn)]
        exact ih _ _ h1 h2

theorem setHooks_order (str : String) (valueRef : Value) (level : Nat)
    (d : JSClassDefinition) (s : SetState) (h1 : s.calls.Pairwise setterOrder)
    (h2 : beforeHooks level s.calls) :
    (setHooks str valueRef level d s).calls.Pairwise setterOrder ∧
    ∀ a ∈ (setHooks str valueRef level d s).calls, a.level < level + 1 := by
  have hlt : ∀ a ∈ s.calls, a.level < level + 1 := by
    intro a ha
    rcases h2 a ha with h3 | h3 <;> omega
  have hhas : ∀ a ∈ s.calls, setterOrder a (Call.hasProperty level) := by
    intro a ha
    rcases h2 a ha with h3 | h3
    · exact Or.inl (by simpa [Call.level] using h3)
    · exact Or.inr ⟨by simpa [Call.level] using h3.1, by simp [h3.2]⟩
  have hset : ∀ a ∈ s.calls, setterOrder a (Call.setProperty level) := by
    intro a ha
    rcases h2 a ha with h3 | h3
    · exact Or.inl (by simpa [Call.level] using h3)
    · exact Or.inr ⟨by simpa [Call.level] using h3.1, by simp [h3.2]⟩
  have hhs : setterOrder (Call.hasProperty level) (Call.setProperty level) :=
    Or.inr ⟨rfl, by simp [Call.phase]⟩
  cases hh : d.hasProperty with
  | none =>
    cases hp : d.setProperty with
    | none =>
      simp only [setHooks, hh, hp]
      exact ⟨h1, hlt⟩
    | some setter =>
      simp only [setHooks, hh, hp, List.pairwise_append, List.pairwise_singleton,
        List.mem_singleton, true_and, List.mem_append]
      refine ⟨⟨h1, ?_⟩, ?_⟩
      · intro a ha b hb
        rw [hb]
        exact hset a ha
      · intro a ha
        rcases ha with ha | ha
        · exact hlt a ha
        · simp [ha, Call.level]
  | some has =>
    cases hp : d.setProperty with
    | none =>
      simp only [setHooks, hh, hp, List.pairwise_append, List.pairwise_singleton,
        List.mem_singleton, true_and, List.mem_append]
      refine ⟨⟨h1, ?_⟩, ?_⟩
      · intro a ha b hb
        rw [hb]
        exact hhas a ha
      · intro a ha
        rcases ha with ha | ha
        · exact hlt a ha
        · simp [ha, Call.level]
    | some setter =>
      simp only [setHooks, hh, hp, List.pairwise_append, List.pairwise_singleton,
        List.mem_singleton, true_and, List.mem_append]
      refine ⟨⟨⟨h1, ?_⟩, ?_⟩, ?_⟩
      · intro a ha b hb
        rw [hb]
        exact hhas a ha
      · intro a ha b hb
        rw [hb]
        rcases ha with ha | ha
        · exact hset a ha
        · rw [ha]
          exact hhs
      · intro a ha
        rcases ha with (ha | ha) | ha
        · exact hlt a ha
        · simp [ha, Call.level]
        · simp [ha, Call.level]

theorem setLevel_order (str : String) (valueRef : Value) (level : Nat)
    (d : JSClassDefinition) (s : SetState) (h1 : s.calls.Pairwise setterOrder)
    (h2 : ∀ a ∈ s.calls, a.level < level) :
    (setLevel str valueRef level d s).calls.Pairwise setterOrder ∧
    ∀ a ∈ (setLevel str valueRef level d s).calls, a.level < level + 1 := by
  have h3 := setStaticValues_order str valueRef level d.staticValues 0 s h1
    (fun a ha => Or.inl (h2 a ha))
  unfold setLevel
  simp only
  split
  · exact setHooks_order _ _ _ _ _ h3.1 h3.2
  · refine ⟨h3.1, ?_⟩
    intro a ha
    rcases h3.2 a ha with h4 | h4 <;> omega

/-- The callbacks of the setter walk are invoked level by level from the instance's
own definition toward the root, and within a level in the order static setters,
has-property, set-property. -/
theorem setWalk_order (str : String) (valueRef : Value) (ds : List JSClassDefinition) :
    ∀ (level : Nat) (s : SetState), s.calls.Pairwise setterOrder →
      (∀ a ∈ s.calls, a.level < level) →
      (setWalk str valueRef ds level s).calls.Pairwise setterOrder := by
  induction ds with
  | nil =>
    intro level s h1 _
    exact h1
  | cons d ds ih =>
    intro level s h1 h2
    cases hs : s.running with
    | false =>
      rw [setWalk_stopped _ _ _ _ _ hs]
      exact h1
    | true =>
      have hw : setWalk str valueRef (d :: ds) level s =
          setWalk str valueRef ds (level + 1) (setLevel str valueRef level d s) := by
        simp [setWalk, hs]
      rw [hw]
      have h3 := setLevel_order str valueRef level d s h1 h2
      exact ih _ _ h3.1 h3.2

theorem NamedPropertySetter_calls (definition : List JSClassDefinition)
    (property : String) (value : Value) :
    (NamedPropertySetter definition property value).calls =
      (setWalk property value definition 0 {}).calls := by
  unfold NamedPropertySetter
  simp only
  split <;> rfl

theorem NamedPropertySetter_intercepted (definition : List JSClassDefinition)
    (property : String) (value : Value) :
    (NamedPropertySetter definition property value).intercepted =
      ((setWalk property value definition 0 {}).exception.isSome ||
        (setWalk property value definition 0 {}).set) := by
  unfold NamedPropertySetter
  simp only
  split
  · rename_i e he
    simp [Outcome.intercepted, he]
  · rename_i he
    cases hb : (setWalk property value definition 0 {}).set <;>
      simp [Outcome.intercepted, he, hb]

/-- C4 (set-property resolution): when no same-named table setter and no set-property
hook of the chain signals an exception, `NamedPropertySetter` reports the set as
intercepted if and only if some level has a same-named static-table setter that
returns true, a has-property hook that returns true, or a set-property hook that
returns true; no callback of a level beyond the first such level is invoked; the
callbacks are invoked level by level and, within a level, static-table setters before
has-property before set-property; and has-property and set-property are invoked only
at a level none of whose same-named table setters returned true. -/
theorem NamedPropertySetter_first_success (definition : List JSClassDefinition)
    (property : String) (value : Value)
    (h : noSetterThrows property value definition) :
    ((NamedPropertySetter definition property value).intercepted = true ↔
      ∃ d ∈ definition, levelSets property value d) ∧
    (∀ k d, definition[k]? = some d → levelSets property value d →
      ∀ c ∈ (NamedPropertySetter definition property value).calls, c.level ≤ k) ∧
    (NamedPropertySetter definition property value).calls.Pairwise setterOrder ∧
    (∀ level,
      (Call.hasProperty level ∈ (NamedPropertySetter definition property value).calls ∨
        Call.setProperty level ∈ (NamedPropertySetter definition property value).calls) →
      ∃ d, definition[level]? = some d ∧ ¬ tableSets property value d) := by
  have hx := setWalk_no_exception property value definition h 0 {} rfl
  have hspec := setWalk_spec property value definition 0 {} rfl hx
  rw [NamedPropertySetter_calls, NamedPropertySetter_intercepted]
  refine ⟨?_, ?_, ?_, ?_⟩
  · rw [← hspec]
    simp [hx]
  · intro k d hk hd c hc
    rcases setWalk_calls _ _ _ _ _ _ hc with h1 | ⟨k2, d2, _, hl, hq, _⟩
    · simp at h1
    · by_contra hlt
      exact hq k d (by omega) hk hd
  · exact setWalk_order property value definition 0 {} (by simp) (by simp)
  · intro level hc
    have key : ∀ c, (c = Call.hasProperty level ∨ c = Call.setProperty level) →
        c ∈ (setWalk property value definition 0 {}).calls →
        ∃ d, definition[level]? = some d ∧ ¬ tableSets property value d := by
      intro c hc1 hc2
      rcases setWalk_calls _ _ _ _ _ _ hc2 with h1 | ⟨k2, d2, hk2, hl, _, ht⟩
      · simp at h1
      · have e1 : level = k2 := by
          rcases hc1 with hc1 | hc1 <;> simpa [hc1, Call.level] using hl
        refine ⟨d2, by rw [e1]; exact hk2, ht ?_⟩
        rw [← e1, Nat.zero_add]
        exact hc1
    rcases hc with hc | hc
    · exact key _ (Or.inl rfl) hc
    · exact key _ (Or.inr rfl) hc

/-- Witness of C4 on the chain `exSetting → exClaiming`: the set-property hook of the
first level accepts, so the set is intercepted. -/
theorem NamedPropertySetter_first_success_witness :
    noSetterThrows "x" (Value.number 3) [exSetting, exClaiming] ∧
    (NamedPropertySetter [exSetting, exClaiming] "x" (Value.number 3)).intercepted = true ∧
    (NamedPropertySetter [exSetting, exClaiming] "x" (Value.number 3)).calls =
      [Call.staticSetProperty 0 0, Call.setProperty 0] := by
  have hno : noSetterThrows "x" (Value.number 3) [exSetting, exClaiming] := by
    intro d hd
    simp only [List.mem_cons, List.mem_singleton, List.not_mem_nil, or_false] at hd
    rcases hd with hd | hd
    · subst hd
      refine ⟨?_, ?_⟩
      · intro e he _ setter hs
        simp only [exSetting, List.mem_singleton] at he
        subst he
        simp only [Option.some.injEq] at hs
        rw [← hs]
      · intro setter hs
        simp only [exSetting, Option.some.injEq] at hs
        rw [← hs]
    · subst hd
      refine ⟨?_, ?_⟩
      · intro e he
        simp [exClaiming] at he
      · intro setter hs
        simp [exClaiming] at hs
  exact ⟨hno,
    ((NamedPropertySetter_first_success [exSetting, exClaiming] "x" (Value.number 3) hno).1).2
      ⟨exSetting, by simp, Or.inr (Or.inr ⟨fun _ _ => { result := true }, rfl, rfl⟩)⟩,
    by decide⟩

theorem setStaticValues_traced (definition : List JSClassDefinition) (str : String)
    (valueRef : Value) (level : Nat) (d : JSClassDefinition)
    (hd : definition[level]? = some d) (es : List JSStaticValue) :
    ∀ (i : Nat) (s : SetState), (∀ j, es[j]? = d.staticValues[i + j]?) →
      exceptionTraced definition str valueRef s →
      exceptionTraced definition str valueRef
        (setStaticValues str valueRef level es i s) := by
  induction es with
  | nil =>
    intro i s _ h
    exact h
  | cons e es ih =>
    intro i s hes h
    have htail : ∀ j, es[j]? = d.staticValues[i + 1 + j]? := by
      intro j
      have := hes (j + 1)
      simp only [List.getElem?_cons_succ] at this
      rw [this]
      congr 1
      omega
    cases hs : s.running with
    | false =>
      rw [setStaticValues_stopped _ _ _ _ _ _ hs]
      exact h
    | true =>
      have h0 := (set_running_iff s).1 hs
      by_cases hn : e.name = str
      · cases hg : e.setProperty with
        | none =>
          rw [setStaticValues_skip _ _ _ _ _ _ _ (Or.inr hg)]
          exact ih _ _ htail h
        | some setter =>
          rw [setStaticValues_hit _ _ _ _ _ _ _ setter hs hn hg]
          apply ih _ _ htail
          intro c hc x hx
          simp only [List.mem_append, List.mem_singleton] at hc
          rcases hc with hc | hc
          · have := h c hc x hx
            rw [h0.1] at this
            exact absurd this (by simp)
          · have he : d.staticValues[i]? = some e := by
              have := hes 0
              simpa using this.symm
            rw [hc] at hx
            simp only [setterException, hd, he, hg] at hx
            exact hx
      · rw [setStaticValues_skip _ _ _ _ _ _ _ (Or.inl hn)]
        exact ih _ _ htail h

theorem setHooks_traced (definition : List JSClassDefinition) (str : String)
    (valueRef : Value) (level : Nat) (d : JSClassDefinition)
    (hd : definition[level]? = some d) (s : SetState) (hs : s.running = true)
    (h : exceptionTraced definition str valueRef s) :
    exceptionTraced definition str valueRef (setHooks str valueRef level d s) := by
  have h0 := (set_running_iff s).1 hs
  have hold : ∀ c ∈ s.calls, ∀ x, setterException definition str valueRef c ≠ some x := by
    intro c hc x hx
    have := h c hc x hx
    rw [h0.1] at this
    exact absurd this (by simp)
  cases hh : d.hasProperty with
  | none =>
    cases hp : d.setProperty with
    | none =>
      simp only [setHooks, hh, hp]
      exact h
    | some setter =>
      intro c hc x hx
      simp only [setHooks, hh, hp, List.mem_append, List.mem_singleton] at hc ⊢
      rcases hc with hc | hc
      · exact absurd hx (hold c hc x)
      · rw [hc] at hx
        simp only [setterException, hd, hp] at hx
        exact hx
  | some has =>
    cases hp : d.setProperty with
    | none =>
      intro c hc x hx
      simp only [setHooks, hh, hp, List.mem_append, List.mem_singleton] at hc ⊢
      rcases hc with hc | hc
      · exact absurd hx (hold c hc x)
      · rw [hc] at hx
        simp [setterException] at hx
    | some setter =>
      intro c hc x hx
      simp only [setHooks, hh, hp, List.mem_append, List.mem_singleton] at hc ⊢
      rcases hc with (hc | hc) | hc
      · exact absurd hx (hold c hc x)
      · rw [hc] at hx
        simp [setterException] at hx
      · rw [hc] at hx
        simp only [setterException, hd, hp] at hx
        exact hx

theorem setLevel_traced (definition : List JSClassDefinition) (str : String)
    (valueRef : Value) (level : Nat) (d : JSClassDefinition)
    (hd : definition[level]? = some d) (s : SetState)
    (h : exceptionTraced definition str valueRef s) :
    exceptionTraced definition str valueRef (setLevel str valueRef level d s) := by
  have h1 := setStaticValues_traced definition str valueRef level d hd d.staticValues 0 s
    (by intro j; rw [Nat.zero_add]) h
  unfold setLevel
  simp only
  cases hr : (setStaticValues str valueRef level d.staticValues 0 s).running with
  | false =>
    simp only [Bool.false_eq_true, if_false]
    exact h1
  | true =>
    simp only [if_true]
    exact setHooks_traced definition str valueRef level d hd _ hr h1

/-- Throughout the setter walk, a callback of the trace that signalled an exception is
the reason for the exception held. -/
theorem setWalk_traced (definition : List JSClassDefinition) (str : String)
    (valueRef : Value) (ds : List JSClassDefinition) :
    ∀ (level : Nat) (s : SetState), (∀ k, ds[k]? = definition[level + k]?) →
      exceptionTraced definition str valueRef s →
      exceptionTraced definition str valueRef (setWalk str valueRef ds level s) := by
  induction ds with
  | nil =>
    intro level s _ h
    exact h
  | cons d ds ih =>
    intro level s hds h
    cases hs : s.running with
    | false =>
      rw [setWalk_stopped _ _ _ _ _ hs]
      exact h
    | true =>
      have hw : setWalk str valueRef (d :: ds) level s =
          setWalk str valueRef ds (level + 1) (setLevel str valueRef level d s) := by
        simp [setWalk, hs]
      rw [hw]
      have hd : definition[level]? = some d := by
        have := hds 0
        simpa using this.symm
      have htail : ∀ k, ds[k]? = definition[level + 1 + k]? := by
        intro k
        have := hds (k + 1)
        simp only [List.getElem?_cons_succ] at this
        rw [this]
        congr 1
        omega
      exact ih _ _ htail (setLevel_traced definition str valueRef level d hd s h)

/-- C5 (a throwing set): whenever a static-table setter or the set-property hook that
`NamedPropertySetter` invokes signals an exception, the handler throws that exception,
reports the set as intercepted, and the return value it sets is the thrown exception
instead of the assigned value. -/
theorem NamedPropertySetter_exception (definition : List JSClassDefinition)
    (property : String) (value : Value) (c : Call) (x : Value)
    (hc : c ∈ (NamedPropertySetter definition property value).calls)
    (hx : setterException definition property value c = some x) :
    (NamedPropertySetter definition property value).thrown = some x ∧
    (NamedPropertySetter definition property value).intercepted = true ∧
    (NamedPropertySetter definition property value).returnValue = some x := by
  rw [NamedPropertySetter_calls] at hc
  have ht := setWalk_traced definition property value definition 0 {}
    (by intro k; rw [Nat.zero_add]) (by intro c hc; simp at hc)
  have he := ht c hc x hx
  simp [NamedPropertySetter, he, Outcome.intercepted]

/-- Witness of C5 on `exThrowing`, whose static setter for "x" signals "boom". -/
theorem NamedPropertySetter_exception_witness :
    NamedPropertySetter [exThrowing] "x" (Value.number 3) =
      { returnValue := some (Value.string "boom"), thrown := some (Value.string "boom"),
        calls := [Call.staticSetProperty 0 0] } ∧
    (NamedPropertySetter [exThrowing] "x" (Value.number 3)).intercepted = true :=
  ⟨by decide,
    (NamedPropertySetter_exception [exThrowing] "x" (Value.number 3)
      (Call.staticSetProperty 0 0) (Value.string "boom") (by decide) (by decide)).2.1⟩

/-! ### NamedPropertyQuerier -/

theorem queryStaticValues_true (str : String) (es : List JSStaticValue) :
    queryStaticValues str es true = true := by
  cases es <;> simp [queryStaticValues]

/-- The scan of a table started with `has` false finds exactly the enumerable entries
of the name. -/
theorem queryStaticValues_spec (str : String) (es : List JSStaticValue) :
    queryStaticValues str es false = true ↔ entriesHave str es := by
  induction es with
  | nil => simp [queryStaticValues, entriesHave]
  | cons e es ih =>
    by_cases h : e.name = str ∧ e.attributes &&& kJSPropertyAttributeDontEnum = 0
    · have : entriesHave str (e :: es) := ⟨e, by simp, h⟩
      simp [queryStaticValues, h, queryStaticValues_true, this]
    · have h2 : entriesHave str (e :: es) ↔ entriesHave str es := by
        constructor
        · rintro ⟨e2, he2, hp⟩
          simp only [List.mem_cons] at he2
          rcases he2 with he2 | he2
          · rw [he2] at hp
            exact absurd hp h
          · exact ⟨e2, he2, hp⟩
        · rintro ⟨e2, he2, hp⟩
          exact ⟨e2, by simp [he2], hp⟩
      rw [h2, ← ih]
      simp only [queryStaticValues, Bool.not_false, if_true]
      rw [if_neg h]

theorem queryWalk_stopped (str : String) (ds : List JSClassDefinition) (level : Nat)
    (s : QueryState) (h : s.has = true) : queryWalk str ds level s = s := by
  cases ds with
  | nil => rfl
  | cons d ds => simp [queryWalk, h]

/-- One level of the querier, entered with `has` false. -/
theorem queryLevel_spec (str : String) (level : Nat) (d : JSClassDefinition)
    (s : QueryState) (hs : s.has = false) :
    (queryLevel str level d s).has = true ↔ levelHas str d := by
  cases hh : d.hasProperty with
  | none =>
    simp [queryLevel, hh, hs, levelHas, claimsProperty, queryStaticValues_spec]
  | some has =>
    cases hb : has str with
    | true => simp [queryLevel, hh, hb, levelHas, claimsProperty]
    | false =>
      simp [queryLevel, hh, hb, levelHas, claimsProperty, queryStaticValues_spec]

/-- Where the consultations of one level come from; the table is scanned only when
the has-property hook is absent or returned false. -/
theorem queryLevel_calls (str : String) (level : Nat) (d : JSClassDefinition)
    (s : QueryState) (c : Call) (h : c ∈ (queryLevel str level d s).calls) :
    c ∈ s.calls ∨ c = Call.hasProperty level ∨
      (c = Call.staticValues level ∧ ¬ claimsProperty str d) := by
  cases hh : d.hasProperty with
  | none =>
    cases hs : s.has <;> simp [queryLevel, hh, hs] at h <;>
      simp [claimsProperty, hh] <;> tauto
  | some has =>
    cases hb : has str <;> simp [queryLevel, hh, hb] at h <;>
      simp [claimsProperty, hh, hb] <;> tauto

theorem queryLevel_order (str : String) (level : Nat) (d : JSClassDefinition)
    (s : QueryState) (h1 : s.calls.Pairwise queryOrder)
    (h2 : ∀ a ∈ s.calls, a.level < level) :
    (queryLevel str level d s).calls.Pairwise queryOrder ∧
    ∀ a ∈ (queryLevel str level d s).calls, a.level < level + 1 := by
  have hlt : ∀ a ∈ s.calls, a.level < level + 1 := fun a ha => by
    have := h2 a ha
    omega
  have hA : ∀ (c : Call), c.level = level → ∀ a ∈ s.calls, queryOrder a c :=
    fun c hc a ha => Or.inl (by rw [hc]; exact h2 a ha)
  have hhs : queryOrder (Call.hasProperty level) (Call.staticValues level) :=
    Or.inr ⟨rfl, rfl, rfl⟩
  cases hh : d.hasProperty with
  | none =>
    cases hs : s.has with
    | true =>
      simp only [queryLevel, hh, hs]
      exact ⟨h1, hlt⟩
    | false =>
      simp only [queryLevel, hh, hs, Bool.not_false, if_true, List.pairwise_append,
        List.pairwise_singleton, List.mem_singleton, true_and, List.mem_append]
      refine ⟨⟨h1, ?_⟩, ?_⟩
      · intro a ha b hb
        rw [hb]
        exact hA (Call.staticValues level) rfl a ha
      · intro a ha
        rcases ha with ha | ha
        · exact hlt a ha
        · simp [ha, Call.level]
  | some has =>
    cases hb : has str with
    | true =>
      simp only [queryLevel, hh, hb, Bool.not_true, Bool.false_eq_true, if_false,
        List.pairwise_append, List.pairwise_singleton, List.mem_singleton, true_and,
        List.mem_append]
      refine ⟨⟨h1, ?_⟩, ?_⟩
      · intro a ha b hb
        rw [hb]
        exact hA (Call.hasProperty level) rfl a ha
      · intro a ha
        rcases ha with ha | ha
        · exact hlt a ha
        · simp [ha, Call.level]
    | false =>
      simp only [queryLevel, hh, hb, Bool.not_false, if_true, List.pairwise_append,
        List.pairwise_singleton, List.mem_singleton, true_and, List.mem_append]
      refine ⟨⟨⟨h1, ?_⟩, ?_⟩, ?_⟩
      · intro a ha b hb
        rw [hb]
        exact hA (Call.hasProperty level) rfl a ha
      · intro a ha b hb
        rw [hb]
        rcases ha with ha | ha
        · exact hA (Call.staticValues level) rfl a ha
        · rw [ha]
          exact hhs
      · intro a ha
        rcases ha with (ha | ha) | ha
        · exact hlt a ha
        · simp [ha, Call.level]
        · simp [ha, Call.level]

/-- The walk of the querier, entered with `has` false, ends with `has` true exactly
when some level answers true. -/
theorem queryWalk_spec (str : String) (ds : List JSClassDefinition) :
    ∀ (level : Nat) (s : QueryState), s.has = false →
      ((queryWalk str ds level s).has = true ↔ ∃ d ∈ ds, levelHas str d) := by
  induction ds with
  | nil =>
    intro level s hs
    simp [queryWalk, hs]
  | cons d ds ih =>
    intro level s hs
    have hw : queryWalk str (d :: ds) level s =
        queryWalk str ds (level + 1) (queryLevel str level d s) := by
      simp [queryWalk, hs]
    rw [hw]
    have hl := queryLevel_spec str level d s hs
    cases hr : (queryLevel str level d s).has with
    | true =>
      rw [queryWalk_stopped _ _ _ _ hr]
      simp [hr, hl.1 hr]
    | false =>
      have h3 : ¬ levelHas str d := by
        intro h
        have := hl.2 h
        rw [hr] at this
        exact absurd this (by simp)
      rw [ih _ _ hr]
      simp [h3]

/-- Where the consultations of the querier come from: a level all of whose
predecessors answered false. -/
theorem queryWalk_calls (str : String) (c : Call) (ds : List JSClassDefinition) :
    ∀ (level : Nat) (s : QueryState), c ∈ (queryWalk str ds level s).calls →
      c ∈ s.calls ∨ ∃ k d, ds[k]? = some d ∧ c.level = level + k ∧
        (∀ j dj, j < k → ds[j]? = some dj → ¬ levelHas str dj) ∧
        (c = Call.staticValues (level + k) → ¬ claimsProperty str d) := by
  induction ds with
  | nil =>
    intro level s h
    exact Or.inl h
  | cons d ds ih =>
    intro level s h
    cases hs : s.has with
    | true =>
      rw [queryWalk_stopped _ _ _ _ hs] at h
      exact Or.inl h
    | false =>
      have hw : queryWalk str (d :: ds) level s =
          queryWalk str ds (level + 1) (queryLevel str level d s) := by
        simp [queryWalk, hs]
      rw [hw] at h
      have here : ∀ c, c ∈ (queryLevel str level d s).calls →
          c ∈ s.calls ∨ ∃ k d2, (d :: ds)[k]? = some d2 ∧ c.level = level + k ∧
            (∀ j dj, j < k → (d :: ds)[j]? = some dj → ¬ levelHas str dj) ∧
            (c = Call.staticValues (level + k) → ¬ claimsProperty str d2) := by
        intro c hc
        rcases queryLevel_calls _ _ _ _ _ hc with h1 | h1 | ⟨h1, h2⟩
        · exact Or.inl h1
        · refine Or.inr ⟨0, d, by simp, by simp [h1, Call.level], ?_, ?_⟩
          · intro j dj hj
            omega
          · intro h3
            simp [h1] at h3
        · refine Or.inr ⟨0, d, by simp, by simp [h1, Call.level], ?_, fun _ => h2⟩
          intro j dj hj
          omega
      cases hr : (queryLevel str level d s).has with
      | true =>
        rw [queryWalk_stopped _ _ _ _ hr] at h
        exact here c h
      | false =>
        have h3 : ¬ levelHas str d := by
          intro h
          have := (queryLevel_spec str level d s hs).2 h
          rw [hr] at this
          exact absurd this (by simp)
        rcases ih _ _ h with h4 | ⟨k, d2, hk, hl, hq, ht⟩
        · exact here c h4
        · have e1 : level + (k + 1) = level + 1 + k := by omega
          refine Or.inr ⟨k + 1, d2, by simpa using hk, by omega, ?_, ?_⟩
          · intro j dj hj hdj
            cases j with
            | zero =>
              simp only [List.getElem?_cons_zero, Option.some.injEq] at hdj
              rw [← hdj]
              exact h3
            | succ j =>
              simp only [List.getElem?_cons_succ] at hdj
              exact hq j dj (by omega) hdj
          · rw [e1]
            exact ht

theorem queryWalk_order (str : String) (ds : List JSClassDefinition) :
    ∀ (level : Nat) (s : QueryState), s.calls.Pairwise queryOrder →
      (∀ a ∈ s.calls, a.level < level) →
      (queryWalk str ds level s).calls.Pairwise queryOrder := by
  induction ds with
  | nil =>
    intro level s h1 _
    exact h1
  | cons d ds ih =>
    intro level s h1 h2
    cases hs : s.has with
    | true =>
      rw [queryWalk_stopped _ _ _ _ hs]
      exact h1
    | false =>
      have hw : queryWalk str (d :: ds) level s =
          queryWalk str ds (level + 1) (queryLevel str level d s) := by
        simp [queryWalk, hs]
      rw [hw]
      have h3 := queryLevel_order str level d s h1 h2
      exact ih _ _ h3.1 h3.2

/-- C6 (has-property resolution): `NamedPropertyQuerier` reports the property present if
and only if at some level the has-property hook returns true or the static property
table holds an entry of exactly that name not flagged don't-enumerate; nothing of a
level beyond the first one that answers true is consulted; the levels are consulted
from the instance's own definition toward the root and, at each level, the hook
before the table; and a table is scanned only when the level's hook is absent or
returned false. -/
theorem NamedPropertyQuerier_first_match (definition : List JSClassDefinition)
    (property : String) :
    ((NamedPropertyQuerier definition property).present = true ↔
      ∃ d ∈ definition, levelHas property d) ∧
    (∀ k d, definition[k]? = some d → levelHas property d →
      ∀ c ∈ (NamedPropertyQuerier definition property).calls, c.level ≤ k) ∧
    (NamedPropertyQuerier definition property).calls.Pairwise queryOrder ∧
    (∀ level, Call.staticValues level ∈ (NamedPropertyQuerier definition property).calls →
      ∃ d, definition[level]? = some d ∧ ¬ claimsProperty property d) := by
  have hspec := queryWalk_spec property definition 0 {} rfl
  refine ⟨?_, ?_, ?_, ?_⟩
  · rw [← hspec]
    cases hb : (queryWalk property definition 0 {}).has <;>
      simp [NamedPropertyQuerier, QueryOutcome.present, hb]
  · intro k d hk hd c hc
    rcases queryWalk_calls _ _ _ _ _ hc with h1 | ⟨k2, d2, _, hl, hq, _⟩
    · simp at h1
    · by_contra hlt
      exact hq k d (by omega) hk hd
  · exact queryWalk_order property definition 0 {} (by simp) (by simp)
  · intro level hc
    rcases queryWalk_calls _ _ _ _ _ hc with h1 | ⟨k2, d2, hk2, hl, _, ht⟩
    · simp at h1
    · have e1 : level = k2 := by simpa [Call.level] using hl
      refine ⟨d2, by rw [e1]; exact hk2, ht ?_⟩
      rw [← e1, Nat.zero_add]

/-- Witness of C6 on the chain `exHidden → exBase`: "x" is flagged don't-enumerate at
the first level and found in the table of the second. -/
theorem NamedPropertyQuerier_first_match_witness :
    NamedPropertyQuerier [exHidden, exBase] "x" =
      { returnValue := some PropertyAttribute.DontEnum,
        calls := [Call.hasProperty 0, Call.staticValues 0, Call.staticValues 1] } ∧
    (NamedPropertyQuerier [exHidden, exBase] "x").present = true :=
  ⟨by decide,
    ((NamedPropertyQuerier_first_match [exHidden, exBase] "x").1).2
      ⟨exBase, by simp, Or.inr ⟨_, List.mem_singleton.2 rfl, rfl, rfl⟩⟩⟩

/-! ### The enumerators -/

theorem foldl_addName (names : List (Option String)) :
    ∀ accumulator : OpaqueJSPropertyNameAccumulator,
      names.foldl JSPropertyNameAccumulatorAddName accumulator =
        (names.filterMap id).reverse ++ accumulator := by
  induction names with
  | nil =>
    intro accumulator
    rfl
  | cons n names ih =>
    intro accumulator
    cases n with
    | none => simpa [JSPropertyNameAccumulatorAddName] using ih accumulator
    | some name =>
      simp only [List.foldl_cons, JSPropertyNameAccumulatorAddName, ih]
      simp

theorem addStaticValues_eq (es : List JSStaticValue) :
    ∀ accumulator : OpaqueJSPropertyNameAccumulator,
      addStaticValues es accumulator =
        ((es.filter (fun e => e.attributes &&& kJSPropertyAttributeDontEnum = 0)).map
          (fun e => e.name)).reverse ++ accumulator := by
  induction es with
  | nil =>
    intro accumulator
    rfl
  | cons e es ih =>
    intro accumulator
    by_cases h : e.attributes &&& kJSPropertyAttributeDontEnum = 0
    · simp [addStaticValues, h, ih, JSPropertyNameAccumulatorAddName]
    · simp [addStaticValues, h, ih]

/-- Pushing to the front leaves the accumulator holding the added names in reverse
order of addition. -/
theorem collectNames_eq (ds : List JSClassDefinition) :
    ∀ accumulator : OpaqueJSPropertyNameAccumulator,
      collectNames ds accumulator = (addedNames ds).reverse ++ accumulator := by
  induction ds with
  | nil =>
    intro accumulator
    rfl
  | cons d ds ih =>
    intro accumulator
    cases hg : d.getPropertyNames with
    | none =>
      simp [collectNames, hg, ih, addStaticValues_eq, addedNames, levelNames]
    | some names =>
      simp [collectNames, hg, ih, addStaticValues_eq, foldl_addName, addedNames,
        levelNames]

theorem indexOf_neg_iff {α : Type} [DecidableEq α] (array : List α) (x : α) :
    indexOf array x < 0 ↔ x ∉ array := by
  induction array with
  | nil => simp [indexOf]
  | cons y ys ih =>
    by_cases h : y = x
    · simp [indexOf, h]
    · have hx : ¬ x = y := fun e => h e.symm
      by_cases h2 : indexOf ys x < 0
      · simp only [indexOf, h, h2, if_true, if_false, List.mem_cons, hx, false_or]
        simpa using ih.1 h2
      · have h3 : x ∈ ys := by
          by_contra hc
          exact h2 (ih.2 hc)
        simp only [indexOf, h, h2, if_false, List.mem_cons, hx, false_or, h3,
          not_true_eq_false, iff_false]
        omega

theorem mem_keepFirst (xs : List String) (x : String) : x ∈ keepFirst xs ↔ x ∈ xs := by
  induction xs with
  | nil => simp [keepFirst]
  | cons y ys ih =>
    by_cases h : x = y
    · simp [keepFirst, h]
    · simp [keepFirst, List.mem_filter, ih, h]

theorem nodup_keepFirst (xs : List String) : (keepFirst xs).Nodup := by
  induction xs with
  | nil => simp [keepFirst]
  | cons y ys ih =>
    simp only [keepFirst, List.nodup_cons]
    refine ⟨?_, ih.filter _⟩
    simp [List.mem_filter]

/-- The second loop appends to `array`, in first-seen order, the names not yet in
it. -/
theorem drainNames_eq (xs : List String) :
    ∀ array : List String,
      drainNames xs array = array ++ (keepFirst xs).filter (fun y => decide (y ∉ array)) := by
  induction xs with
  | nil =>
    intro array
    simp [drainNames, keepFirst]
  | cons x xs ih =>
    intro array
    by_cases h : indexOf array x < 0
    · have hx : x ∉ array := (indexOf_neg_iff array x).1 h
      simp only [drainNames, h, if_true, ih, keepFirst]
      rw [List.filter_cons_of_pos (by simpa using hx), List.filter_filter]
      simp only [List.append_assoc, List.singleton_append, List.mem_append,
        List.mem_singleton]
      congr 2
      apply List.filter_congr
      intro y _
      by_cases hy : y = x <;> simp [hy, hx]
    · have hx : x ∈ array := by
        by_contra hc
        exact h ((indexOf_neg_iff array x).2 hc)
      simp only [drainNames, h, if_false, ih, keepFirst]
      rw [List.filter_cons_of_neg (by simpa using hx), List.filter_filter]
      congr 1
      apply List.filter_congr
      intro y _
      by_cases hy : y = x
      · simp [hy, hx]
      · simp [hy]

/-- The array of `NamedPropertyEnumerator` is the sequence of added names with later
occurrences removed. -/
theorem NamedPropertyEnumerator_eq (definition : List JSClassDefinition) :
    NamedPropertyEnumerator definition = keepFirst (addedNames definition) := by
  simp [NamedPropertyEnumerator, collectNames_eq, drainNames_eq]

/-- C8 (enumeration without duplicates): for a class chain of any depth the array
returned by `NamedPropertyEnumerator` contains no name twice, and contains every name
added by any level's enumerate-properties hook and the name of every static property
entry of any level that is not flagged don't-enumerate. -/
theorem NamedPropertyEnumerator_nodup_complete (definition : List JSClassDefinition) :
    (NamedPropertyEnumerator definition).Nodup ∧
    ∀ d ∈ definition,
      (∀ names, d.getPropertyNames = some names →
        ∀ name, some name ∈ names → name ∈ NamedPropertyEnumerator definition) ∧
      (∀ e ∈ d.staticValues, e.attributes &&& kJSPropertyAttributeDontEnum = 0 →
        e.name ∈ NamedPropertyEnumerator definition) := by
  rw [NamedPropertyEnumerator_eq]
  refine ⟨nodup_keepFirst _, ?_⟩
  intro d hd
  refine ⟨?_, ?_⟩
  · intro names hn name hname
    rw [mem_keepFirst]
    simp only [addedNames, List.mem_flatMap]
    refine ⟨d, hd, ?_⟩
    simp only [levelNames, hn, List.mem_append, List.mem_filterMap, id]
    exact Or.inl ⟨some name, hname, rfl⟩
  · intro e he hattr
    rw [mem_keepFirst]
    simp only [addedNames, List.mem_flatMap]
    refine ⟨d, hd, ?_⟩
    simp only [levelNames, List.mem_append, List.mem_map, List.mem_filter]
    exact Or.inr ⟨e, ⟨he, by simpa using hattr⟩, rfl⟩

/-- Witness of C8 on the chain `exEnumDerived → exEnumBase`, where "a", "b" and "c" are
each declared more than once: "c" is there, once. -/
theorem NamedPropertyEnumerator_nodup_complete_witness :
    NamedPropertyEnumerator [exEnumDerived, exEnumBase] = ["b", "a", "c", "d"] ∧
    "c" ∈ NamedPropertyEnumerator [exEnumDerived, exEnumBase] :=
  ⟨by decide,
    ((NamedPropertyEnumerator_nodup_complete [exEnumDerived, exEnumBase]).2
      exEnumBase (by simp)).2 { name := "c" } (by simp [exEnumBase]) (by decide)⟩

/-- C9 (enumeration order): the array returned by `NamedPropertyEnumerator` is the
sequence of names in the order they were added to the accumulator (the instance's
own level first; within a level the names added by the hook, then the static property
names in table order; then the parent's), with every occurrence of a name after its
first removed: pushing to the front and consuming from the back keeps first-seen
order. -/
theorem NamedPropertyEnumerator_first_seen_order (definition : List JSClassDefinition) :
    NamedPropertyEnumerator definition = keepFirst (addedNames definition) ∧
    (collectNames definition []).reverse = addedNames definition := by
  refine ⟨NamedPropertyEnumerator_eq definition, ?_⟩
  simp [collectNames_eq]

/-- C10, evaluated at the failing input: for a class whose enumerable names are "9" and
"10", `IndexedPropertyEnumerator` returns the indices in the order 10, 9.  The two
names are collected as 9, 10; the final `sort` is called without a comparison
function and so orders the numbers by their strings, where "10" comes before "9". -/
theorem IndexedPropertyEnumerator_sorts_by_string :
    drainIndices decimalEngine (collectNames [exIndexed] []).reverse [] =
      [Number.integer 9, Number.integer 10] ∧
    IndexedPropertyEnumerator decimalEngine [exIndexed] =
      [Number.integer 10, Number.integer 9] := by
  decide

theorem mem_sortInsert (engine : Engine) (x y : Number) (array : List Number) :
    y ∈ sortInsert engine x array ↔ y = x ∨ y ∈ array := by
  induction array with
  | nil => simp [sortInsert]
  | cons z zs ih =>
    simp only [sortInsert]
    split
    · simp
    · simp only [List.mem_cons, ih]
      tauto

theorem mem_sort (engine : Engine) (y : Number) (array : List Number) :
    y ∈ sort engine array ↔ y ∈ array := by
  induction array with
  | nil => simp [sort]
  | cons z zs ih =>
    have : sort engine (z :: zs) = sortInsert engine z (sort engine zs) := rfl
    rw [this, mem_sortInsert, ih]
    simp

/-- The second loop of the index enumerator only ever pushes integral numbers. -/
theorem drainIndices_integers (engine : Engine) (names : List String) :
    ∀ array : List Number, (∀ x ∈ array, isInteger x = true) →
      ∀ x ∈ drainIndices engine names array, isInteger x = true := by
  induction names with
  | nil =>
    intro array h
    exact h
  | cons property rest ih =>
    intro array h
    simp only [drainIndices]
    split
    · rename_i hc
      split
      · apply ih
        intro x hx
        simp only [List.mem_append, List.mem_singleton] at hx
        rcases hx with hx | hx
        · exact h x hx
        · rw [hx]
          simp only [Bool.and_eq_true] at hc
          exact hc.2
      · exact ih array h
    · exact ih array h

/-- C11, evaluated at the failing input: for a class whose enumerable names are "-1",
"1.5", "abc" and "2", `IndexedPropertyEnumerator` returns the entries -1 and 2.  The
loop keeps a name when its number is not NaN and is an integer, and never looks at
its sign, so "-1" contributes the negative entry -1.  What the loop does ensure, on
every engine and chain, is that each entry is an integral number. -/
theorem IndexedPropertyEnumerator_keeps_negative :
    IndexedPropertyEnumerator decimalEngine [exNegativeIndex] =
      [Number.integer (-1), Number.integer 2] ∧
    ∀ (engine : Engine) (definition : List JSClassDefinition),
      ∀ x ∈ IndexedPropertyEnumerator engine definition, isInteger x = true := by
  refine ⟨by decide, ?_⟩
  intro engine definition x hx
  rw [IndexedPropertyEnumerator, mem_sort] at hx
  exact drainIndices_integers engine _ [] (by simp) x hx

/-! ### CallAsFunction -/

/-- C7, evaluated at the failing input: a construct call without target class on a
class whose call-as-constructor hook signals the exception "boom" and returns no
object.  No further callback is invoked, but the exception thrown to the engine is
the error "Bad constructor", not the one the hook signalled; the function path on
the same kind of hook throws the hook's exception. -/
theorem CallAsFunction_replaces_constructor_exception :
    (∃ construct, exThrowingConstructor.callAsConstructor = some construct ∧
      (construct []).exception = some (Value.string "boom")) ∧
    CallAsFunction [exThrowingConstructor, exThrowingFunction] true none
        Value.undefined [] =
      { returnValue := none, thrown := some (Exception.Error "Bad constructor"),
        calls := [Call.callAsConstructor 0] } ∧
    CallAsFunction [exThrowingFunction, exThrowingConstructor] false none
        Value.undefined [] =
      { returnValue := none, thrown := some (Value.string "boom"),
        calls := [Call.callAsFunction 0] } :=
  ⟨⟨_, rfl, rfl⟩, by decide, by decide⟩

theorem callWalk_stopped (IsConstructCall : Bool) (targetClass : Option Nat)
    (thisObject : Value) (arguments : List Value) (ds : List JSClassDefinition)
    (level : Nat) (s : WalkState) (h : (s.exception.isNone && s.value.isNone) = false) :
    callWalk IsConstructCall targetClass thisObject arguments ds level s = s := by
  cases ds with
  | nil => rfl
  | cons d ds => simp [callWalk, h]

/-- C14 (construction with a target class): a construct call through a data object
whose target class is not null returns the plain instance that `JSObjectMake` makes
of the target class, throws nothing and invokes no call-as-constructor and no
call-as-function hook of any level; in particular on every constructor made by
`JSObjectMakeConstructor` with a class. -/
theorem CallAsFunction_target_class (definition : List JSClassDefinition) (jsClass : Nat)
    (thisObject : Value) (arguments : List Value) (hne : definition ≠ []) :
    (CallAsFunction definition true (some jsClass) thisObject arguments).returnValue =
      some (JSObjectMake jsClass) ∧
    (CallAsFunction definition true (some jsClass) thisObject arguments).thrown = none ∧
    (∀ level,
      Call.callAsConstructor level ∉
        (CallAsFunction definition true (some jsClass) thisObject arguments).calls ∧
      Call.callAsFunction level ∉
        (CallAsFunction definition true (some jsClass) thisObject arguments).calls) ∧
    ∀ callAsConstructor : Option (List Value → HookResult),
      CallAsFunction (JSObjectMakeConstructor (some jsClass) callAsConstructor).definition
          true (JSObjectMakeConstructor (some jsClass) callAsConstructor).targetClass
          thisObject arguments =
        { returnValue := some (JSObjectMake jsClass), thrown := none, calls := [] } := by
  have key : ∀ (d : JSClassDefinition) (ds : List JSClassDefinition),
      CallAsFunction (d :: ds) true (some jsClass) thisObject arguments =
        { returnValue := some (JSObjectMake jsClass), thrown := none, calls := [] } := by
    intro d ds
    have h1 : callLevel true (some jsClass) thisObject arguments 0 d {} =
        { value := some (JSObjectMake jsClass) } := by
      simp [callLevel]
    simp only [CallAsFunction, callWalk, Option.isNone_none, Bool.and_self, if_true, h1]
    rw [callWalk_stopped _ _ _ _ _ _ _ (by simp)]
  cases definition with
  | nil => exact absurd rfl hne
  | cons d ds =>
    rw [key d ds]
    refine ⟨rfl, rfl, fun level => ⟨by simp, by simp⟩, ?_⟩
    intro callAsConstructor
    exact key _ _

/-- Witness of C14 on a constructor made with class 5 and a callback that would signal
an exception if it were invoked. -/
theorem CallAsFunction_target_class_witness :
    CallAsFunction (JSObjectMakeConstructor (some 5) (some exFailingCallback)).definition
        true (some 5) Value.undefined [] =
      { returnValue := some (Value.instance_ 5), thrown := none, calls := [] } ∧
    (CallAsFunction (JSObjectMakeConstructor (some 5) (some exFailingCallback)).definition
        true (some 5) Value.undefined []).returnValue = some (JSObjectMake 5) :=
  ⟨by decide,
    (CallAsFunction_target_class
      (JSObjectMakeConstructor (some 5) (some exFailingCallback)).definition 5
      Value.undefined [] (by simp [JSObjectMakeConstructor])).1⟩

/-- What `CallAsFunction` leaves after the call-as-constructor hook of a level
returned `r`: an object is kept together with the hook's exception; anything else is
replaced by the "Bad constructor" error. -/
theorem callLevel_construct (thisObject : Value) (arguments : List Value) (level : Nat)
    (d : JSClassDefinition) (construct : List Value → HookResult) (s : WalkState)
    (hd : d.callAsConstructor = some construct) :
    callLevel true none thisObject arguments level d s =
      (match (construct arguments).value with
        | some v =>
          if v.IsObject then
            { value := some v, exception := (construct arguments).exception,
              calls := s.calls ++ [Call.callAsConstructor level] }
          else
            { value := none, exception := some (Exception.Error "Bad constructor"),
              calls := s.calls ++ [Call.callAsConstructor level] }
        | none =>
          { value := none, exception := some (Exception.Error "Bad constructor"),
            calls := s.calls ++ [Call.callAsConstructor level] }) := by
  simp only [callLevel, hd]

/-- A construct call without target class walks to the first level that declares a
call-as-constructor hook and stops there. -/
theorem callWalk_construct (thisObject : Value) (arguments : List Value)
    (ds : List JSClassDefinition) :
    ∀ (level k : Nat) (construct : List Value → HookResult) (s : WalkState),
      s.exception = none → s.value = none →
      firstDeclared (fun d => d.callAsConstructor) ds level = some (k, construct) →
      callWalk true none thisObject arguments ds level s =
        (match (construct arguments).value with
          | some v =>
            if v.IsObject then
              { value := some v, exception := (construct arguments).exception,
                calls := s.calls ++ [Call.callAsConstructor k] }
            else
              { value := none, exception := some (Exception.Error "Bad constructor"),
                calls := s.calls ++ [Call.callAsConstructor k] }
          | none =>
            { value := none, exception := some (Exception.Error "Bad constructor"),
              calls := s.calls ++ [Call.callAsConstructor k] }) := by
  induction ds with
  | nil =>
    intro level k construct s _ _ h
    simp [firstDeclared] at h
  | cons d ds ih =>
    intro level k construct s he hv h
    cases hd : d.callAsConstructor with
    | none =>
      have hl : callLevel true none thisObject arguments level d s = s := by
        simp [callLevel, hd]
      simp only [firstDeclared, hd] at h
      simp only [callWalk, he, hv, Option.isNone_none, Bool.and_self, if_true, hl]
      exact ih _ _ _ _ he hv h
    | some c =>
      simp only [firstDeclared, hd, Option.some.injEq, Prod.mk.injEq] at h
      obtain ⟨rfl, rfl⟩ := h
      simp only [callWalk, he, hv, Option.isNone_none, Bool.and_self, if_true,
        callLevel_construct _ _ _ _ _ _ hd]
      cases hval : (c arguments).value with
      | none =>
        simp only
        rw [callWalk_stopped _ _ _ _ _ _ _ (by simp)]
      | some v =>
        by_cases hobj : v.IsObject = true
        · simp only [hobj, if_true]
          rw [callWalk_stopped _ _ _ _ _ _ _ (by simp)]
        · simp only [hobj, if_false]
          rw [callWalk_stopped _ _ _ _ _ _ _ (by simp)]

/-- C15 (bad constructor): in a construct call without target class, only the
call-as-constructor hook of the first level that declares one is invoked; if it
returns null or a value that is not an object, the handler returns no value and
throws the error "Bad constructor"; if it returns an object, that object is the
result. -/
theorem CallAsFunction_bad_constructor (definition : List JSClassDefinition)
    (thisObject : Value) (arguments : List Value) (k : Nat)
    (construct : List Value → HookResult)
    (h : firstDeclared (fun d => d.callAsConstructor) definition 0 = some (k, construct)) :
    (CallAsFunction definition true none thisObject arguments).calls =
      [Call.callAsConstructor k] ∧
    (((construct arguments).value = none ∨
        ∃ v, (construct arguments).value = some v ∧ v.IsObject = false) →
      (CallAsFunction definition true none thisObject arguments).returnValue = none ∧
      (CallAsFunction definition true none thisObject arguments).thrown =
        some (Exception.Error "Bad constructor")) ∧
    (∀ v, (construct arguments).value = some v → v.IsObject = true →
      (CallAsFunction definition true none thisObject arguments).returnValue = some v) := by
  have hw := callWalk_construct thisObject arguments definition 0 k construct {} rfl rfl h
  unfold CallAsFunction
  simp only [hw]
  cases hval : (construct arguments).value with
  | none => simp
  | some v => cases hobj : v.IsObject <;> simp [hobj]

/-- Witness of C15 on the chains `exBadConstructing`, whose constructor returns the
number 3, and `exConstructing`, whose constructor returns the object 42. -/
theorem CallAsFunction_bad_constructor_witness :
    CallAsFunction exBadConstructing true none Value.undefined [] =
      { returnValue := none, thrown := some (Exception.Error "Bad constructor"),
        calls := [Call.callAsConstructor 1] } ∧
    (CallAsFunction exConstructing true none Value.undefined []).returnValue =
      some (Value.object 42) :=
  ⟨by decide,
    (CallAsFunction_bad_constructor exConstructing Value.undefined [] 1
      (fun _ => { value := some (Value.object 42) }) rfl).2.2 (Value.object 42) rfl rfl⟩

/-- C16, evaluated at the failing input: a construct call on the constructor that
`JSObjectMakeConstructor` makes, without class, of a callback that signals the error
"out of range" and returns no object.  The exception thrown to the caller is the
error "Bad constructor", not the one the callback signalled; and so it is for every
chain whose first call-as-constructor hook returns no object, whatever it
signals. -/
theorem CallAsFunction_constructor_exception_lost :
    (exFailingCallback [Value.number 1]).exception = some (Value.error "out of range") ∧
    CallAsFunction (JSObjectMakeConstructor none (some exFailingCallback)).definition true
        (JSObjectMakeConstructor none (some exFailingCallback)).targetClass
        Value.undefined [Value.number 1] =
      { returnValue := none, thrown := some (Value.error "Bad constructor"),
        calls := [Call.callAsConstructor 0] } ∧
    ∀ (definition : List JSClassDefinition) (thisObject : Value) (arguments : List Value)
      (k : Nat) (construct : List Value → HookResult),
      firstDeclared (fun d => d.callAsConstructor) definition 0 = some (k, construct) →
      (construct arguments).value = none →
      (CallAsFunction definition true none thisObject arguments).thrown =
        some (Exception.Error "Bad constructor") := by
  refine ⟨rfl, by decide, ?_⟩
  intro definition thisObject arguments k construct h hval
  have hw := callWalk_construct thisObject arguments definition 0 k construct {} rfl rfl h
  unfold CallAsFunction
  simp only [hw, hval]

/-! ### HasInstanceFunctionCallHandler -/

theorem instanceWalk_true (ctor : Nat) (classes : List Nat) :
    instanceWalk ctor classes true = true := by
  cases classes <;> simp [instanceWalk]

/-- The identity loop answers true exactly when the candidate's class chain contains
the target class. -/
theorem instanceWalk_iff (ctor : Nat) (classes : List Nat) :
    instanceWalk ctor classes false = true ↔ ctor ∈ classes := by
  induction classes with
  | nil => simp [instanceWalk]
  | cons inst rest ih =>
    by_cases h : ctor = inst
    · simp [instanceWalk, h, instanceWalk_true]
    · simp [instanceWalk, h, ih]

theorem hasInstanceWalk_stopped (possibleInstance : Value) (ds : List JSClassDefinition)
    (level : Nat) (s : WalkState) (h : (s.exception.isNone && s.value.isNone) = false) :
    hasInstanceWalk possibleInstance ds level s = s := by
  cases ds with
  | nil => rfl
  | cons d ds => simp [hasInstanceWalk, h]

/-- The has-instance walk, entered without a value and without an exception, stops at
the first level that declares the hook, with that hook's boolean as the value. -/
theorem hasInstanceWalk_first (possibleInstance : Value) (ds : List JSClassDefinition) :
    ∀ (level : Nat) (s : WalkState), s.exception = none → s.value = none →
      hasInstanceWalk possibleInstance ds level s =
        (match firstDeclared (fun d => d.hasInstance) ds level with
          | some p =>
            { value := some (Value.boolean (p.2 possibleInstance).result),
              exception := (p.2 possibleInstance).exception,
              calls := s.calls ++ [Call.hasInstance p.1] }
          | none => s) := by
  induction ds with
  | nil =>
    intro level s _ _
    simp [hasInstanceWalk, firstDeclared]
  | cons d ds ih =>
    intro level s he hv
    cases hd : d.hasInstance with
    | none =>
      simp only [hasInstanceWalk, he, hv, hd, firstDeclared, Option.isNone_none,
        Bool.and_self, if_true]
      exact ih _ _ he hv
    | some hook =>
      simp only [hasInstanceWalk, he, hv, hd, firstDeclared, Option.isNone_none,
        Bool.and_self, if_true]
      rw [hasInstanceWalk_stopped _ _ _ _ (by simp)]

/-- C17 (has-instance short-circuit): when the data object holds a target class and the
candidate is an object with internal fields whose class chain (its own class, then
the parents) contains that class, `HasInstanceFunctionCallHandler` answers true,
throws nothing and invokes no has-instance hook of any level. -/
theorem HasInstanceFunctionCallHandler_identity (definition : List JSClassDefinition)
    (ctor : Nat) (possibleInstance : PossibleInstance)
    (hobj : possibleInstance.value.IsObject = true)
    (hfields : 0 < possibleInstance.InternalFieldCount)
    (hmem : ctor ∈ possibleInstance.classes) :
    HasInstanceFunctionCallHandler definition (some ctor) possibleInstance =
      { returnValue := some (Value.boolean true), thrown := none, calls := [] } := by
  have hw := (instanceWalk_iff ctor possibleInstance.classes).2 hmem
  have hc : instanceCheck (some ctor) possibleInstance = some (Value.boolean true) := by
    simp [instanceCheck, hobj, hfields, hw]
  unfold HasInstanceFunctionCallHandler
  simp only [hc]
  rw [hasInstanceWalk_stopped _ _ _ _ (by simp)]

/-- Witness of C17: the candidate of class 7 with parent 3 is an instance for the
target class 3, although the first has-instance hook of the chain would say true and
the second false. -/
theorem HasInstanceFunctionCallHandler_identity_witness :
    HasInstanceFunctionCallHandler exInstanceHooks (some 3) exCandidate =
      { returnValue := some (Value.boolean true), thrown := none, calls := [] } :=
  HasInstanceFunctionCallHandler_identity exInstanceHooks 3 exCandidate rfl
    (by decide) (by decide)

/-- C18, as the code has it: when the identity check is not made (no target class, or
a candidate that is not an object or has no internal fields) the chain is walked
from the leaf, the answer is the boolean returned by the has-instance hook of the
first level that declares one (no answer if none does), and that hook is the only
one invoked; when a target class is held and the candidate is an object with
internal fields whose class chain does not contain it, the answer is false and no
hook is invoked. -/
theorem HasInstanceFunctionCallHandler_fallback (definition : List JSClassDefinition)
    (targetClass : Option Nat) (possibleInstance : PossibleInstance) :
    ((targetClass = none ∨ possibleInstance.value.IsObject = false ∨
        possibleInstance.InternalFieldCount = 0) →
      (HasInstanceFunctionCallHandler definition targetClass possibleInstance).returnValue =
        hookAnswer possibleInstance.value definition ∧
      (HasInstanceFunctionCallHandler definition targetClass possibleInstance).calls =
        ((firstDeclared (fun d => d.hasInstance) definition 0).map
          (fun p => Call.hasInstance p.1)).toList) ∧
    (∀ ctor, targetClass = some ctor → possibleInstance.value.IsObject = true →
      0 < possibleInstance.InternalFieldCount → ctor ∉ possibleInstance.classes →
      HasInstanceFunctionCallHandler definition targetClass possibleInstance =
        { returnValue := some (Value.boolean false), thrown := none, calls := [] }) := by
  constructor
  · intro h
    have hc : instanceCheck targetClass possibleInstance = none := by
      rcases h with h | h | h
      · simp [instanceCheck, h]
      · cases targetClass <;> simp [instanceCheck, h]
      · cases targetClass <;> simp [instanceCheck, h]
    have hw := hasInstanceWalk_first possibleInstance.value definition 0
      { value := instanceCheck targetClass possibleInstance } rfl hc
    unfold HasInstanceFunctionCallHandler
    simp only [hw, hookAnswer]
    cases hf : firstDeclared (fun d => d.hasInstance) definition 0 with
    | none => simp [hc]
    | some p => simp
  · intro ctor ht hobj hfields hmem
    have hw : instanceWalk ctor possibleInstance.classes false = false := by
      cases hb : instanceWalk ctor possibleInstance.classes false with
      | false => rfl
      | true => exact absurd ((instanceWalk_iff _ _).1 hb) hmem
    have hc : instanceCheck targetClass possibleInstance = some (Value.boolean false) := by
      simp [instanceCheck, ht, hobj, hfields, hw]
    unfold HasInstanceFunctionCallHandler
    simp only [hc]
    rw [hasInstanceWalk_stopped _ _ _ _ (by simp)]

/-- Witness of the amended C18: without target class the first declaring level of
`exInstanceHooks` answers true and the deeper hook is not invoked; with the target
class 5, which the candidate's chain 7, 3 does not contain, the answer is false. -/
theorem HasInstanceFunctionCallHandler_fallback_witness :
    HasInstanceFunctionCallHandler exInstanceHooks none exCandidate =
      { returnValue := some (Value.boolean true), thrown := none,
        calls := [Call.hasInstance 1] } ∧
    (HasInstanceFunctionCallHandler exInstanceHooks none exCandidate).returnValue =
      hookAnswer exCandidate.value exInstanceHooks ∧
    HasInstanceFunctionCallHandler exInstanceHooks (some 5) exCandidate =
      { returnValue := some (Value.boolean false), thrown := none, calls := [] } :=
  ⟨by decide,
    ((HasInstanceFunctionCallHandler_fallback exInstanceHooks none exCandidate).1
      (Or.inl rfl)).1,
    by decide⟩

/-- Counterexample to C18 as stated: a target class (5) is held and the class chain of
the candidate (7, then 3) does not contain it, yet the chain is not walked.  On the
constructor that `JSObjectMakeConstructor` makes with class 5 the handler answers
false although no level declares a has-instance hook; and on a chain whose first
has-instance hook would answer true it answers false without invoking it. -/
theorem HasInstanceFunctionCallHandler_mismatch_not_walked :
    5 ∉ exCandidate.classes ∧
    HasInstanceFunctionCallHandler
        (JSObjectMakeConstructor (some 5) (some exFailingCallback)).definition
        (JSObjectMakeConstructor (some 5) (some exFailingCallback)).targetClass
        exCandidate =
      { returnValue := some (Value.boolean false), thrown := none, calls := [] } ∧
    hookAnswer exCandidate.value
        (JSObjectMakeConstructor (some 5) (some exFailingCallback)).definition = none ∧
    HasInstanceFunctionCallHandler exInstanceHooks (some 5) exCandidate =
      { returnValue := some (Value.boolean false), thrown := none, calls := [] } ∧
    hookAnswer exCandidate.value exInstanceHooks = some (Value.boolean true) := by
  decide

/-! ### Finalize and InitInstance -/

theorem mem_levelsWhere (p : JSClassDefinition → Bool) (ds : List JSClassDefinition) :
    ∀ (level k : Nat), k ∈ levelsWhere p ds level ↔
      ∃ j d, k = level + j ∧ ds[j]? = some d ∧ p d = true := by
  induction ds with
  | nil =>
    intro level k
    simp [levelsWhere]
  | cons d ds ih =>
    intro level k
    have hrest : (∃ j d2, k = level + 1 + j ∧ ds[j]? = some d2 ∧ p d2 = true) ↔
        ∃ j d2, k = level + (j + 1) ∧ ds[j]? = some d2 ∧ p d2 = true := by
      constructor
      · rintro ⟨j, d2, h1, h2⟩
        exact ⟨j, d2, by omega, h2⟩
      · rintro ⟨j, d2, h1, h2⟩
        exact ⟨j, d2, by omega, h2⟩
    have hsplit : (∃ j d2, k = level + j ∧ (d :: ds)[j]? = some d2 ∧ p d2 = true) ↔
        (k = level ∧ p d = true) ∨
          ∃ j d2, k = level + (j + 1) ∧ ds[j]? = some d2 ∧ p d2 = true := by
      constructor
      · rintro ⟨j, d2, h1, h2, h3⟩
        cases j with
        | zero =>
          simp only [List.getElem?_cons_zero, Option.some.injEq] at h2
          rw [← h2] at h3
          exact Or.inl ⟨by omega, h3⟩
        | succ j =>
          simp only [List.getElem?_cons_succ] at h2
          exact Or.inr ⟨j, d2, h1, h2, h3⟩
      · rintro (⟨h1, h2⟩ | ⟨j, d2, h1, h2, h3⟩)
        · exact ⟨0, d, by omega, by simp, h2⟩
        · exact ⟨j + 1, d2, h1, by simpa using h2, h3⟩
    rw [hsplit, ← hrest, ← ih]
    cases hp : p d <;> simp [levelsWhere, hp]

theorem levelsWhere_ge (p : JSClassDefinition → Bool) (ds : List JSClassDefinition)
    (level k : Nat) (h : k ∈ levelsWhere p ds level) : level ≤ k := by
  obtain ⟨j, _, hk, _⟩ := (mem_levelsWhere p ds level k).1 h
  omega

/-- The levels are listed in strictly increasing order. -/
theorem levelsWhere_sorted (p : JSClassDefinition → Bool) (ds : List JSClassDefinition) :
    ∀ level : Nat, (levelsWhere p ds level).Pairwise (fun a b => a < b) := by
  induction ds with
  | nil =>
    intro level
    simp [levelsWhere]
  | cons d ds ih =>
    intro level
    cases hp : p d with
    | false =>
      simp only [levelsWhere, hp, Bool.false_eq_true, if_false]
      exact ih _
    | true =>
      simp only [levelsWhere, hp, if_true, List.pairwise_cons]
      refine ⟨?_, ih _⟩
      intro k hk
      have := levelsWhere_ge p ds (level + 1) k hk
      omega

theorem levelsWhere_append (p : JSClassDefinition → Bool) (xs ys : List JSClassDefinition) :
    ∀ level : Nat, levelsWhere p (xs ++ ys) level =
      levelsWhere p xs level ++ levelsWhere p ys (level + xs.length) := by
  induction xs with
  | nil =>
    intro level
    simp [levelsWhere]
  | cons x xs ih =>
    intro level
    have e : level + 1 + xs.length = level + (xs.length + 1) := by omega
    cases hp : p x <;> simp [levelsWhere, hp, ih, e]

theorem levelsWhere_congr (p q : JSClassDefinition → Bool) (ds : List JSClassDefinition)
    (h : ∀ d ∈ ds, p d = q d) :
    ∀ level : Nat, levelsWhere p ds level = levelsWhere q ds level := by
  induction ds with
  | nil =>
    intro level
    rfl
  | cons d ds ih =>
    intro level
    have hd := h d (by simp)
    have ih2 := ih (fun d2 h2 => h d2 (by simp [h2])) (level + 1)
    simp [levelsWhere, hd, ih2]

/-- The finalize walk appends, in order, the levels that declare `finalize`. -/
theorem finalizeWalk_eq (ds : List JSClassDefinition) :
    ∀ (level : Nat) (calls : List Call),
      finalizeWalk ds level calls =
        calls ++ (levelsWhere (fun d => d.finalize) ds level).map Call.finalize := by
  induction ds with
  | nil =>
    intro level calls
    simp [finalizeWalk, levelsWhere]
  | cons d ds ih =>
    intro level calls
    cases hp : d.finalize <;> simp [finalizeWalk, levelsWhere, hp, ih]

theorem Finalize_eq (definition : List JSClassDefinition) :
    Finalize definition =
      (levelsWhere (fun d => d.finalize) definition 0).map Call.finalize := by
  simp [Finalize, finalizeWalk_eq]

/-- C12 (finalization order): `Finalize` invokes the finalize hook of every level that
declares one exactly once and of no other level, in leaf-to-root order; a level
without a hook is skipped and the walk goes on behind it.  The trace is the list of
the declaring levels from the instance's own definition to the root. -/
theorem Finalize_leaf_to_root (definition : List JSClassDefinition) :
    Finalize definition =
      (levelsWhere (fun d => d.finalize) definition 0).map Call.finalize ∧
    (∀ k d, definition[k]? = some d → d.finalize = true →
      (Finalize definition).count (Call.finalize k) = 1) ∧
    (∀ c ∈ Finalize definition,
      ∃ k d, c = Call.finalize k ∧ definition[k]? = some d ∧ d.finalize = true) ∧
    (Finalize definition).Pairwise (fun a b => a.level < b.level) := by
  have hsorted := levelsWhere_sorted (fun d => d.finalize) definition 0
  have hnodup : (Finalize definition).Nodup := by
    rw [Finalize_eq]
    refine List.Nodup.map ?_ ?_
    · intro a b hab
      simpa using hab
    · exact hsorted.imp (fun h => Nat.ne_of_lt h)
  refine ⟨Finalize_eq definition, ?_, ?_, ?_⟩
  · intro k d hk hd
    apply List.count_eq_one_of_mem hnodup
    rw [Finalize_eq, List.mem_map]
    refine ⟨k, ?_, rfl⟩
    rw [mem_levelsWhere]
    exact ⟨k, d, by omega, hk, hd⟩
  · intro c hc
    rw [Finalize_eq, List.mem_map] at hc
    obtain ⟨k, hk, rfl⟩ := hc
    obtain ⟨j, d, h1, h2, h3⟩ := (mem_levelsWhere _ _ _ _).1 hk
    have : k = j := by omega
    exact ⟨k, d, rfl, by rw [this]; exact h2, h3⟩
  · rw [Finalize_eq, List.pairwise_map]
    exact hsorted.imp (fun h => by simpa [Call.level] using h)

/-- Witness of C12 on the two chains of the specification: A → B → C finalizes A, B, C
in that order, and in Derived → Base, where only Base declares `finalize`, Base's hook
runs once. -/
theorem Finalize_leaf_to_root_witness :
    Finalize exLifecycleABC = [Call.finalize 0, Call.finalize 1, Call.finalize 2] ∧
    Finalize exLifecycleDerivedBase = [Call.finalize 1] ∧
    (Finalize exLifecycleDerivedBase).count (Call.finalize 1) = 1 :=
  ⟨by decide, by decide,
    (Finalize_leaf_to_root exLifecycleDerivedBase).2.1 1
      { className := some "Base", finalize := true, initialize_ := true } rfl rfl⟩

/-- The first loop of `InitInstance` ends at the root of the chain. -/
theorem greatestAncestor_eq (ds : List JSClassDefinition) :
    ∀ level : Nat, greatestAncestor ds level = level + (ds.length - 1) := by
  induction ds with
  | nil =>
    intro level
    simp [greatestAncestor]
  | cons d ds ih =>
    intro level
    cases ds with
    | nil => simp [greatestAncestor]
    | cons d2 ds2 =>
      simp only [greatestAncestor, ih]
      simp only [List.length_cons]
      omega

/-- The inner loop of `InitInstance` finds the child of `parent`: it ends one level
before it. -/
theorem findChild_eq (parent : Nat) (ds : List JSClassDefinition) :
    ∀ level : Nat, level < parent → parent < level + ds.length →
      findChild parent ds level = parent - 1 := by
  induction ds with
  | nil =>
    intro level h1 h2
    simp at h2
    omega
  | cons d ds ih =>
    intro level h1 h2
    cases ds with
    | nil =>
      simp at h2
      omega
    | cons d2 ds2 =>
      by_cases h : level + 1 = parent
      · simp only [findChild, h, ne_eq, not_true_eq_false, if_false]
        omega
      · simp only [findChild, ne_eq, h, not_false_eq_true, if_true]
        apply ih
        · omega
        · simp only [List.length_cons] at h2 ⊢
          omega

/-- The loop `while (true)` of `InitInstance`, started at level `k` of the chain with
more than `k` iterations allowed, returns after calling `initialize` at the declaring
levels `k`, `k - 1`, ..., `0`, in that order. -/
theorem initializeLoop_eq (m_definition : List JSClassDefinition) :
    ∀ (k fuel : Nat) (calls : List Call), k < m_definition.length → k < fuel →
      initializeLoop m_definition fuel k calls =
        some (calls ++
          ((levelsWhere (fun d => d.initialize_) (m_definition.take (k + 1)) 0).reverse.map
            Call.initialize_)) := by
  intro k
  induction k with
  | zero =>
    intro fuel calls hk hf
    obtain ⟨fuel, rfl⟩ : ∃ f, fuel = f + 1 := ⟨fuel - 1, by omega⟩
    cases hm : m_definition with
    | nil =>
      rw [hm] at hk
      simp at hk
    | cons d ds =>
      cases hp : d.initialize_ <;> simp [initializeLoop, levelsWhere, hp]
  | succ k ih =>
    intro fuel calls hk hf
    obtain ⟨fuel, rfl⟩ : ∃ f, fuel = f + 1 := ⟨fuel - 1, by omega⟩
    have hget : m_definition[k + 1]? = some (m_definition[k + 1]) :=
      List.getElem?_eq_getElem hk
    have hchild : findChild (k + 1) m_definition 0 = k := by
      have := findChild_eq (k + 1) m_definition 0 (by omega) (by omega)
      simpa using this
    have htake : m_definition.take (k + 1 + 1) =
        m_definition.take (k + 1) ++ [m_definition[k + 1]] := by
      rw [List.take_succ, hget]
      rfl
    have hlen : (m_definition.take (k + 1)).length = k + 1 := by
      rw [List.length_take]
      omega
    have hrec := ih fuel
      (if (m_definition[k + 1]).initialize_ then calls ++ [Call.initialize_ (k + 1)]
        else calls) (by omega) (by omega)
    simp only [initializeLoop, hget, Nat.add_one_ne_zero, if_false, hchild, hrec, htake,
      levelsWhere_append, hlen, Nat.zero_add]
    cases hp : (m_definition[k + 1]).initialize_ <;> simp [levelsWhere, hp]

theorem InitInstance_eq (fuel : Nat) (m_definition : List JSClassDefinition)
    (hne : m_definition ≠ []) (hfuel : m_definition.length ≤ fuel) :
    InitInstance fuel m_definition =
      some ((levelsWhere (fun d => d.initialize_) m_definition 0).reverse.map
        Call.initialize_) := by
  have hpos : 0 < m_definition.length := List.length_pos.2 hne
  have h := initializeLoop_eq m_definition (m_definition.length - 1) fuel []
    (by omega) (by omega)
  have e : m_definition.length - 1 + 1 = m_definition.length := by omega
  rw [e, List.take_length] at h
  rw [InitInstance, greatestAncestor_eq, Nat.zero_add, h]
  simp

/-- C13 (initialization order): on a chain of any depth and with at least one iteration
allowed per level, the initialization loop of `InitInstance` returns, having invoked
the initialize hook of every level that declares one exactly once and of no other
level, in root-to-leaf order: the trace is the list of the declaring levels in the
reverse of the leaf-to-root order that `Finalize` follows, so that on a chain whose
levels declare `initialize` exactly where they declare `finalize` the levels
initialized are those finalized, in reverse order. -/
theorem InitInstance_root_to_leaf (fuel : Nat) (m_definition : List JSClassDefinition)
    (hne : m_definition ≠ []) (hfuel : m_definition.length ≤ fuel) :
    ∃ calls, InitInstance fuel m_definition = some calls ∧
      calls = (levelsWhere (fun d => d.initialize_) m_definition 0).reverse.map
        Call.initialize_ ∧
      (∀ k d, m_definition[k]? = some d → d.initialize_ = true →
        calls.count (Call.initialize_ k) = 1) ∧
      (∀ c ∈ calls,
        ∃ k d, c = Call.initialize_ k ∧ m_definition[k]? = some d ∧
          d.initialize_ = true) ∧
      calls.Pairwise (fun a b => b.level < a.level) ∧
      ((∀ d ∈ m_definition, d.initialize_ = d.finalize) →
        calls.map Call.level = ((Finalize m_definition).map Call.level).reverse) := by
  refine ⟨_, InitInstance_eq fuel m_definition hne hfuel, rfl, ?_, ?_, ?_, ?_⟩
  · intro k d hk hd
    have hsorted := levelsWhere_sorted (fun d => d.initialize_) m_definition 0
    apply List.count_eq_one_of_mem
    · refine List.Nodup.map ?_ ?_
      · intro a b hab
        simpa using hab
      · rw [List.nodup_reverse]
        exact hsorted.imp (fun h => Nat.ne_of_lt h)
    · rw [List.mem_map]
      refine ⟨k, ?_, rfl⟩
      rw [List.mem_reverse, mem_levelsWhere]
      exact ⟨k, d, by omega, hk, hd⟩
  · intro c hc
    rw [List.mem_map] at hc
    obtain ⟨k, hk, rfl⟩ := hc
    rw [List.mem_reverse] at hk
    obtain ⟨j, d, h1, h2, h3⟩ := (mem_levelsWhere _ _ _ _).1 hk
    have : k = j := by omega
    exact ⟨k, d, rfl, by rw [this]; exact h2, h3⟩
  · rw [List.pairwise_map, List.pairwise_reverse]
    exact (levelsWhere_sorted _ m_definition 0).imp
      (fun h => by simpa [Call.level] using h)
  · intro hsame
    rw [Finalize_eq, levelsWhere_congr _ _ m_definition hsame 0]
    simp only [List.map_map, List.map_reverse]
    congr 1

/-- Witness of C13 on the chain A → B → C: with three iterations allowed the loop
returns after initializing C, then B, then A, the reverse of the order in which
`Finalize` visits them. -/
theorem InitInstance_root_to_leaf_witness :
    Finalize exLifecycleABC = [Call.finalize 0, Call.finalize 1, Call.finalize 2] ∧
    ∃ calls, InitInstance 3 exLifecycleABC = some calls ∧
      calls = [Call.initialize_ 2, Call.initialize_ 1, Call.initialize_ 0] := by
  refine ⟨by decide, ?_⟩
  obtain ⟨calls, h1, h2, _⟩ :=
    InitInstance_root_to_leaf 3 exLifecycleABC (by simp [exLifecycleABC]) (by decide)
  exact ⟨calls, h1, by rw [h2]; decide⟩

/-! ### First-answer walks -/

/-- Every hook of a first-answer walk belongs to a level that declares it, and all
hooks of earlier levels were quiet. -/
theorem mem_invoked {α : Type} (result : JSClassDefinition → Option α) (quiet : α → Bool)
    (ds : List JSClassDefinition) :
    ∀ (level k : Nat) (r : α), (k, r) ∈ invoked result quiet ds level →
      ∃ j d, k = level + j ∧ ds[j]? = some d ∧ result d = some r ∧
        ∀ i di ri, i < j → ds[i]? = some di → result di = some ri → quiet ri = true := by
  induction ds with
  | nil =>
    intro level k r h
    simp [invoked] at h
  | cons d ds ih =>
    intro level k r h
    have lift : (∀ ri, result d = some ri → quiet ri = true) →
        (k, r) ∈ invoked result quiet ds (level + 1) →
        ∃ j d2, k = level + j ∧ (d :: ds)[j]? = some d2 ∧ result d2 = some r ∧
          ∀ i di ri, i < j → (d :: ds)[i]? = some di → result di = some ri →
            quiet ri = true := by
      intro hq hmem
      obtain ⟨j, d2, h1, h2, h3, h4⟩ := ih _ _ _ hmem
      refine ⟨j + 1, d2, by omega, by simpa using h2, h3, ?_⟩
      intro i di ri hi hdi hri
      cases i with
      | zero =>
        simp only [List.getElem?_cons_zero, Option.some.injEq] at hdi
        rw [← hdi] at hri
        exact hq ri hri
      | succ i =>
        simp only [List.getElem?_cons_succ] at hdi
        exact h4 i di ri (by omega) hdi hri
    have here : ∀ r0, result d = some r0 → (k, r) = (level, r0) →
        ∃ j d2, k = level + j ∧ (d :: ds)[j]? = some d2 ∧ result d2 = some r ∧
          ∀ i di ri, i < j → (d :: ds)[i]? = some di → result di = some ri →
            quiet ri = true := by
      intro r0 hr0 he
      simp only [Prod.mk.injEq] at he
      refine ⟨0, d, by omega, by simp, by rw [hr0, he.2], ?_⟩
      intro i di ri hi
      omega
    cases hr : result d with
    | none =>
      simp only [invoked, hr] at h
      exact lift (fun ri hri => by rw [hr] at hri; simp at hri) h
    | some r0 =>
      cases hq : quiet r0 with
      | true =>
        simp only [invoked, hr, hq, if_true, List.mem_cons] at h
        rcases h with h | h
        · exact here r0 hr h
        · refine lift ?_ h
          intro ri hri
          rw [hr] at hri
          simp only [Option.some.injEq] at hri
          rw [← hri]
          exact hq
      | false =>
        simp only [invoked, hr, hq, Bool.false_eq_true, if_false, List.mem_singleton] at h
        exact here r0 hr h

/-- The hooks of a first-answer walk are invoked in leaf-to-root order. -/
theorem invoked_sorted {α : Type} (result : JSClassDefinition → Option α)
    (quiet : α → Bool) (ds : List JSClassDefinition) :
    ∀ level : Nat, (invoked result quiet ds level).Pairwise (fun a b => a.1 < b.1) := by
  induction ds with
  | nil =>
    intro level
    simp [invoked]
  | cons d ds ih =>
    intro level
    cases hr : result d with
    | none =>
      simp only [invoked, hr]
      exact ih _
    | some r0 =>
      cases hq : quiet r0 with
      | true =>
        simp only [invoked, hr, hq, if_true, List.pairwise_cons]
        refine ⟨?_, ih _⟩
        rintro ⟨k, r⟩ hk
        obtain ⟨j, _, h1, _⟩ := mem_invoked result quiet ds _ _ _ hk
        simp only
        omega
      | false => simp [invoked, hr, hq]

/-- A hook of the walk that was not quiet is the one that ended it. -/
theorem decided_of_mem {α : Type} (result : JSClassDefinition → Option α)
    (quiet : α → Bool) (ds : List JSClassDefinition) :
    ∀ (level : Nat) (p : Nat × α), p ∈ invoked result quiet ds level → quiet p.2 = false →
      decided quiet (invoked result quiet ds level) = some p := by
  induction ds with
  | nil =>
    intro level p h
    simp [invoked] at h
  | cons d ds ih =>
    intro level p h hq
    cases hr : result d with
    | none =>
      simp only [invoked, hr] at h ⊢
      exact ih _ _ h hq
    | some r0 =>
      cases hq0 : quiet r0 with
      | true =>
        simp only [invoked, hr, hq0, if_true, List.mem_cons] at h ⊢
        rcases h with h | h
        · rw [h] at hq
          simp only at hq
          rw [hq0] at hq
          exact absurd hq (by simp)
        · have := ih _ _ h hq
          simpa [decided, hq0] using this
      | false =>
        simp only [invoked, hr, hq0, Bool.false_eq_true, if_false, List.mem_singleton] at h ⊢
        simp [decided, h, hq0]

/-- The hook that ended the walk was invoked, was not quiet, and no hook of a deeper
level was invoked. -/
theorem decided_spec {α : Type} (result : JSClassDefinition → Option α)
    (quiet : α → Bool) (ds : List JSClassDefinition) (level : Nat) (p : Nat × α)
    (h : decided quiet (invoked result quiet ds level) = some p) :
    p ∈ invoked result quiet ds level ∧ quiet p.2 = false := by
  unfold decided at h
  have h1 := List.find?_some h
  have h2 := List.mem_of_find?_eq_some h
  exact ⟨h2, by simpa using h1⟩

/-- No hook is invoked beyond a level whose hook is not quiet. -/
theorem invoked_le {α : Type} (result : JSClassDefinition → Option α)
    (quiet : α → Bool) (ds : List JSClassDefinition) (level j : Nat)
    (d : JSClassDefinition) (r : α) (hd : ds[j]? = some d) (hr : result d = some r)
    (hq : quiet r = false) :
    ∀ p ∈ invoked result quiet ds level, p.1 ≤ level + j := by
  rintro ⟨k, r2⟩ hp
  obtain ⟨j2, d2, h1, h2, h3, h4⟩ := mem_invoked result quiet ds _ _ _ hp
  simp only
  by_contra hlt
  have := h4 j d r (by omega) hd hr
  rw [hq] at this
  exact absurd this (by simp)

/-- A walk that no hook ended met only quiet hooks. -/
theorem decided_none {α : Type} (result : JSClassDefinition → Option α)
    (quiet : α → Bool) (ds : List JSClassDefinition) :
    ∀ level : Nat, decided quiet (invoked result quiet ds level) = none →
      ∀ d ∈ ds, ∀ r, result d = some r → quiet r = true := by
  induction ds with
  | nil =>
    intro level _ d hd
    simp at hd
  | cons d ds ih =>
    intro level h d2 hd2 r hr2
    cases hr : result d with
    | none =>
      simp only [invoked, hr] at h
      simp only [List.mem_cons] at hd2
      rcases hd2 with hd2 | hd2
      · rw [hd2, hr] at hr2
        simp at hr2
      · exact ih _ h d2 hd2 r hr2
    | some r0 =>
      cases hq0 : quiet r0 with
      | true =>
        simp only [invoked, hr, hq0, if_true] at h
        have h' : decided quiet (invoked result quiet ds (level + 1)) = none := by
          simpa [decided, hq0] using h
        simp only [List.mem_cons] at hd2
        rcases hd2 with hd2 | hd2
        · rw [hd2, hr] at hr2
          simp only [Option.some.injEq] at hr2
          rw [← hr2]
          exact hq0
        · exact ih _ h' d2 hd2 r hr2
      | false =>
        simp [invoked, hr, hq0, decided] at h

/-- The first level whose hook is not quiet ends the walk. -/
theorem decided_first {α : Type} (result : JSClassDefinition → Option α)
    (quiet : α → Bool) (ds : List JSClassDefinition) :
    ∀ (level j : Nat) (d : JSClassDefinition) (r : α), ds[j]? = some d →
      result d = some r → quiet r = false →
      (∀ i di ri, i < j → ds[i]? = some di → result di = some ri → quiet ri = true) →
      decided quiet (invoked result quiet ds level) = some (level + j, r) := by
  induction ds with
  | nil =>
    intro level j d r hd
    simp at hd
  | cons d0 ds ih =>
    intro level j d r hd hr hq hprev
    cases j with
    | zero =>
      simp only [List.getElem?_cons_zero, Option.some.injEq] at hd
      rw [← hd] at hr
      simp [invoked, hr, hq, decided]
    | succ j =>
      simp only [List.getElem?_cons_succ] at hd
      have hrec := ih (level + 1) j d r hd hr hq
        (fun i di ri hi hdi hri => hprev (i + 1) di ri (by omega) (by simpa using hdi) hri)
      have e : level + 1 + j = level + (j + 1) := by omega
      rw [e] at hrec
      cases hr0 : result d0 with
      | none =>
        simp only [invoked, hr0]
        exact hrec
      | some r0 =>
        have hq0 := hprev 0 d0 r0 (by omega) (by simp) hr0
        simp only [invoked, hr0, hq0, if_true]
        simpa [decided, hq0] using hrec

/-! ### NamedPropertyDeleter -/

theorem deleteWalk_stopped (str : String) (ds : List JSClassDefinition) (level : Nat)
    (s : DeleteState) (h : (s.exception.isNone && !s.deleted) = false) :
    deleteWalk str ds level s = s := by
  cases ds with
  | nil => rfl
  | cons d ds => simp [deleteWalk, h]

/-- The deleter walk is the first-answer walk over the delete-property hooks. -/
theorem deleteWalk_eq (str : String) (ds : List JSClassDefinition) :
    ∀ (level : Nat) (s : DeleteState), s.exception = none → s.deleted = false →
      deleteWalk str ds level s =
        { deleted :=
            ((decided BoolResult.quiet
              (invoked (deleteResult str) BoolResult.quiet ds level)).map
                (fun p => p.2.result)).getD false,
          exception :=
            (decided BoolResult.quiet
              (invoked (deleteResult str) BoolResult.quiet ds level)).bind
                (fun p => p.2.exception),
          calls := s.calls ++
            (invoked (deleteResult str) BoolResult.quiet ds level).map
              (fun p => Call.deleteProperty p.1) } := by
  induction ds with
  | nil =>
    intro level s he hd
    obtain ⟨dl, ex, cs⟩ := s
    simp only at he hd
    simp [deleteWalk, invoked, decided, he, hd]
  | cons d ds ih =>
    intro level s he hd
    cases hh : d.deleteProperty with
    | none =>
      have hr : deleteResult str d = none := by simp [deleteResult, hh]
      simp only [deleteWalk, he, hd, hh, invoked, hr]
      exact ih _ _ he hd
    | some deleter =>
      have hr : deleteResult str d = some (deleter str) := by simp [deleteResult, hh]
      cases hq : (deleter str).quiet with
      | true =>
        have hq2 : (deleter str).exception = none ∧ (deleter str).result = false := by
          simpa [BoolResult.quiet] using hq
        have := ih (level + 1)
          { deleted := (deleter str).result, exception := (deleter str).exception,
            calls := s.calls ++ [Call.deleteProperty level] } hq2.1 hq2.2
        simp only [deleteWalk, he, hd, hh, invoked, hr, hq, if_true, this]
        simp [decided, hq]
      | false =>
        have hstop : ((deleter str).exception.isNone && !(deleter str).result) = false := by
          simpa [BoolResult.quiet] using hq
        simp only [deleteWalk, he, hd, hh, invoked, hr, hq]
        rw [deleteWalk_stopped _ _ _ _ hstop]
        simp [decided, hq]

theorem NamedPropertyDeleter_eq (definition : List JSClassDefinition) (property : String) :
    (NamedPropertyDeleter definition property).calls =
      (invoked (deleteResult property) BoolResult.quiet definition 0).map
        (fun p => Call.deleteProperty p.1) ∧
    (NamedPropertyDeleter definition property).thrown =
      (decided BoolResult.quiet
        (invoked (deleteResult property) BoolResult.quiet definition 0)).bind
          (fun p => p.2.exception) ∧
    ((NamedPropertyDeleter definition property).handled = true ↔
      ∃ p, decided BoolResult.quiet
        (invoked (deleteResult property) BoolResult.quiet definition 0) = some p ∧
        p.2.result = true) := by
  have h := deleteWalk_eq property definition 0 {} rfl rfl
  refine ⟨?_, ?_, ?_⟩
  · simp [NamedPropertyDeleter, h]
  · simp [NamedPropertyDeleter, h]
  · simp only [NamedPropertyDeleter, DeleteOutcome.handled, h]
    cases hd : decided BoolResult.quiet
        (invoked (deleteResult property) BoolResult.quiet definition 0) with
    | none => simp
    | some p => cases hp : p.2.result <;> simp [hp]

theorem deleteResult_some (str : String) (d : JSClassDefinition) (r : BoolResult)
    (h : deleteResult str d = some r) :
    ∃ deleter, d.deleteProperty = some deleter ∧ deleter str = r := by
  cases hh : d.deleteProperty with
  | none => simp [deleteResult, hh] at h
  | some deleter =>
    refine ⟨deleter, rfl, ?_⟩
    simpa [deleteResult, hh] using h

/-- C19 (delete-property resolution): `NamedPropertyDeleter` tries the delete-property
hooks in leaf-to-root order, each at most once and only after every hook before it
returned false; no hook is invoked beyond the first level whose hook returns true;
the deletion is reported as handled if and only if some hook that was invoked
returned true; and when nothing is thrown, if and only if some hook of the chain
returns true. -/
theorem NamedPropertyDeleter_first_success (definition : List JSClassDefinition)
    (property : String) :
    (NamedPropertyDeleter definition property).calls.Pairwise
      (fun a b => a.level < b.level) ∧
    (∀ c ∈ (NamedPropertyDeleter definition property).calls,
      ∃ k d deleter, c = Call.deleteProperty k ∧ definition[k]? = some d ∧
        d.deleteProperty = some deleter ∧
        ∀ i di hook, i < k → definition[i]? = some di → di.deleteProperty = some hook →
          (hook property).result = false) ∧
    (∀ k d deleter, definition[k]? = some d → d.deleteProperty = some deleter →
      (deleter property).result = true →
      ∀ c ∈ (NamedPropertyDeleter definition property).calls, c.level ≤ k) ∧
    ((NamedPropertyDeleter definition property).handled = true ↔
      ∃ k d deleter, definition[k]? = some d ∧ d.deleteProperty = some deleter ∧
        Call.deleteProperty k ∈ (NamedPropertyDeleter definition property).calls ∧
        (deleter property).result = true) ∧
    ((NamedPropertyDeleter definition property).thrown = none →
      ((NamedPropertyDeleter definition property).handled = true ↔
        ∃ d ∈ definition, ∃ deleter, d.deleteProperty = some deleter ∧
          (deleter property).result = true)) := by
  obtain ⟨hcalls, hthrown, hhandled⟩ := NamedPropertyDeleter_eq definition property
  have hmem : ∀ k, Call.deleteProperty k ∈ (NamedPropertyDeleter definition property).calls →
      ∃ r, (k, r) ∈ invoked (deleteResult property) BoolResult.quiet definition 0 := by
    intro k hk
    rw [hcalls, List.mem_map] at hk
    obtain ⟨⟨k2, r⟩, hp, he⟩ := hk
    simp only [Call.deleteProperty.injEq] at he
    exact ⟨r, by rw [← he]; exact hp⟩
  have hfwd : (NamedPropertyDeleter definition property).handled = true →
      ∃ k d deleter, definition[k]? = some d ∧ d.deleteProperty = some deleter ∧
        Call.deleteProperty k ∈ (NamedPropertyDeleter definition property).calls ∧
        (deleter property).result = true := by
    intro h
    obtain ⟨⟨k, r⟩, hp, hres⟩ := hhandled.1 h
    obtain ⟨hin, _⟩ := decided_spec _ _ _ _ _ hp
    obtain ⟨j, d, h1, h2, h3, _⟩ := mem_invoked _ _ _ _ _ _ hin
    obtain ⟨deleter, h4, h5⟩ := deleteResult_some _ _ _ h3
    have hk : k = j := by omega
    refine ⟨k, d, deleter, by rw [hk]; exact h2, h4, ?_, by rw [h5]; exact hres⟩
    rw [hcalls, List.mem_map]
    exact ⟨(k, r), hin, rfl⟩
  refine ⟨?_, ?_, ?_, ⟨hfwd, ?_⟩, ?_⟩
  · rw [hcalls, List.pairwise_map]
    exact (invoked_sorted _ _ definition 0).imp (fun h => by simpa [Call.level] using h)
  · intro c hc
    rw [hcalls, List.mem_map] at hc
    obtain ⟨⟨k, r⟩, hp, rfl⟩ := hc
    obtain ⟨j, d, h1, h2, h3, h4⟩ := mem_invoked _ _ _ _ _ _ hp
    obtain ⟨deleter, h5, _⟩ := deleteResult_some _ _ _ h3
    have hk : k = j := by omega
    refine ⟨k, d, deleter, rfl, by rw [hk]; exact h2, h5, ?_⟩
    intro i di hook hi hdi hhook
    have := h4 i di (hook property) (by omega) hdi (by simp [deleteResult, hhook])
    simpa [BoolResult.quiet] using (And.right (by simpa [BoolResult.quiet] using this :
      (hook property).exception = none ∧ (hook property).result = false))
  · intro k d deleter hk hd hres c hc
    rw [hcalls, List.mem_map] at hc
    obtain ⟨p, hp, rfl⟩ := hc
    have := invoked_le (deleteResult property) BoolResult.quiet definition 0 k d
      (deleter property) hk (by simp [deleteResult, hd]) (by simp [BoolResult.quiet, hres])
      p hp
    simpa [Call.level] using this
  · rintro ⟨k, d, deleter, hk, hd, hcall, hres⟩
    obtain ⟨r, hin⟩ := hmem k hcall
    obtain ⟨j, d2, h1, h2, h3, _⟩ := mem_invoked _ _ _ _ _ _ hin
    have hj : j = k := by omega
    rw [hj, hk] at h2
    simp only [Option.some.injEq] at h2
    rw [← h2] at h3
    have hr : r = deleter property := by
      simpa [deleteResult, hd] using h3.symm
    have hq : BoolResult.quiet (k, r).2 = false := by
      simp [BoolResult.quiet, hr, hres]
    exact hhandled.2 ⟨(k, r), decided_of_mem _ _ _ _ _ hin hq, by rw [hr]; exact hres⟩
  · intro hnone
    constructor
    · intro h
      obtain ⟨k, d, deleter, hk, hd, _, hres⟩ := hfwd h
      exact ⟨d, List.getElem?_mem hk, deleter, hd, hres⟩
    · rintro ⟨d, hd, deleter, hdel, hres⟩
      rw [hthrown] at hnone
      cases hdec : decided BoolResult.quiet
          (invoked (deleteResult property) BoolResult.quiet definition 0) with
      | none =>
        have := decided_none _ _ _ _ hdec d hd (deleter property)
          (by simp [deleteResult, hdel])
        simp [BoolResult.quiet, hres] at this
      | some p =>
        rw [hdec] at hnone
        replace hnone : p.2.exception = none := by simpa using hnone
        obtain ⟨_, hq⟩ := decided_spec _ _ _ _ _ hdec
        refine hhandled.2 ⟨p, hdec, ?_⟩
        cases hpr : p.2.result with
        | true => rfl
        | false => simp [BoolResult.quiet, hnone, hpr] at hq

/-- Witness of C19 on the chain `exDeleting`: the first hook declines, the second
level has none, the third accepts and the fourth is never asked. -/
theorem NamedPropertyDeleter_first_success_witness :
    NamedPropertyDeleter exDeleting "x" =
      { returnValue := some true, thrown := none,
        calls := [Call.deleteProperty 0, Call.deleteProperty 2] } ∧
    (NamedPropertyDeleter exDeleting "x").handled = true :=
  ⟨by decide,
    ((NamedPropertyDeleter_first_success exDeleting "x").2.2.2.2 (by decide)).2
      ⟨{ deleteProperty := some (fun _ => { result := true }) },
        by simp [exDeleting], fun _ => { result := true }, rfl, rfl⟩⟩

/-! ### ConvertFunctionCallHandler -/

theorem convertWalk_stopped (type : JSType) (ds : List JSClassDefinition) (level : Nat)
    (s : WalkState) (h : (s.exception.isNone && s.value.isNone) = false) :
    convertWalk type ds level s = s := by
  cases ds with
  | nil => rfl
  | cons d ds => simp [convertWalk, h]

/-- The conversion walk is the first-answer walk over the convert-to-type hooks. -/
theorem convertWalk_eq (type : JSType) (ds : List JSClassDefinition) :
    ∀ (level : Nat) (s : WalkState), s.exception = none → s.value = none →
      convertWalk type ds level s =
        { value :=
            (decided HookResult.quiet
              (invoked (convertResult type) HookResult.quiet ds level)).bind
                (fun p => p.2.value),
          exception :=
            (decided HookResult.quiet
              (invoked (convertResult type) HookResult.quiet ds level)).bind
                (fun p => p.2.exception),
          calls := s.calls ++
            (invoked (convertResult type) HookResult.quiet ds level).map
              (fun p => Call.convertToType p.1) } := by
  induction ds with
  | nil =>
    intro level s he hv
    obtain ⟨v, ex, cs⟩ := s
    simp only at he hv
    simp [convertWalk, invoked, decided, he, hv]
  | cons d ds ih =>
    intro level s he hv
    cases hh : d.convertToType with
    | none =>
      have hr : convertResult type d = none := by simp [convertResult, hh]
      simp only [convertWalk, he, hv, hh, invoked, hr]
      exact ih _ _ he hv
    | some convert =>
      have hr : convertResult type d = some (convert type) := by simp [convertResult, hh]
      cases hq : (convert type).quiet with
      | true =>
        have hq2 : (convert type).exception = none ∧ (convert type).value = none := by
          simpa [HookResult.quiet] using hq
        have := ih (level + 1)
          { value := (convert type).value, exception := (convert type).exception,
            calls := s.calls ++ [Call.convertToType level] } hq2.1 hq2.2
        simp only [convertWalk, he, hv, hh, invoked, hr, hq, if_true, this]
        simp [decided, hq]
      | false =>
        have hstop :
            ((convert type).exception.isNone && (convert type).value.isNone) = false := by
          simpa [HookResult.quiet] using hq
        simp only [convertWalk, he, hv, hh, invoked, hr, hq]
        rw [convertWalk_stopped _ _ _ _ hstop]
        simp [decided, hq]

theorem ConvertFunctionCallHandler_eq (definition : List JSClassDefinition)
    (hint : String) :
    (ConvertFunctionCallHandler definition hint).calls =
      (invoked (convertResult (convertType hint)) HookResult.quiet definition 0).map
        (fun p => Call.convertToType p.1) ∧
    (ConvertFunctionCallHandler definition hint).returnValue =
      (decided HookResult.quiet
        (invoked (convertResult (convertType hint)) HookResult.quiet definition 0)).bind
          (fun p => p.2.value) ∧
    (ConvertFunctionCallHandler definition hint).thrown =
      (decided HookResult.quiet
        (invoked (convertResult (convertType hint)) HookResult.quiet definition 0)).bind
          (fun p => p.2.exception) := by
  have h := convertWalk_eq (convertType hint) definition 0 {} rfl rfl
  simp [ConvertFunctionCallHandler, h]

theorem convertResult_some (type : JSType) (d : JSClassDefinition) (r : HookResult)
    (h : convertResult type d = some r) :
    ∃ convert, d.convertToType = some convert ∧ convert type = r := by
  cases hh : d.convertToType with
  | none => simp [convertResult, hh] at h
  | some convert =>
    refine ⟨convert, rfl, ?_⟩
    simpa [convertResult, hh] using h

/-- C20 (convert-to-primitive-type resolution): the value `ConvertFunctionCallHandler`
returns is the one returned by the convert-to-type hook of the first level, from the
instance's own definition toward the root, whose hook supplies a non-null value, all
hooks before it having returned null without an exception; conversely such a level
wins whatever lies behind it, so levels without a hook or with a hook that returns
null without an exception are skipped; no hook beyond the winning level is invoked;
and the hooks are invoked in leaf-to-root order, each with the type made from the
hint. -/
theorem ConvertFunctionCallHandler_first_value (definition : List JSClassDefinition)
    (hint : String) :
    (∀ v, (ConvertFunctionCallHandler definition hint).returnValue = some v →
      ∃ k d convert, definition[k]? = some d ∧ d.convertToType = some convert ∧
        (convert (convertType hint)).value = some v ∧
        Call.convertToType k ∈ (ConvertFunctionCallHandler definition hint).calls ∧
        (∀ c ∈ (ConvertFunctionCallHandler definition hint).calls, c.level ≤ k) ∧
        ∀ i di hook, i < k → definition[i]? = some di → di.convertToType = some hook →
          (hook (convertType hint)).value = none ∧
          (hook (convertType hint)).exception = none) ∧
    (∀ k d convert v, definition[k]? = some d → d.convertToType = some convert →
      (convert (convertType hint)).value = some v →
      (∀ i di hook, i < k → definition[i]? = some di → di.convertToType = some hook →
        (hook (convertType hint)).value = none ∧
        (hook (convertType hint)).exception = none) →
      (ConvertFunctionCallHandler definition hint).returnValue = some v ∧
      ∀ c ∈ (ConvertFunctionCallHandler definition hint).calls, c.level ≤ k) ∧
    (∀ c ∈ (ConvertFunctionCallHandler definition hint).calls,
      ∃ k d convert, c = Call.convertToType k ∧ definition[k]? = some d ∧
        d.convertToType = some convert) ∧
    (ConvertFunctionCallHandler definition hint).calls.Pairwise
      (fun a b => a.level < b.level) := by
  obtain ⟨hcalls, hret, _⟩ := ConvertFunctionCallHandler_eq definition hint
  have hquiet : ∀ hook : JSType → HookResult,
      HookResult.quiet (hook (convertType hint)) = true →
      (hook (convertType hint)).value = none ∧
      (hook (convertType hint)).exception = none := by
    intro hook h
    have : (hook (convertType hint)).exception = none ∧
        (hook (convertType hint)).value = none := by
      simpa [HookResult.quiet] using h
    exact ⟨this.2, this.1⟩
  refine ⟨?_, ?_, ?_, ?_⟩
  · intro v hv
    rw [hret] at hv
    cases hdec : decided HookResult.quiet
        (invoked (convertResult (convertType hint)) HookResult.quiet definition 0) with
    | none => simp [hdec] at hv
    | some p =>
      obtain ⟨k, r⟩ := p
      rw [hdec] at hv
      replace hv : r.value = some v := by simpa using hv
      obtain ⟨hin, hq⟩ := decided_spec _ _ _ _ _ hdec
      obtain ⟨j, d, h1, h2, h3, h4⟩ := mem_invoked _ _ _ _ _ _ hin
      obtain ⟨convert, h5, h6⟩ := convertResult_some _ _ _ h3
      have hk : k = j := by omega
      refine ⟨k, d, convert, by rw [hk]; exact h2, h5, by rw [h6]; exact hv, ?_, ?_, ?_⟩
      · rw [hcalls, List.mem_map]
        exact ⟨(k, r), hin, rfl⟩
      · intro c hc
        rw [hcalls, List.mem_map] at hc
        obtain ⟨q, hq2, rfl⟩ := hc
        have := invoked_le (convertResult (convertType hint)) HookResult.quiet definition 0
          j d r h2 h3 hq q hq2
        simp only [Call.level]
        omega
      · intro i di hook hi hdi hhook
        exact hquiet hook
          (h4 i di (hook (convertType hint)) (by omega) hdi (by simp [convertResult, hhook]))
  · intro k d convert v hk hd hv hprev
    have hq : HookResult.quiet (convert (convertType hint)) = false := by
      simp [HookResult.quiet, hv]
    have hdec := decided_first (convertResult (convertType hint)) HookResult.quiet
      definition 0 k d (convert (convertType hint)) hk (by simp [convertResult, hd]) hq
      (by
        intro i di ri hi hdi hri
        obtain ⟨hook, h1, h2⟩ := convertResult_some _ _ _ hri
        have := hprev i di hook hi hdi h1
        rw [← h2]
        simp [HookResult.quiet, this.1, this.2])
    refine ⟨?_, ?_⟩
    · rw [hret, hdec]
      simpa using hv
    · intro c hc
      rw [hcalls, List.mem_map] at hc
      obtain ⟨q, hq2, rfl⟩ := hc
      have := invoked_le (convertResult (convertType hint)) HookResult.quiet definition 0
        k d (convert (convertType hint)) hk (by simp [convertResult, hd]) hq q hq2
      simp only [Call.level]
      omega
  · intro c hc
    rw [hcalls, List.mem_map] at hc
    obtain ⟨⟨k, r⟩, hp, rfl⟩ := hc
    obtain ⟨j, d, h1, h2, h3, _⟩ := mem_invoked _ _ _ _ _ _ hp
    obtain ⟨convert, h5, _⟩ := convertResult_some _ _ _ h3
    have hk : k = j := by omega
    exact ⟨k, d, convert, rfl, by rw [hk]; exact h2, h5⟩
  · rw [hcalls, List.pairwise_map]
    exact (invoked_sorted _ _ definition 0).imp (fun h => by simpa [Call.level] using h)

/-- Witness of C20 on the chain `exConverting`: the first hook returns null, the second
level has none, the third returns "seven" and the fourth is never asked. -/
theorem ConvertFunctionCallHandler_first_value_witness :
    ConvertFunctionCallHandler exConverting "string" =
      { returnValue := some (Value.string "seven"), thrown := none,
        calls := [Call.convertToType 0, Call.convertToType 2] } ∧
    ∃ k, Call.convertToType k ∈ (ConvertFunctionCallHandler exConverting "string").calls ∧
      ∀ c ∈ (ConvertFunctionCallHandler exConverting "string").calls, c.level ≤ k := by
  refine ⟨by decide, ?_⟩
  obtain ⟨k, _, _, _, _, _, h1, h2, _⟩ :=
    (ConvertFunctionCallHandler_first_value exConverting "string").1
      (Value.string "seven") (by decide)
  exact ⟨k, h1, h2⟩

/-! ### JSValue.h -/

theorem land_three (x : Nat) : x &&& 3 = x % 4 := by
  have := Nat.and_pow_two_sub_one_eq_mod x 2
  simpa using this

/-- In 64 bits, `x & ~3` clears the two lowest bits of `x`. -/
theorem land_not3 (x : Nat) (h : x < 2 ^ 64) : x &&& not3 = x / 4 * 4 := by
  apply Nat.eq_of_testBit_eq
  intro i
  have hm : not3 = (2 ^ 62 - 1) <<< 2 := by decide
  have hx : x / 4 * 4 = (x >>> 2) <<< 2 := by
    rw [Nat.shiftLeft_eq, Nat.shiftRight_eq_div_pow]
  rw [Nat.testBit_and, hm, hx, Nat.testBit_shiftLeft, Nat.testBit_shiftLeft,
    Nat.testBit_shiftRight, Nat.testBit_two_pow_sub_one]
  by_cases h2 : 2 ≤ i
  · have e : 2 + (i - 2) = i := by omega
    by_cases h64 : i < 64
    · have : i - 2 < 62 := by omega
      simp [h2, this, e]
    · have hlt : x < 2 ^ i :=
        lt_of_lt_of_le h (Nat.pow_le_pow_right (by decide) (by omega))
      simp [h2, e, Nat.testBit_lt_two_pow hlt]
  · simp [h2]

/-- C21 (handle tag classes): for every reference exactly one of `CANPRIMITIVE` (low
bits 00), `ISODDBALL` (low bits 10) and `ISPOINTER` (low bits 01 or 11) holds; each
of the four oddball constants satisfies `ISODDBALL`, and the four are pairwise
distinct. -/
theorem tag_classes (x : Nat) :
    (CANPRIMITIVE x = true ↔ x % 4 = 0) ∧
    (ISODDBALL x = true ↔ x % 4 = 2) ∧
    (ISPOINTER x = true ↔ x % 4 = 1 ∨ x % 4 = 3) ∧
    ((CANPRIMITIVE x = true ∧ ISODDBALL x = false ∧ ISPOINTER x = false) ∨
      (CANPRIMITIVE x = false ∧ ISODDBALL x = true ∧ ISPOINTER x = false) ∨
      (CANPRIMITIVE x = false ∧ ISODDBALL x = false ∧ ISPOINTER x = true)) ∧
    (ISODDBALL ODDBALL_UNDEFINED = true ∧ ISODDBALL ODDBALL_NULL = true ∧
      ISODDBALL ODDBALL_FALSE = true ∧ ISODDBALL ODDBALL_TRUE = true) ∧
    [ODDBALL_UNDEFINED, ODDBALL_NULL, ODDBALL_FALSE, ODDBALL_TRUE].Nodup := by
  have h3 := land_three x
  have h1 := Nat.and_one_is_mod x
  have hlt : x % 4 < 4 := Nat.mod_lt x (by decide)
  have hc : CANPRIMITIVE x = true ↔ x % 4 = 0 := by simp [CANPRIMITIVE, h3]
  have ho : ISODDBALL x = true ↔ x % 4 = 2 := by simp [ISODDBALL, h3]
  have hp : ISPOINTER x = true ↔ x % 4 = 1 ∨ x % 4 = 3 := by
    simp only [ISPOINTER, h1, beq_iff_eq]
    omega
  refine ⟨hc, ho, hp, ?_, by decide, by decide⟩
  cases hcb : CANPRIMITIVE x <;> cases hob : ISODDBALL x <;> cases hpb : ISPOINTER x <;>
    simp only [hcb, hob, hpb, Bool.false_eq_true, false_iff, true_iff] at hc ho hp <;>
    first
      | (simp; done)
      | omega

/-- C22 (boxed-pointer round trip): for every 64-bit pointer `p` that is 4-byte
aligned, `TOJSVALUE (TOPTR p) = p` and `TOJSVALUE (TOOBJPTR p) = p`; `TOPTR p` has
low bits 01 and `TOOBJPTR p` has low bits 11, so both satisfy `ISPOINTER` and
neither satisfies `CANPRIMITIVE` or `ISODDBALL`. -/
theorem boxed_pointer_round_trip (p : Nat) (h64 : p < 2 ^ 64) (ha : p % 4 = 0) :
    TOJSVALUE (TOPTR p) = p ∧ TOJSVALUE (TOOBJPTR p) = p ∧
    TOPTR p % 4 = 1 ∧ TOOBJPTR p % 4 = 3 ∧
    ISPOINTER (TOPTR p) = true ∧ ISPOINTER (TOOBJPTR p) = true ∧
    CANPRIMITIVE (TOPTR p) = false ∧ CANPRIMITIVE (TOOBJPTR p) = false ∧
    ISODDBALL (TOPTR p) = false ∧ ISODDBALL (TOOBJPTR p) = false := by
  have hp : p &&& not3 = p := by rw [land_not3 p h64]; omega
  have h1 : TOPTR p = p + 1 := by
    unfold TOPTR
    rw [hp]
    exact Nat.mod_eq_of_lt (by omega)
  have h3 : TOOBJPTR p = p + 3 := by
    unfold TOOBJPTR
    rw [hp]
    exact Nat.mod_eq_of_lt (by omega)
  have e1 : TOJSVALUE (p + 1) = p := by
    unfold TOJSVALUE
    rw [land_not3 (p + 1) (by omega)]
    omega
  have e3 : TOJSVALUE (p + 3) = p := by
    unfold TOJSVALUE
    rw [land_not3 (p + 3) (by omega)]
    omega
  have m1 : (p + 1) % 4 = 1 := by omega
  have m3 : (p + 3) % 4 = 3 := by omega
  have n1 : (p + 1) % 2 = 1 := by omega
  have n3 : (p + 3) % 2 = 1 := by omega
  rw [h1, h3]
  refine ⟨e1, e3, m1, m3, ?_, ?_, ?_, ?_, ?_, ?_⟩
  · simp [ISPOINTER, Nat.and_one_is_mod, n1]
  · simp [ISPOINTER, Nat.and_one_is_mod, n3]
  · simp [CANPRIMITIVE, land_three, m1]
  · simp [CANPRIMITIVE, land_three, m3]
  · simp [ISODDBALL, land_three, m1]
  · simp [ISODDBALL, land_three, m3]

theorem boxed_pointer_round_trip_witness :
    TOJSVALUE (TOPTR 4096) = 4096 ∧ TOJSVALUE (TOOBJPTR 4096) = 4096 ∧
    TOPTR 4096 % 4 = 1 ∧ TOOBJPTR 4096 % 4 = 3 ∧
    ISPOINTER (TOPTR 4096) = true ∧ ISPOINTER (TOOBJPTR 4096) = true ∧
    CANPRIMITIVE (TOPTR 4096) = false ∧ CANPRIMITIVE (TOOBJPTR 4096) = false ∧
    ISODDBALL (TOPTR 4096) = false ∧ ISODDBALL (TOOBJPTR 4096) = false :=
  boxed_pointer_round_trip 4096 (by decide) (by decide)

theorem wrapInt_eq (n : Int) (hlo : -(2 ^ 31) ≤ n) (hhi : n < 2 ^ 31) : wrapInt n = n := by
  unfold wrapInt
  omega

/-- C23 (release to zero): on a handle whose external count is 1 and which holds its
self-reference (two owners: the creator and `m_self`), `releaseJavaReference` brings
the count to 0 but the handle still holds its self-reference and still has both
owners: only the local copy of the self-reference was reset, so the record is not
disposed. -/
theorem releaseJavaReference_keeps_self :
    exRetainedOnce.m_count = 1 ∧ exRetainedOnce.m_self = true ∧
    exRetainedOnce.releaseJavaReference.m_count = 0 ∧
    exRetainedOnce.releaseJavaReference.m_self = true ∧
    exRetainedOnce.releaseJavaReference.use_count = exRetainedOnce.use_count := by
  decide

/-- The self-reference is never cleared by a release, whatever the count. -/
theorem releaseJavaReference_m_self (h : JSValue) :
    h.releaseJavaReference.m_self = h.m_self ∧
    h.releaseJavaReference.use_count = h.use_count := by
  unfold JSValue.releaseJavaReference
  by_cases h0 : wrapInt (h.m_count - 1) = 0
  · cases hs : h.m_self <;> simp [h0, hs]
  · simp [h0]

/-- C25, within the range of the counter: for every handle with external count `n`,
`0 ≤ n < 2^31 - 1`, retain followed by release leaves the count equal to `n`, retain
increases the count by exactly 1 and release decreases it by exactly 1. -/
theorem retain_release_balance (h : JSValue) (h0 : 0 ≤ h.m_count)
    (hmax : h.m_count < 2 ^ 31 - 1) :
    h.retainJavaReference.releaseJavaReference.m_count = h.m_count ∧
    h.retainJavaReference.m_count = h.m_count + 1 ∧
    h.releaseJavaReference.m_count = h.m_count - 1 := by
  have hr : h.retainJavaReference.m_count = h.m_count + 1 := by
    show wrapInt (h.m_count + 1) = h.m_count + 1
    exact wrapInt_eq _ (by omega) (by omega)
  have hl : ∀ g : JSValue, g.releaseJavaReference.m_count = wrapInt (g.m_count - 1) := by
    intro g
    unfold JSValue.releaseJavaReference
    by_cases hz : wrapInt (g.m_count - 1) = 0
    · simp [hz]
    · simp [hz]
  refine ⟨?_, hr, ?_⟩
  · have e : h.m_count + 1 - 1 = h.m_count := by omega
    rw [hl, hr, e]
    exact wrapInt_eq _ (by omega) (by omega)
  · rw [hl]
    exact wrapInt_eq _ (by omega) (by omega)

theorem retain_release_balance_witness :
    exRetainedOnce.retainJavaReference.releaseJavaReference.m_count
        = exRetainedOnce.m_count ∧
    exRetainedOnce.retainJavaReference.m_count = exRetainedOnce.m_count + 1 ∧
    exRetainedOnce.releaseJavaReference.m_count = exRetainedOnce.m_count - 1 :=
  retain_release_balance exRetainedOnce (by decide) (by decide)

/-- C25 as stated fails at the top of the counter: the handle `exSaturated` has
external count `2^31 - 1 ≥ 0`, and retain wraps the count to `-2^31` instead of
increasing it by 1. -/
theorem retain_wraps :
    0 ≤ exSaturated.m_count ∧
    exSaturated.retainJavaReference.m_count = -2147483648 ∧
    exSaturated.retainJavaReference.m_count ≠ exSaturated.m_count + 1 := by
  decide

/-! ### Fallible entry points -/

theorem storeException_eq (exceptionRef : Option (Option Value)) (exception : Option Value) :
    storeException exceptionRef exception = exceptionRef.map (fun _ => exception) := by
  cases exceptionRef <;> rfl

theorem entryResult_contract (value : Except Value Value)
    (exceptionRef : Option (Option Value)) :
    (entryResult value exceptionRef).contract exceptionRef value := by
  cases value <;> simp [entryResult, EntryResult.contract, storeException_eq]

/-- What the contract says in terms of the reported exception alone. -/
theorem contract_reports (exceptionRef : Option (Option Value))
    (result : Except Value Value) (r : EntryResult) (h : r.contract exceptionRef result) :
    (r.exception ≠ none → r.out = none) ∧ (r.exception = none → r.out ≠ none) ∧
    r.exceptionRef = exceptionRef.map (fun _ => r.exception) ∧
    r.exception = caught result := by
  cases result <;> simp only [EntryResult.contract] at h <;> subst h <;> simp [caught]

theorem regExpFlags_eq (cs : List Char) :
    ∀ flags : RegExpFlags, regExpFlags cs flags =
      { kGlobal := flags.kGlobal || decide ('g' ∈ cs),
        kIgnoreCase := flags.kIgnoreCase || decide ('i' ∈ cs),
        kMultiline := flags.kMultiline || decide ('m' ∈ cs) } := by
  induction cs with
  | nil => intro flags; simp [regExpFlags]
  | cons c cs ih =>
    intro flags
    have hgi : ('g' : Char) ≠ 'i' := by decide
    have hgm : ('g' : Char) ≠ 'm' := by decide
    have him : ('i' : Char) ≠ 'm' := by decide
    by_cases hg : c = 'g'
    · subst hg
      simp [regExpFlags, ih, hgi, hgm, hgi.symm, hgm.symm]
    · by_cases hi : c = 'i'
      · subst hi
        simp [regExpFlags, ih, hgi, him, hgi.symm, him.symm]
      · by_cases hm : c = 'm'
        · subst hm
          simp [regExpFlags, ih, hgm, him, hgm.symm, him.symm]
        · simp [regExpFlags, ih, hg, hi, hm, Ne.symm hg, Ne.symm hi, Ne.symm hm]

theorem regExpFlags_flagsOf (flags_ : String) : regExpFlags flags_.data {} = flagsOf flags_ := by
  rw [regExpFlags_eq]
  simp [flagsOf]

theorem JSObjectMakeDate_defaulted (v8 : V8) (arguments : List Value)
    (exceptionRef : Option (Option Value)) :
    (JSObjectMakeDate v8 arguments exceptionRef).defaulted exceptionRef
      (dateEpoch v8 arguments) v8.DateNew 0 := by
  cases arguments with
  | nil => simp [JSObjectMakeDate, EntryResult.defaulted, dateEpoch, storeException_eq]
  | cons a rest =>
    cases h : v8.ToNumber a <;>
      simp [JSObjectMakeDate, EntryResult.defaulted, dateEpoch, storeException_eq, h]

theorem JSObjectMakeError_defaulted (v8 : V8) (arguments : List Value)
    (exceptionRef : Option (Option Value)) :
    (JSObjectMakeError v8 arguments exceptionRef).defaulted exceptionRef
      (errorMessage v8 arguments) Exception.Error "" := by
  cases arguments with
  | nil => simp [JSObjectMakeError, EntryResult.defaulted, errorMessage, storeException_eq]
  | cons a rest =>
    cases h : v8.ToString a <;>
      simp [JSObjectMakeError, EntryResult.defaulted, errorMessage, storeException_eq, h]

theorem JSObjectMakeRegExp_contract (v8 : V8) (arguments : List Value)
    (exceptionRef : Option (Option Value)) :
    (JSObjectMakeRegExp v8 arguments exceptionRef).contract exceptionRef
      (regExpOperation v8 arguments) := by
  have h0 : regExpFlags [] {} = flagsOf "" := regExpFlags_flagsOf ""
  rcases arguments with _ | ⟨a, _ | ⟨b, rest⟩⟩
  · cases h : v8.RegExpNew "" (flagsOf "") <;>
      simp [JSObjectMakeRegExp, EntryResult.contract, regExpOperation, storeException_eq,
        h0, h]
  · cases ha : v8.ToString a with
    | error e =>
      simp [JSObjectMakeRegExp, EntryResult.contract, regExpOperation, Except.bind,
        storeException_eq, ha]
    | ok pattern =>
      cases h : v8.RegExpNew pattern (flagsOf "") <;>
        simp [JSObjectMakeRegExp, EntryResult.contract, regExpOperation, Except.bind,
          storeException_eq, h0, ha, h]
  · cases ha : v8.ToString a with
    | error e =>
      simp [JSObjectMakeRegExp, EntryResult.contract, regExpOperation, Except.bind,
        storeException_eq, ha]
    | ok pattern =>
      cases hb : v8.ToString b with
      | error e =>
        simp [JSObjectMakeRegExp, EntryResult.contract, regExpOperation, Except.bind,
          storeException_eq, ha, hb]
      | ok flags_ =>
        cases h : v8.RegExpNew pattern (flagsOf flags_) <;>
          simp [JSObjectMakeRegExp, EntryResult.contract, regExpOperation, Except.bind,
            storeException_eq, regExpFlags_flagsOf, ha, hb, h]

theorem JSObjectMakeFunction_contract (v8 : V8) (name : Option String)
    (parameterNames : List String) (body : Option String) (sourceURL : Option String)
    (startingLineNumber : Int) (exceptionRef : Option (Option Value)) :
    (JSObjectMakeFunction v8 name parameterNames body sourceURL startingLineNumber
      exceptionRef).contract exceptionRef
      (functionOperation v8 name parameterNames body sourceURL startingLineNumber) := by
  cases hc : v8.Compile (functionSource name parameterNames body)
      (sourceURL.getD "anonymous") startingLineNumber with
  | error e =>
    simp [JSObjectMakeFunction, EntryResult.contract, functionOperation, Except.bind,
      storeException_eq, hc]
  | ok compiled =>
    cases hr : v8.Run compiled <;>
      simp [JSObjectMakeFunction, EntryResult.contract, functionOperation, Except.bind,
        storeException_eq, hc, hr]

/-- C26, as the code has it: `JSObjectMakeRegExp`, `JSObjectMakeFunction`,
`JSObjectGetProperty`, `JSObjectGetPropertyAtIndex` and, for a non-null function
object, `JSObjectCallAsFunction` and `JSObjectCallAsConstructor` return null whenever
the engine work throws (the coercion of an argument or the engine operation), and
otherwise return the value the engine gave; `JSObjectMakeDate` and `JSObjectMakeError`
never return null: they return the date of the coerced epoch, resp. the error with the
coerced message, and when the coercion throws the date of epoch 0, resp. the error with
the empty message; in all these calls the exception reported is the value the engine
threw, a supplied out-parameter holds it when there is one and is set to null
otherwise; and with a null function object `JSObjectCallAsFunction` and
`JSObjectCallAsConstructor` return null at once and leave the out-parameter as it
was. -/
theorem entry_points_contract (v8 : V8) (exceptionRef : Option (Option Value))
    (arguments : List Value) (name body sourceURL : Option String)
    (parameterNames : List String) (startingLineNumber : Int) (object : Value)
    (propertyName : String) (propertyIndex : Nat) (thisObject : Option Value)
    (nullableArguments : List (Option Value)) :
    (JSObjectMakeRegExp v8 arguments exceptionRef).contract exceptionRef
      (regExpOperation v8 arguments) ∧
    (JSObjectMakeFunction v8 name parameterNames body sourceURL startingLineNumber
      exceptionRef).contract exceptionRef
      (functionOperation v8 name parameterNames body sourceURL startingLineNumber) ∧
    (JSObjectGetProperty v8 object propertyName exceptionRef).contract exceptionRef
      (v8.Get object propertyName) ∧
    (JSObjectGetPropertyAtIndex v8 object propertyIndex exceptionRef).contract exceptionRef
      (v8.GetIndex object propertyIndex) ∧
    (JSObjectCallAsFunction v8 (some object) thisObject nullableArguments
      exceptionRef).contract exceptionRef
      (v8.CallAsFunction object (thisObject.getD Value.null)
        (nullableArguments.map (fun argument => argument.getD Value.null))) ∧
    (JSObjectCallAsConstructor v8 (some object) arguments exceptionRef).contract
      exceptionRef (v8.CallAsConstructor object arguments) ∧
    (JSObjectMakeDate v8 arguments exceptionRef).defaulted exceptionRef
      (dateEpoch v8 arguments) v8.DateNew 0 ∧
    (JSObjectMakeError v8 arguments exceptionRef).defaulted exceptionRef
      (errorMessage v8 arguments) Exception.Error "" ∧
    JSObjectCallAsFunction v8 none thisObject nullableArguments exceptionRef =
      { out := none, exception := none, exceptionRef := exceptionRef } ∧
    JSObjectCallAsConstructor v8 none arguments exceptionRef =
      { out := none, exception := none, exceptionRef := exceptionRef } :=
  ⟨JSObjectMakeRegExp_contract v8 arguments exceptionRef,
    JSObjectMakeFunction_contract v8 name parameterNames body sourceURL startingLineNumber
      exceptionRef,
    entryResult_contract _ exceptionRef, entryResult_contract _ exceptionRef,
    entryResult_contract _ exceptionRef, entryResult_contract _ exceptionRef,
    JSObjectMakeDate_defaulted v8 arguments exceptionRef,
    JSObjectMakeError_defaulted v8 arguments exceptionRef, rfl, rfl⟩

/-- Witness of C26 on the engine `exV8`: reading the property "boom" throws, the
result is null and the supplied out-parameter holds the thrown value; reading another
property returns the engine's value and sets the out-parameter to null; a regular
expression with the flags "gi" is made with exactly these flags, and one whose pattern
the engine refuses reports what the engine threw; a function is compiled from the
source text built from the name, the parameters and the body. -/
theorem entry_points_contract_witness :
    JSObjectGetProperty exV8 (Value.object 7) "boom" (some none) =
      { out := none, exception := some (Value.error "boom"),
        exceptionRef := some (some (Value.error "boom")) } ∧
    JSObjectGetProperty exV8 (Value.object 7) "x" (some (some (Value.string "stale"))) =
      { out := some (Value.number 1), exception := none, exceptionRef := some none } ∧
    regExpFlags "gi".data {} = { kGlobal := true, kIgnoreCase := true } ∧
    JSObjectMakeRegExp exV8 [Value.string "(", Value.string "gi"] (some none) =
      { out := none, exception := some (Value.error "SyntaxError"),
        exceptionRef := some (some (Value.error "SyntaxError")) } ∧
    functionSource (some "add") ["a", "b"] (some "return a+b;") =
      "(function add(a,b) \x7b return a+b;\n\x7d)" ∧
    functionSource none [] none = "(function () \x7b \n\x7d)" ∧
    JSObjectMakeFunction exV8 (some "add") ["a", "b"] (some "return a+b;") none 1 none =
      { out := some (Value.object 35), exception := none, exceptionRef := none } ∧
    (JSObjectGetProperty exV8 (Value.object 7) "boom" (some none)).contract (some none)
      (exV8.Get (Value.object 7) "boom") ∧
    (JSObjectMakeDate exV8 [Value.string "x"] (some none)).defaulted (some none)
      (dateEpoch exV8 [Value.string "x"]) exV8.DateNew 0 :=
  ⟨by decide, by decide, by decide, by decide, by decide, by decide, by decide,
    (entry_points_contract exV8 (some none) [Value.string "x"] none none none [] 1
      (Value.object 7) "boom" 0 none []).2.2.1,
    (entry_points_contract exV8 (some none) [Value.string "x"] none none none [] 1
      (Value.object 7) "boom" 0 none []).2.2.2.2.2.2.1⟩

/-- C26 as stated fails for `JSObjectMakeDate` and `JSObjectMakeError`: on the engine
`exV8` the conversion of the argument throws, the exception is reported through the
out-parameter, and the returned result is not null but the date of epoch 0, resp. the
error with the empty message. -/
theorem JSObjectMakeDate_default_on_exception :
    JSObjectMakeDate exV8 [Value.string "x"] (some none) =
      { out := some (exV8.DateNew 0),
        exception := some (Value.error "TypeError: not a number"),
        exceptionRef := some (some (Value.error "TypeError: not a number")) } ∧
    (JSObjectMakeDate exV8 [Value.string "x"] (some none)).out ≠ none ∧
    JSObjectMakeError exV8 [Value.number 3] (some none) =
      { out := some (Exception.Error ""),
        exception := some (Value.error "TypeError: not a string"),
        exceptionRef := some (some (Value.error "TypeError: not a string")) } ∧
    (JSObjectMakeError exV8 [Value.number 3] (some none)).out ≠ none := by
  decide

/-! ### The reference count of the class -/

theorem refCount_append (a b : List Step) :
    ∀ count : Int, refCount (a ++ b) count = refCount b (refCount a count) := by
  induction a with
  | nil => intro count; rfl
  | cons x rest ih =>
    intro count
    cases x <;> simp [refCount, ih]

theorem refCount_hooks (calls : List Call) (count : Int) :
    refCount (calls.map Step.hook) count = count := by
  induction calls with
  | nil => rfl
  | cons c rest ih => simpa [refCount] using ih

theorem count_hooks (calls : List Call) :
    (calls.map Step.hook).count Step.retain = 0 ∧
    (calls.map Step.hook).count Step.release = 0 := by
  induction calls with
  | nil => simp
  | cons c rest ih => simp [List.count_cons, ih]

theorem refCount_repeatSteps (steps : List Step) (delta : Int)
    (h : ∀ count, refCount steps count = count + delta) :
    ∀ (k : Nat) (count : Int), refCount (repeatSteps k steps) count = count + k * delta := by
  intro k
  induction k with
  | zero => intro count; simp [repeatSteps, refCount]
  | succ k ih =>
    intro count
    rw [repeatSteps, refCount_append, h, ih]
    push_cast
    ring

/-- C27 (class reference balance): instantiating an object of a class (a non-empty
chain, given enough fuel for the initialization loop) retains the class exactly once
and never releases it; finalizing the object releases the class exactly once, as the
last step after all finalize hooks, and never retains it; so across the lifetime of
one instance the reference count returns to its prior value, and after `k`
instantiations of which `j ≤ k` have been finalized it exceeds the prior count by
exactly `k - j`, the number of live instances. -/
theorem class_reference_balance (m_definition : List JSClassDefinition) (fuel : Nat)
    (hne : m_definition ≠ []) (hfuel : m_definition.length ≤ fuel) (count : Int) :
    ∃ steps, InitInstanceSteps fuel m_definition = some steps ∧
      steps.count Step.retain = 1 ∧ steps.count Step.release = 0 ∧
      (FinalizeSteps m_definition).count Step.release = 1 ∧
      (FinalizeSteps m_definition).count Step.retain = 0 ∧
      FinalizeSteps m_definition =
        (Finalize m_definition).map Step.hook ++ [Step.release] ∧
      refCount steps count = count + 1 ∧
      refCount (FinalizeSteps m_definition) (count + 1) = count ∧
      refCount (steps ++ FinalizeSteps m_definition) count = count ∧
      (∀ k : Nat, refCount (repeatSteps k steps) count = count + k) ∧
      ∀ k j : Nat, j ≤ k →
        refCount (repeatSteps k steps ++ repeatSteps j (FinalizeSteps m_definition)) count
          = count + (k - j : Nat) := by
  have hinit := InitInstance_eq fuel m_definition hne hfuel
  have hs : ∀ calls : List Call, ∀ c : Int,
      refCount (Step.retain :: calls.map Step.hook) c = c + 1 := by
    intro calls c
    simp [refCount, refCount_hooks, retain]
  have hf : ∀ c : Int, refCount (FinalizeSteps m_definition) c = c + (-1) := by
    intro c
    simp only [FinalizeSteps, refCount_append, refCount_hooks, refCount, release]
    ring
  refine ⟨Step.retain ::
      ((levelsWhere (fun d => d.initialize_) m_definition 0).reverse.map
        Call.initialize_).map Step.hook,
    by simp only [InitInstanceSteps, hinit, Option.map_some'], ?_, ?_, ?_, ?_, rfl,
    hs _ _, ?_, ?_, ?_, ?_⟩
  · rw [List.count_cons, (count_hooks _).1]
    simp
  · rw [List.count_cons, (count_hooks _).2]
    simp
  · simp [FinalizeSteps, List.count_append, (count_hooks _).2]
  · simp [FinalizeSteps, List.count_append, (count_hooks _).1]
  · rw [hf]; ring
  · rw [refCount_append, hs, hf]; ring
  · intro k
    rw [refCount_repeatSteps _ 1 (hs _) k count]
    ring
  · intro k j hjk
    rw [refCount_append, refCount_repeatSteps _ 1 (hs _) k count,
      refCount_repeatSteps _ (-1) hf j]
    push_cast [Nat.cast_sub hjk]
    ring

/-- Witness of C27 on the chain `exLifecycleABC`: one instance retains once and
releases once, after the finalize hooks. -/
theorem class_reference_balance_witness :
    ∃ steps, InitInstanceSteps 3 exLifecycleABC = some steps ∧
      steps.count Step.retain = 1 ∧ steps.count Step.release = 0 ∧
      (FinalizeSteps exLifecycleABC).count Step.release = 1 ∧
      (FinalizeSteps exLifecycleABC).count Step.retain = 0 ∧
      FinalizeSteps exLifecycleABC =
        (Finalize exLifecycleABC).map Step.hook ++ [Step.release] ∧
      refCount steps 1 = 1 + 1 ∧
      refCount (FinalizeSteps exLifecycleABC) (1 + 1) = 1 ∧
      refCount (steps ++ FinalizeSteps exLifecycleABC) 1 = 1 ∧
      (∀ k : Nat, refCount (repeatSteps k steps) 1 = 1 + k) ∧
      ∀ k j : Nat, j ≤ k →
        refCount (repeatSteps k steps ++ repeatSteps j (FinalizeSteps exLifecycleABC)) 1
          = 1 + (k - j : Nat) :=
  class_reference_balance exLifecycleABC 3 (by simp [exLifecycleABC]) (by decide) 1

/-! ### Termination of the chain walks -/

theorem heapWalk_chain (heap : ClassHeap) :
    ∀ (chain : List Nat) (d : Nat) (fuel : Nat), isChain heap (d :: chain) = true →
      chain.length < fuel → heapWalk heap fuel (some d) = some (d :: chain) := by
  intro chain
  induction chain with
  | nil =>
    intro d fuel h hf
    obtain ⟨fuel, rfl⟩ : ∃ f, fuel = f + 1 := ⟨fuel - 1, by simp at hf; omega⟩
    simp only [isChain, beq_iff_eq] at h
    simp only [heapWalk, h]
    cases fuel <;> simp [heapWalk]
  | cons p rest ih =>
    intro d fuel h hf
    obtain ⟨fuel, rfl⟩ : ∃ f, fuel = f + 1 := ⟨fuel - 1, by simp at hf; omega⟩
    simp only [isChain, Bool.and_eq_true, beq_iff_eq] at h
    simp only [heapWalk, h.1]
    rw [ih p fuel h.2 (by simp at hf ⊢; omega)]
    rfl

theorem heapWalk_cycle (heap : ClassHeap) (d : Nat) (h : heap.parentClass d = some d) :
    ∀ fuel, heapWalk heap fuel (some d) = none := by
  intro fuel
  induction fuel with
  | zero => rfl
  | succ fuel ih => simp [heapWalk, h, ih]

theorem heapGreatestAncestor_chain (heap : ClassHeap) :
    ∀ (chain : List Nat) (d : Nat) (fuel : Nat), isChain heap (d :: chain) = true →
      chain.length < fuel →
      heapGreatestAncestor heap fuel d = some ((d :: chain).getLast (by simp)) := by
  intro chain
  induction chain with
  | nil =>
    intro d fuel h hf
    obtain ⟨fuel, rfl⟩ : ∃ f, fuel = f + 1 := ⟨fuel - 1, by simp at hf; omega⟩
    simp only [isChain, beq_iff_eq] at h
    simp [heapGreatestAncestor, h]
  | cons p rest ih =>
    intro d fuel h hf
    obtain ⟨fuel, rfl⟩ : ∃ f, fuel = f + 1 := ⟨fuel - 1, by simp at hf; omega⟩
    simp only [isChain, Bool.and_eq_true, beq_iff_eq] at h
    simp only [heapGreatestAncestor, h.1]
    rw [ih p fuel h.2 (by simp at hf ⊢; omega)]
    simp

/-- The inner loop finds the child. -/
theorem heapFindChild_chain (heap : ClassHeap) (child parent : Nat) (rest : List Nat) :
    ∀ (before : List Nat) (fuel : Nat),
      isChain heap (before ++ child :: parent :: rest) = true →
      parent ∉ before → parent ≠ child → before.length < fuel →
      heapFindChild heap parent fuel ((before ++ [child]).head (by simp)) = some child := by
  intro before
  induction before with
  | nil =>
    intro fuel h _ _ hf
    obtain ⟨fuel, rfl⟩ : ∃ f, fuel = f + 1 := ⟨fuel - 1, by simp at hf; omega⟩
    simp only [List.nil_append, isChain, Bool.and_eq_true, beq_iff_eq] at h
    simp [heapFindChild, h.1]
  | cons x before ih =>
    intro fuel h hmem hne hf
    obtain ⟨fuel, rfl⟩ : ∃ f, fuel = f + 1 := ⟨fuel - 1, by simp at hf; omega⟩
    have hmem2 : parent ∉ before := fun hp => hmem (List.mem_cons_of_mem _ hp)
    cases before with
    | nil =>
      simp only [List.cons_append, List.nil_append, isChain, Bool.and_eq_true,
        beq_iff_eq] at h
      have := ih fuel (by simp [isChain, h.2.1, h.2.2]) hmem2 hne (by simp at hf ⊢; omega)
      simp only [List.nil_append, List.head_cons] at this
      simp only [List.cons_append, List.head_cons, heapFindChild, h.1]
      simp [Ne.symm hne, this]
    | cons y before =>
      simp only [List.cons_append, isChain, Bool.and_eq_true, beq_iff_eq] at h
      have hy : parent ≠ y := fun hp => hmem (by simp [hp])
      have := ih fuel (by simpa [isChain] using h.2) hmem2 hne (by simp at hf ⊢; omega)
      simp only [List.cons_append, List.head_cons] at this
      simp only [List.cons_append, List.head_cons, heapFindChild, h.1]
      simp [Ne.symm hy, this]

theorem isChain_unique (heap : ClassHeap) :
    ∀ (l1 l2 : List Nat) (d : Nat), isChain heap (d :: l1) = true →
      isChain heap (d :: l2) = true → l1 = l2 := by
  intro l1
  induction l1 with
  | nil =>
    intro l2 d h1 h2
    cases l2 with
    | nil => rfl
    | cons q r2 =>
      simp only [isChain, Bool.and_eq_true, beq_iff_eq] at h1 h2
      rw [h1] at h2
      exact absurd h2.1 (by simp)
  | cons p r ih =>
    intro l2 d h1 h2
    cases l2 with
    | nil =>
      simp only [isChain, Bool.and_eq_true, beq_iff_eq] at h1 h2
      rw [h2] at h1
      exact absurd h1.1 (by simp)
    | cons q r2 =>
      simp only [isChain, Bool.and_eq_true, beq_iff_eq] at h1 h2
      have e : p = q := by
        have := h1.1.symm.trans h2.1
        simpa using this
      subst e
      rw [ih r2 p h1.2 h2.2]

theorem isChain_suffix (heap : ClassHeap) (d : Nat) (suf : List Nat) :
    ∀ before : List Nat, isChain heap (before ++ d :: suf) = true →
      isChain heap (d :: suf) = true := by
  intro before
  induction before with
  | nil => intro h; exact h
  | cons x before ih =>
    intro h
    apply ih
    cases before with
    | nil =>
      simp only [List.cons_append, List.nil_append, isChain, Bool.and_eq_true] at h
      exact h.2
    | cons y before =>
      simp only [List.cons_append, isChain, Bool.and_eq_true] at h
      exact h.2

/-- A chain that follows `parentClass` and ends where it is null consists of distinct
definitions. -/
theorem isChain_nodup (heap : ClassHeap) :
    ∀ chain : List Nat, isChain heap chain = true → chain.Nodup := by
  intro chain
  induction chain with
  | nil => intro _; exact List.nodup_nil
  | cons d rest ih =>
    intro h
    rw [List.nodup_cons]
    refine ⟨fun hmem => ?_, ?_⟩
    · obtain ⟨before, suf, e⟩ := List.append_of_mem hmem
      rw [e] at h
      have h2 := isChain_suffix heap d suf (d :: before) (by simpa using h)
      have e2 := isChain_unique heap _ _ d h h2
      have := congrArg List.length e2
      simp at this
      omega
    · cases rest with
      | nil => exact List.nodup_nil
      | cons p rest =>
        simp only [isChain, Bool.and_eq_true] at h
        exact ih h.2

theorem heapInitializeLoop_step (heap : ClassHeap) (m_definition inner : Nat)
    (bs : List Nat) (b c : Nat) (after : List Nat) (fuel : Nat) (visited calls : List Nat)
    (hc : isChain heap (bs ++ b :: c :: after) = true)
    (hm : (bs ++ b :: c :: after).head? = some m_definition) (hlen : bs.length < inner) :
    heapInitializeLoop heap m_definition inner (fuel + 1) c (visited, calls) =
      heapInitializeLoop heap m_definition inner fuel b
        (visited ++ [c], if heap.initialize_ c then calls ++ [c] else calls) := by
  have hnd := isChain_nodup heap _ hc
  have hcb : c ∉ bs ∧ c ≠ b := by
    have h1 := (List.nodup_append.1 hnd).2.2
    have h2 := (List.nodup_append.1 hnd).2.1
    refine ⟨fun hmem => ?_, fun hcb => ?_⟩
    · exact h1 hmem (by simp)
    · rw [List.nodup_cons] at h2
      exact h2.1 (by simp [hcb])
  have hhead : (bs ++ [b]).head (by simp) = m_definition := by
    cases bs with
    | nil =>
      simp only [List.nil_append, List.head?_cons, Option.some.injEq] at hm
      simpa using hm
    | cons x bs =>
      simp only [List.cons_append, List.head?_cons, Option.some.injEq] at hm
      simpa using hm
  have hmem : m_definition ∈ bs ++ [b] := by
    rw [← hhead]
    exact List.head_mem _
  have hcm : c ≠ m_definition := by
    intro h
    rw [← h] at hmem
    rcases List.mem_append.1 hmem with h1 | h1
    · exact hcb.1 h1
    · exact hcb.2 (by simpa using h1)
  have hchild := heapFindChild_chain heap b c after bs inner hc hcb.1 hcb.2 hlen
  rw [hhead] at hchild
  simp only [heapInitializeLoop, hcm, if_false, hchild]

/-- The loop `while (true)` of `InitInstance` on a heap, started at the definition `c`
of the chain with more iterations allowed than there are definitions before `c`:
it visits `c` and the definitions before it once each, backwards, and calls
`initialize` where it is set. -/
theorem heapInitializeLoop_chain (heap : ClassHeap) (m_definition inner : Nat) :
    ∀ (before : List Nat) (c : Nat) (after : List Nat) (fuel : Nat)
      (visited calls : List Nat),
      isChain heap (before ++ c :: after) = true →
      (before ++ c :: after).head? = some m_definition →
      before.length < inner → before.length < fuel →
      heapInitializeLoop heap m_definition inner fuel c (visited, calls) =
        some (visited ++ (before ++ [c]).reverse,
          calls ++ ((before ++ [c]).filter heap.initialize_).reverse) := by
  intro before
  induction before using List.reverseRecOn with
  | nil =>
    intro c after fuel visited calls _ hm _ hf
    obtain ⟨fuel, rfl⟩ : ∃ f, fuel = f + 1 := ⟨fuel - 1, by simp at hf; omega⟩
    simp only [List.nil_append, List.head?_cons, Option.some.injEq] at hm
    subst hm
    cases hi : heap.initialize_ c <;> simp [heapInitializeLoop, hi, List.filter]
  | append_singleton bs b ih =>
    intro c after fuel visited calls hc hm hin hf
    obtain ⟨fuel, rfl⟩ : ∃ f, fuel = f + 1 := ⟨fuel - 1, by omega⟩
    have e : bs ++ [b] ++ c :: after = bs ++ b :: c :: after := by simp
    rw [e] at hc hm
    have hlen : bs.length < inner := by simp at hin; omega
    rw [heapInitializeLoop_step heap m_definition inner bs b c after fuel visited calls hc hm
      hlen, ih b (c :: after) fuel _ _ hc hm hlen (by simp at hf; omega)]
    have hfil : (bs ++ [b] ++ [c]).filter heap.initialize_ =
        (bs ++ [b]).filter heap.initialize_ ++ (if heap.initialize_ c then [c] else []) := by
      rw [List.filter_append (bs ++ [b]) [c]]
      cases hi : heap.initialize_ c <;> simp [List.filter, hi]
    rw [hfil]
    cases hi : heap.initialize_ c <;> simp

/-- The same loop with no more iterations allowed than there are definitions before
`c` does not return. -/
theorem heapInitializeLoop_fuel (heap : ClassHeap) (m_definition inner : Nat) :
    ∀ (before : List Nat) (c : Nat) (after : List Nat) (fuel : Nat)
      (visited calls : List Nat),
      isChain heap (before ++ c :: after) = true →
      (before ++ c :: after).head? = some m_definition →
      before.length < inner → fuel ≤ before.length →
      heapInitializeLoop heap m_definition inner fuel c (visited, calls) = none := by
  intro before
  induction before using List.reverseRecOn with
  | nil =>
    intro c after fuel visited calls _ _ _ hf
    obtain rfl : fuel = 0 := by simpa using hf
    rfl
  | append_singleton bs b ih =>
    intro c after fuel visited calls hc hm hin hf
    cases fuel with
    | zero => rfl
    | succ fuel =>
      have e : bs ++ [b] ++ c :: after = bs ++ b :: c :: after := by simp
      rw [e] at hc hm
      have hlen : bs.length < inner := by simp at hin; omega
      rw [heapInitializeLoop_step heap m_definition inner bs b c after fuel visited calls hc
        hm hlen]
      exact ih b (c :: after) fuel _ _ hc hm hlen (by simp at hf; omega)

/-- C28 (termination of chain walks): on a heap where the addresses `chain` are the
class chain of `m_definition` (each definition followed by its parent, the last one
without parent, so the parent relation is acyclic from `m_definition`), the chain
consists of distinct definitions; the walk `while (definition)` terminates after one
iteration per level, having visited the chain; the initialization loop of
`InitInstance` terminates once at least one iteration per level is allowed, having
been at every level exactly once from the root back to the instance's own definition
and having called `initialize` at the declaring levels, and does not terminate within
fewer iterations; and the inner loop always finds the child of the level just
initialized. -/
theorem chain_walks_terminate (heap : ClassHeap) (chain : List Nat) (m_definition : Nat)
    (hchain : isChain heap chain = true) (hhead : chain.head? = some m_definition) :
    chain.Nodup ∧
    (∀ fuel, chain.length ≤ fuel → heapWalk heap fuel (some m_definition) = some chain) ∧
    (∀ inner fuel, chain.length ≤ inner → chain.length ≤ fuel →
      heapInitInstance heap inner fuel m_definition =
        some (chain.reverse, (chain.filter heap.initialize_).reverse)) ∧
    (∀ inner fuel, chain.length ≤ inner → fuel < chain.length →
      heapInitInstance heap inner fuel m_definition = none) ∧
    (∀ before child parent after, chain = before ++ child :: parent :: after →
      ∀ inner, chain.length ≤ inner →
        heapFindChild heap parent inner m_definition = some child) := by
  cases chain with
  | nil => simp [isChain] at hchain
  | cons d rest =>
    simp only [List.head?_cons, Option.some.injEq] at hhead
    subst hhead
    have hnd := isChain_nodup heap _ hchain
    have hsplit : (d :: rest).dropLast ++ [(d :: rest).getLast (by simp)] = d :: rest :=
      List.dropLast_append_getLast _
    have hdl : (d :: rest).dropLast.length = rest.length := by simp
    have hc2 : isChain heap ((d :: rest).dropLast ++ (d :: rest).getLast (by simp) :: [])
        = true := by rw [hsplit]; exact hchain
    have hm2 : ((d :: rest).dropLast ++ (d :: rest).getLast (by simp) :: []).head?
        = some d := by rw [hsplit]; rfl
    refine ⟨hnd, ?_, ?_, ?_, ?_⟩
    · intro fuel hf
      exact heapWalk_chain heap rest d fuel hchain (by simp at hf; omega)
    · intro inner fuel hi hf
      simp only [List.length_cons] at hi hf
      rw [heapInitInstance, heapGreatestAncestor_chain heap rest d inner hchain (by omega)]
      simp only
      rw [heapInitializeLoop_chain heap d inner _ _ [] fuel [] [] hc2 hm2 (by omega) (by omega),
        hsplit]
      simp
    · intro inner fuel hi hf
      simp only [List.length_cons] at hi hf
      rw [heapInitInstance, heapGreatestAncestor_chain heap rest d inner hchain (by omega)]
      simp only
      exact heapInitializeLoop_fuel heap d inner _ _ [] fuel [] [] hc2 hm2 (by omega) (by omega)
    · intro before child parent after e inner hi
      rw [e] at hchain hnd hi
      have hp : parent ∉ before ∧ parent ≠ child := by
        have h1 := (List.nodup_append.1 hnd).2.2
        have h2 := (List.nodup_append.1 hnd).2.1
        refine ⟨fun hmem => ?_, fun hcb => ?_⟩
        · exact h1 hmem (by simp)
        · rw [List.nodup_cons] at h2
          exact h2.1 (by simp [hcb])
      have := heapFindChild_chain heap child parent after before inner hchain hp.1 hp.2
        (by simp at hi; omega)
      have hh : (before ++ [child]).head (by simp) = d := by
        cases before with
        | nil =>
          simp only [List.nil_append, List.cons.injEq] at e
          simpa using e.1.symm
        | cons x before =>
          simp only [List.cons_append, List.cons.injEq] at e
          simpa using e.1.symm
      rwa [hh] at this

/-- Witness of C28 on the heap `exHeap` with the chain 10 → 20 → 30. -/
theorem chain_walks_terminate_witness :
    [10, 20, 30].Nodup ∧
    heapInitInstance exHeap 3 3 10 = some ([30, 20, 10], [30, 10]) ∧
    heapInitInstance exHeap 3 2 10 = none := by
  obtain ⟨h1, _, h3, h4, _⟩ := chain_walks_terminate exHeap [10, 20, 30] 10 (by decide) rfl
  exact ⟨h1, h3 3 3 (by decide) (by decide), h4 3 2 (by decide) (by decide)⟩

/-! ### The displayed class name -/

theorem classNameWalk_spec (ds : List JSClassDefinition) :
    ∀ level : Nat, ∃ source name, classNameWalk ds level = some (source, name) ∧
      (∀ k, source = some k → level ≤ k ∧ ∃ d, ds[k - level]? = some d ∧
        d.className = some name ∧
        ∀ i di, i < k - level → ds[i]? = some di → di.className = none) ∧
      (source = none ↔ ∀ d ∈ ds, d.className = none) ∧
      (source = none → name = "CallbackObject") := by
  induction ds with
  | nil =>
    intro level
    exact ⟨none, "CallbackObject", rfl, by simp, by simp, fun _ => rfl⟩
  | cons d ds ih =>
    intro level
    cases hc : d.className with
    | some s =>
      refine ⟨some level, s, by simp [classNameWalk, hc], ?_, ?_, by simp⟩
      · intro k hk
        simp only [Option.some.injEq] at hk
        subst hk
        exact ⟨le_refl _, d, by simp, hc, by simp⟩
      · constructor
        · intro h
          exact absurd h (by simp)
        · intro h
          have := h d (by simp)
          rw [hc] at this
          exact absurd this (by simp)
    | none =>
      obtain ⟨source, name, h1, h2, h3, h4⟩ := ih (level + 1)
      refine ⟨source, name, by simp [classNameWalk, hc, h1], ?_, ?_, h4⟩
      · intro k hk
        obtain ⟨hle, d2, hd2, hn, hbefore⟩ := h2 k hk
        have e : k - level = (k - (level + 1)) + 1 := by omega
        refine ⟨by omega, d2, by rw [e]; simpa using hd2, hn, ?_⟩
        intro i di hi hdi
        cases i with
        | zero =>
          simp only [List.getElem?_cons_zero, Option.some.injEq] at hdi
          rw [← hdi]
          exact hc
        | succ i =>
          simp only [List.getElem?_cons_succ] at hdi
          exact hbefore i di (by omega) hdi
      · rw [h3]
        simp [hc]

/-- C29 (displayed class name): for every class chain the loop of `InitInstance` sets
a type tag; the name set is the `className` of the nearest level, from the instance's
own definition toward the root, that declares one, all levels before it declaring
none; and it is the generic literal "CallbackObject" of the loop exactly when no level
of the chain declares a class name. -/
theorem InitInstance_className (definition : List JSClassDefinition) :
    ∃ source name, classNameWalk definition 0 = some (source, name) ∧
      (∀ k, source = some k → ∃ d, definition[k]? = some d ∧ d.className = some name ∧
        ∀ i di, i < k → definition[i]? = some di → di.className = none) ∧
      (source = none ↔ ∀ d ∈ definition, d.className = none) ∧
      (source = none → name = "CallbackObject") ∧
      (∀ k d n, definition[k]? = some d → d.className = some n →
        (∀ i di, i < k → definition[i]? = some di → di.className = none) →
        source = some k ∧ name = n) := by
  obtain ⟨source, name, h1, h2, h3, h4⟩ := classNameWalk_spec definition 0
  refine ⟨source, name, h1, ?_, h3, h4, ?_⟩
  · intro k hk
    obtain ⟨_, d, hd, hn, hb⟩ := h2 k hk
    exact ⟨d, hd, hn, hb⟩
  · intro k d n hd hn hbefore
    cases hs : source with
    | none =>
      have := (h3.1 hs) d (List.getElem?_mem hd)
      rw [hn] at this
      exact absurd this (by simp)
    | some j =>
      obtain ⟨_, dj, hdj, hnj, hbj⟩ := h2 j hs
      simp only [Nat.sub_zero] at hdj hbj
      have hjk : j = k := by
        rcases Nat.lt_trichotomy j k with h | h | h
        · have := hbefore j dj h hdj
          rw [hnj] at this
          exact absurd this (by simp)
        · exact h
        · have := hbj k d h hd
          rw [hn] at this
          exact absurd this (by simp)
      subst hjk
      rw [hd] at hdj
      simp only [Option.some.injEq] at hdj
      subst hdj
      rw [hn] at hnj
      simp only [Option.some.injEq] at hnj
      exact ⟨rfl, hnj.symm⟩

/-- Witness of C29: on `exNamedMiddle` the tag is "Shape", the name of level 1, and on
`exUnnamed` it is the generic name. -/
theorem InitInstance_className_witness :
    classNameWalk exNamedMiddle 0 = some (some 1, "Shape") ∧
    classNameWalk exUnnamed 0 = some (none, "CallbackObject") ∧
    ∃ source name, classNameWalk exUnnamed 0 = some (source, name) ∧
      (source = none → name = "CallbackObject") := by
  obtain ⟨source, name, h1, _, _, h4, _⟩ := InitInstance_className exUnnamed
  exact ⟨by decide, by decide, source, name, h1, h4⟩

/-! ### The conversion hint -/

/-- C30 (conversion hint mapping): the type made from the hint is the string kind
exactly when the hint is "string" and the number kind for every other hint, so for
"number", for "default" and for an unrecognized hint; and the hooks that
`ConvertFunctionCallHandler` invokes are all given that type: the callbacks, the
value and the exception of the handler are those of the first-answer walk over the
results of the hooks at the kind of the hint. -/
theorem ConvertFunctionCallHandler_hint (definition : List JSClassDefinition)
    (hint : String) :
    (convertType hint = JSType.kJSTypeString ↔ hint = "string") ∧
    (convertType hint = JSType.kJSTypeNumber ↔ hint ≠ "string") ∧
    convertType "number" = JSType.kJSTypeNumber ∧
    convertType "default" = JSType.kJSTypeNumber ∧
    convertType "" = JSType.kJSTypeNumber ∧
    convertType hint = hintKind hint ∧
    (ConvertFunctionCallHandler definition hint).calls =
      (invoked (convertResult (hintKind hint)) HookResult.quiet definition 0).map
        (fun p => Call.convertToType p.1) ∧
    (ConvertFunctionCallHandler definition hint).returnValue =
      (decided HookResult.quiet
        (invoked (convertResult (hintKind hint)) HookResult.quiet definition 0)).bind
          (fun p => p.2.value) ∧
    (ConvertFunctionCallHandler definition hint).thrown =
      (decided HookResult.quiet
        (invoked (convertResult (hintKind hint)) HookResult.quiet definition 0)).bind
          (fun p => p.2.exception) := by
  have hk : convertType hint = hintKind hint := by
    unfold convertType hintKind
    by_cases hs : hint = "string"
    · subst hs
      decide
    · by_cases hn : hint = "number" <;> simp [hs, hn]
  have h1 : convertType hint = JSType.kJSTypeString ↔ hint = "string" := by
    rw [hk]
    unfold hintKind
    by_cases hs : hint = "string" <;> simp [hs]
  have h2 : convertType hint = JSType.kJSTypeNumber ↔ hint ≠ "string" := by
    rw [hk]
    unfold hintKind
    by_cases hs : hint = "string" <;> simp [hs]
  have h := ConvertFunctionCallHandler_eq definition hint
  rw [hk] at h
  exact ⟨h1, h2, by decide, by decide, by decide, hk, h⟩

end JSC
